import Mathlib

/-!
Verification of the mutation-changelog / undo-redo engine of the Guppy
todo manager.

The embedding models the batch-aware changelog engine (the most advanced
version in the repository): the `sections` and `todos` SQLite tables, the
`changelog` table, the mutation facade (`createSection`, `updateSection`,
`deleteSection`, `createTodo`, `updateTodo`, `deleteTodo`, `moveTodos`,
`markTodosCompleted`, `setTodosPriority`, `setTodosDueDate`) and the
undo/redo engine (`undo`, `redo`, `getLatestActiveChangelogEntry`,
`getLatestUndoneChangelogEntry`, `addChangelogEntry`,
`setChangelogEntryActiveState`, `clearChangelog`).

Modelling conventions:
- Tables are lists sorted strictly by `id` (SQLite's rowid order, which is
  the order a bare SELECT returns rows in).  Dates are natural numbers;
  every exported operation takes the wall-clock time of the call as an
  explicit parameter `t`, and every occurrence of `new Date()` inside a
  call evaluates to that `t`.
- `generateBatchId` (time plus random suffix in the source, with uniqueness
  a hard requirement) is modelled by a fresh-counter `nextBatchId` in the
  state; autoincrement id allocation is modelled by `nextSectionId`,
  `nextTodoId`, `nextChangelogId` counters that never decrease (SQLite
  AUTOINCREMENT never reuses an id).
- The JSON payload column `data` round-trips losslessly through
  `JSON.stringify`/`JSON.parse`/`parseDates` for the row and patch shapes
  the engine stores, so it is modelled as a typed value `EntryData`; the
  `operation` and `table_name` columns are the projections
  `EntryData.operation` and `EntryData.tableName`.
- The better-sqlite3 connection is opened without a foreign-keys pragma,
  so foreign keys are not enforced; the only store operation that throws
  is inserting a row whose primary key already exists.  A thrown storage
  error is modelled by the `Option Bool` result of `undo`/`redo` being
  `none`; since the engine opens no transaction, the table state at the
  moment of the throw is kept and returned alongside.
-/

namespace Guppy

/-- A row of the `sections` table. -/
structure TodoSection where
  id : Nat
  name : String
  order : Int
  createdAt : Nat
  updatedAt : Nat
deriving DecidableEq, Repr

/-- A row of the `todos` table. -/
structure TodoItem where
  id : Nat
  text : String
  completed : Bool
  priority : Int
  sectionId : Nat
  order : Int
  dueDate : Option Nat
  createdAt : Nat
  updatedAt : Nat
deriving DecidableEq, Repr

/-- Insert payload for a new section (`NewTodoSection`): id and timestamps
are assigned by the store. -/
structure NewTodoSection where
  name : String
  order : Int
deriving DecidableEq, Repr

/-- Insert payload for a new todo (`NewTodoItem`). -/
structure NewTodoItem where
  text : String
  completed : Bool
  priority : Int
  sectionId : Nat
  order : Int
  dueDate : Option Nat
deriving DecidableEq, Repr

/-- A partial field map over `sections` rows, as passed to `updateSection`
and as stored in the `old`/`new` halves of an update changelog payload. -/
structure SectionPatch where
  name : Option String := none
  order : Option Int := none
deriving DecidableEq, Repr

/-- A partial field map over `todos` rows. -/
structure TodoPatch where
  text : Option String := none
  completed : Option Bool := none
  priority : Option Int := none
  sectionId : Option Nat := none
  order : Option Int := none
  dueDate : Option (Option Nat) := none
deriving DecidableEq, Repr

/-- The `operation` column of the changelog: the original operation. -/
inductive Operation where
  | insert
  | update
  | delete
deriving DecidableEq, Repr

/-- The `table_name` column of the changelog. -/
inductive TableName where
  | todos
  | sections
deriving DecidableEq, Repr

/-- The JSON `data` payload of a changelog entry, typed by the operation
and table it belongs to: the full inserted row for an insert, the changed
fields as an old/new pair of partial maps for an update, and the full
pre-deletion row for a delete. -/
inductive EntryData where
  | todoInsert (row : TodoItem)
  | sectionInsert (row : TodoSection)
  | todoUpdate (old new : TodoPatch)
  | sectionUpdate (old new : SectionPatch)
  | todoDelete (row : TodoItem)
  | sectionDelete (row : TodoSection)
deriving DecidableEq, Repr

/-- The `operation` column value carried by a payload. -/
def EntryData.operation : EntryData → Operation
  | .todoInsert _ => .insert
  | .sectionInsert _ => .insert
  | .todoUpdate _ _ => .update
  | .sectionUpdate _ _ => .update
  | .todoDelete _ => .delete
  | .sectionDelete _ => .delete

/-- The `table_name` column value carried by a payload. -/
def EntryData.tableName : EntryData → TableName
  | .todoInsert _ => .todos
  | .sectionInsert _ => .sections
  | .todoUpdate _ _ => .todos
  | .sectionUpdate _ _ => .sections
  | .todoDelete _ => .todos
  | .sectionDelete _ => .sections

/-- A row of the `changelog` table. -/
structure ChangelogEntry where
  id : Nat
  isActive : Bool
  batchId : Option Nat
  entityId : Nat
  data : EntryData
  timestamp : Nat
deriving DecidableEq, Repr

/-- The whole observable store: the two entity tables, the changelog, and
the id-allocation / batch-id-generation counters. -/
structure DB where
  sections : List TodoSection
  todos : List TodoItem
  changelog : List ChangelogEntry
  nextSectionId : Nat
  nextTodoId : Nat
  nextChangelogId : Nat
  nextBatchId : Nat
deriving DecidableEq, Repr

/-- Insert a row into an id-sorted table, in front of the first row with a
larger key (SQLite stores rows in rowid order). -/
def insertById {α : Type} (key : α → Nat) (r : α) : List α → List α
  | [] => [r]
  | x :: xs => if key r < key x then r :: x :: xs else x :: insertById key r xs

/-- JavaScript truthiness of the optional `moveToSectionId` argument:
`undefined` and `0` are falsy. -/
def jsTruthy : Option Nat → Bool
  | some m => decide (m ≠ 0)
  | none => false

/-- Apply a partial field map to a `todos` row, also rewriting `updatedAt`
to the current time, as `db.update(todos).set({ ...values, updatedAt: new
Date() })` does. -/
def applyTodoPatch (p : TodoPatch) (t : Nat) (r : TodoItem) : TodoItem :=
  { r with
    text := p.text.getD r.text
    completed := p.completed.getD r.completed
    priority := p.priority.getD r.priority
    sectionId := p.sectionId.getD r.sectionId
    order := p.order.getD r.order
    dueDate := p.dueDate.getD r.dueDate
    updatedAt := t }

/-- Apply a partial field map to a `sections` row, rewriting `updatedAt`. -/
def applySectionPatch (p : SectionPatch) (t : Nat) (r : TodoSection) : TodoSection :=
  { r with
    name := p.name.getD r.name
    order := p.order.getD r.order
    updatedAt := t }

/-- The `parseDates` regex test `^\d{4}-\d{2}-\d{2}T\d{2}:\d{2}:\d{2}`:
whether a string field read back from a changelog payload gets converted
to a `Date` object during undo/redo replay.  better-sqlite3 cannot bind a
`Date` to a TEXT column, so the replay of such a value throws. -/
def isoDatePrefix (s : String) : Bool :=
  match s.data with
  | c1 :: c2 :: c3 :: c4 :: '-' :: c5 :: c6 :: '-' :: c7 :: c8 :: 'T' ::
      c9 :: c10 :: ':' :: c11 :: c12 :: ':' :: c13 :: c14 :: _ =>
    c1.isDigit && c2.isDigit && c3.isDigit && c4.isDigit && c5.isDigit &&
    c6.isDigit && c7.isDigit && c8.isDigit && c9.isDigit && c10.isDigit &&
    c11.isDigit && c12.isDigit && c13.isDigit && c14.isDigit
  | _ => false

/-- `parseDates` on an optional patch field: an absent field is skipped. -/
def isoOpt : Option String → Bool
  | some s => isoDatePrefix s
  | none => false

/-- `db.update(todos).set(patch ∪ updatedAt).where(eq(todos.id, id))`. -/
def updateTodosById (id : Nat) (p : TodoPatch) (t : Nat) (l : List TodoItem) :
    List TodoItem :=
  l.map fun r => if r.id = id then applyTodoPatch p t r else r

/-- `db.update(sections).set(patch ∪ updatedAt).where(eq(sections.id, id))`. -/
def updateSectionsById (id : Nat) (p : SectionPatch) (t : Nat) (l : List TodoSection) :
    List TodoSection :=
  l.map fun r => if r.id = id then applySectionPatch p t r else r

/-- `db.insert(todos).values({ ...row, id })`: throws (returns `none`) when
a row with that primary key already exists. -/
def insertTodoRow (r : TodoItem) (l : List TodoItem) : Option (List TodoItem) :=
  if l.any (fun x => x.id = r.id) then none else some (insertById TodoItem.id r l)

/-- `db.insert(sections).values({ ...row, id })`. -/
def insertSectionRow (r : TodoSection) (l : List TodoSection) :
    Option (List TodoSection) :=
  if l.any (fun x => x.id = r.id) then none else some (insertById TodoSection.id r l)

/-- `changelog` rows with `isActive = true`, in id order. -/
def activeEntries (l : List ChangelogEntry) : List ChangelogEntry :=
  l.filter fun e => e.isActive

/-- `changelog` rows with `isActive = false`, in id order. -/
def inactiveEntries (l : List ChangelogEntry) : List ChangelogEntry :=
  l.filter fun e => !e.isActive

/-- `addChangelogEntry(operation, tableName, entityId, data, batchId?)`:
outside of a batch it first deletes every inactive entry, then appends a
new active entry; the `operation` and `table_name` columns are the
projections of `d`. -/
def addChangelogEntry (entityId : Nat) (d : EntryData) (batchId : Option Nat)
    (t : Nat) (db : DB) : DB :=
  let db1 := if batchId.isNone then
      { db with changelog := activeEntries db.changelog }
    else db
  { db1 with
    changelog := db1.changelog ++
      [{ id := db1.nextChangelogId, isActive := true, batchId := batchId,
         entityId := entityId, data := d, timestamp := t }]
    nextChangelogId := db1.nextChangelogId + 1 }

/-- `setChangelogEntryActiveState(id, isActive)`. -/
def setChangelogEntryActiveState (id : Nat) (isActive : Bool) (db : DB) : DB :=
  { db with changelog := db.changelog.map fun e =>
      if e.id = id then { e with isActive := isActive } else e }

/-- `getLatestActiveChangelogEntry()`: the active entry with the greatest
id; if it belongs to a batch, all active entries of that batch in
ascending id order, else that single entry. -/
def getLatestActiveChangelogEntry (db : DB) : Option (List ChangelogEntry) :=
  let active := activeEntries db.changelog
  match active.getLast? with
  | none => none
  | some e =>
    match e.batchId with
    | some b => some (active.filter fun x => x.batchId = some b)
    | none => some [e]

/-- `getLatestUndoneChangelogEntry()`: same selection over the inactive
entries (note: it also takes the inactive entry with the GREATEST id). -/
def getLatestUndoneChangelogEntry (db : DB) : Option (List ChangelogEntry) :=
  let inactive := inactiveEntries db.changelog
  match inactive.getLast? with
  | none => none
  | some e =>
    match e.batchId with
    | some b => some (inactive.filter fun x => x.batchId = some b)
    | none => some [e]

/-- `getSectionById(id)`. -/
def getSectionById (id : Nat) (db : DB) : Option TodoSection :=
  db.sections.find? fun s => s.id = id

/-- `getTodoById(id)`. -/
def getTodoById (id : Nat) (db : DB) : Option TodoItem :=
  db.todos.find? fun r => r.id = id

/-- `getTodosBySectionId(sectionId)`. -/
def getTodosBySectionId (sectionId : Nat) (db : DB) : List TodoItem :=
  db.todos.filter fun r => r.sectionId = sectionId

/-- `createSection(data)`: inserts the row (fresh id, timestamps defaulted
to now) and logs a non-batched insert entry holding the full new row. -/
def createSection (d : NewTodoSection) (t : Nat) (db : DB) : TodoSection × DB :=
  let row : TodoSection :=
    { id := db.nextSectionId, name := d.name, order := d.order,
      createdAt := t, updatedAt := t }
  let db1 := { db with
    sections := insertById TodoSection.id row db.sections
    nextSectionId := db.nextSectionId + 1 }
  (row, addChangelogEntry row.id (.sectionInsert row) none t db1)

/-- The per-field `old` half of the changed-fields diff: the previous value
when the field is supplied and differs, absent otherwise. -/
def diffOld {α : Type} [DecidableEq α] (supplied : Option α) (current : α) :
    Option α :=
  match supplied with
  | some v => if v = current then none else some current
  | none => none

/-- The per-field `new` half of the changed-fields diff. -/
def diffNew {α : Type} [DecidableEq α] (supplied : Option α) (current : α) :
    Option α :=
  match supplied with
  | some v => if v = current then none else some v
  | none => none

/-- The `old` half of the diff for the `dueDate` field.  The source
compares `previousState[key] !== newValue`, and for `dueDate` both sides
are `Date` objects (or `null`): a supplied `Date` arrives as a fresh
object, so it is `!==` the stored `Date` even when it denotes the same
instant — the field counts as changed unless both sides are `null`. -/
def diffOldByRef (supplied : Option (Option Nat)) (current : Option Nat) :
    Option (Option Nat) :=
  match supplied with
  | some w => if w = none ∧ current = none then none else some current
  | none => none

/-- The `new` half of the reference-compared `dueDate` diff. -/
def diffNewByRef (supplied : Option (Option Nat)) (current : Option Nat) :
    Option (Option Nat) :=
  match supplied with
  | some w => if w = none ∧ current = none then none else some w
  | none => none

/-- `Object.keys(p).length > 0` is false: no field supplied. -/
def SectionPatch.isEmpty (p : SectionPatch) : Bool :=
  p.name.isNone && p.order.isNone

/-- `Object.keys(p).length > 0` is false: no field supplied. -/
def TodoPatch.isEmpty (p : TodoPatch) : Bool :=
  p.text.isNone && p.completed.isNone && p.priority.isNone &&
  p.sectionId.isNone && p.order.isNone && p.dueDate.isNone

/-- The `oldValues` map computed by `updateSection`. -/
def sectionOldValues (p : SectionPatch) (r : TodoSection) : SectionPatch :=
  { name := diffOld p.name r.name, order := diffOld p.order r.order }

/-- The `newValues` map computed by `updateSection`. -/
def sectionNewValues (p : SectionPatch) (r : TodoSection) : SectionPatch :=
  { name := diffNew p.name r.name, order := diffNew p.order r.order }

/-- The `oldValues` map computed by `updateTodo`.  All fields but
`dueDate` are primitives compared by value; `dueDate` is a `Date` object
compared by reference (`!==`), which a fresh payload object never equals. -/
def todoOldValues (p : TodoPatch) (r : TodoItem) : TodoPatch :=
  { text := diffOld p.text r.text
    completed := diffOld p.completed r.completed
    priority := diffOld p.priority r.priority
    sectionId := diffOld p.sectionId r.sectionId
    order := diffOld p.order r.order
    dueDate := diffOldByRef p.dueDate r.dueDate }

/-- The `newValues` map computed by `updateTodo`, with the same
reference-compared `dueDate` half. -/
def todoNewValues (p : TodoPatch) (r : TodoItem) : TodoPatch :=
  { text := diffNew p.text r.text
    completed := diffNew p.completed r.completed
    priority := diffNew p.priority r.priority
    sectionId := diffNew p.sectionId r.sectionId
    order := diffNew p.order r.order
    dueDate := diffNewByRef p.dueDate r.dueDate }

/-- `updateSection(id, updates)`: diffs against the current row, applies
the full supplied patch plus `updatedAt`, and logs a non-batched update
entry only when at least one supplied field actually differed. -/
def updateSection (id : Nat) (updates : SectionPatch) (t : Nat) (db : DB) :
    Option TodoSection × DB :=
  match getSectionById id db with
  | none => (none, db)
  | some previousState =>
    let oldValues := sectionOldValues updates previousState
    let newValues := sectionNewValues updates previousState
    let db1 := { db with sections := updateSectionsById id updates t db.sections }
    match getSectionById id db1 with
    | none => (none, db1)
    | some updatedSection =>
      if oldValues.isEmpty then (some updatedSection, db1)
      else (some updatedSection,
        addChangelogEntry id (.sectionUpdate oldValues newValues) none t db1)

/-- `updateTodo(id, updates)`. -/
def updateTodo (id : Nat) (updates : TodoPatch) (t : Nat) (db : DB) :
    Option TodoItem × DB :=
  match getTodoById id db with
  | none => (none, db)
  | some previousState =>
    let oldValues := todoOldValues updates previousState
    let newValues := todoNewValues updates previousState
    let db1 := { db with todos := updateTodosById id updates t db.todos }
    match getTodoById id db1 with
    | none => (none, db1)
    | some updatedTodo =>
      if oldValues.isEmpty then (some updatedTodo, db1)
      else (some updatedTodo,
        addChangelogEntry id (.todoUpdate oldValues newValues) none t db1)

/-- `deleteSection(id, moveToSectionId?)`: generates one batch id, prunes
inactive entries once for the batch, then either reassigns the child todos
(without logging them) or logs and deletes each child, and finally deletes
and logs the section itself under the same batch id. -/
def deleteSection (id : Nat) (moveToSectionId : Option Nat) (t : Nat) (db : DB) :
    Bool × DB :=
  match getSectionById id db with
  | none => (false, db)
  | some previousSectionState =>
    let previousTodos := getTodosBySectionId id db
    let batchId := db.nextBatchId
    let db0 := { db with nextBatchId := db.nextBatchId + 1 }
    let db1 := { db0 with changelog := activeEntries db0.changelog }
    let db2 : DB :=
      if jsTruthy moveToSectionId then
        { db1 with todos := db1.todos.map fun r =>
            if r.sectionId = id then
              { r with sectionId := moveToSectionId.getD 0, updatedAt := t }
            else r }
      else
        let dbA := previousTodos.foldl
          (fun d todo => addChangelogEntry todo.id (.todoDelete todo) (some batchId) t d)
          db1
        { dbA with todos := dbA.todos.filter fun r => r.sectionId ≠ id }
    let changes := (db2.sections.filter fun s => s.id = id).length
    let db3 := { db2 with sections := db2.sections.filter fun s => s.id ≠ id }
    if changes > 0 then
      (true, addChangelogEntry id (.sectionDelete previousSectionState) (some batchId) t db3)
    else (false, db3)

/-- `createTodo(data)`. -/
def createTodo (d : NewTodoItem) (t : Nat) (db : DB) : TodoItem × DB :=
  let row : TodoItem :=
    { id := db.nextTodoId, text := d.text, completed := d.completed,
      priority := d.priority, sectionId := d.sectionId, order := d.order,
      dueDate := d.dueDate, createdAt := t, updatedAt := t }
  let db1 := { db with
    todos := insertById TodoItem.id row db.todos
    nextTodoId := db.nextTodoId + 1 }
  (row, addChangelogEntry row.id (.todoInsert row) none t db1)

/-- `deleteTodo(id)`. -/
def deleteTodo (id : Nat) (t : Nat) (db : DB) : Bool × DB :=
  match getTodoById id db with
  | none => (false, db)
  | some previousState =>
    let changes := (db.todos.filter fun r => r.id = id).length
    let db1 := { db with todos := db.todos.filter fun r => r.id ≠ id }
    if changes > 0 then
      (true, addChangelogEntry id (.todoDelete previousState) none t db1)
    else (false, db1)

/-- `moveTodos(todoIds, targetSectionId)`: one batch with one update entry
per matched todo, each recording only the `sectionId` old/new pair. -/
def moveTodos (todoIds : List Nat) (targetSectionId : Nat) (t : Nat) (db : DB) :
    List TodoItem × DB :=
  let batchId := db.nextBatchId
  let db0 := { db with nextBatchId := db.nextBatchId + 1 }
  let previousStates := db0.todos.filter fun r => todoIds.contains r.id
  let db1 := { db0 with todos := db0.todos.map fun r =>
      if todoIds.contains r.id then
        { r with sectionId := targetSectionId, updatedAt := t }
      else r }
  let result := db1.todos.filter fun r => todoIds.contains r.id
  let db2 := previousStates.foldl
    (fun d todo => addChangelogEntry todo.id
      (.todoUpdate { sectionId := some todo.sectionId }
        { sectionId := some targetSectionId }) (some batchId) t d)
    db1
  (result, db2)

/-- `markTodosCompleted(todoIds, completed)`: one batch with one update
entry per matched todo, each recording only the `completed` old/new pair. -/
def markTodosCompleted (todoIds : List Nat) (completed : Bool) (t : Nat) (db : DB) :
    List TodoItem × DB :=
  let batchId := db.nextBatchId
  let db0 := { db with nextBatchId := db.nextBatchId + 1 }
  let previousStates := db0.todos.filter fun r => todoIds.contains r.id
  let db1 := { db0 with todos := db0.todos.map fun r =>
      if todoIds.contains r.id then
        { r with completed := completed, updatedAt := t }
      else r }
  let result := db1.todos.filter fun r => todoIds.contains r.id
  let db2 := previousStates.foldl
    (fun d todo => addChangelogEntry todo.id
      (.todoUpdate { completed := some todo.completed }
        { completed := some completed }) (some batchId) t d)
    db1
  (result, db2)

/-- `setTodosPriority(todoIds, priority)`. -/
def setTodosPriority (todoIds : List Nat) (priority : Int) (t : Nat) (db : DB) :
    List TodoItem × DB :=
  let batchId := db.nextBatchId
  let db0 := { db with nextBatchId := db.nextBatchId + 1 }
  let previousStates := db0.todos.filter fun r => todoIds.contains r.id
  let db1 := { db0 with todos := db0.todos.map fun r =>
      if todoIds.contains r.id then
        { r with priority := priority, updatedAt := t }
      else r }
  let result := db1.todos.filter fun r => todoIds.contains r.id
  let db2 := previousStates.foldl
    (fun d todo => addChangelogEntry todo.id
      (.todoUpdate { priority := some todo.priority }
        { priority := some priority }) (some batchId) t d)
    db1
  (result, db2)

/-- `setTodosDueDate(todoIds, dueDate)`. -/
def setTodosDueDate (todoIds : List Nat) (dueDate : Option Nat) (t : Nat) (db : DB) :
    List TodoItem × DB :=
  let batchId := db.nextBatchId
  let db0 := { db with nextBatchId := db.nextBatchId + 1 }
  let previousStates := db0.todos.filter fun r => todoIds.contains r.id
  let db1 := { db0 with todos := db0.todos.map fun r =>
      if todoIds.contains r.id then
        { r with dueDate := dueDate, updatedAt := t }
      else r }
  let result := db1.todos.filter fun r => todoIds.contains r.id
  let db2 := previousStates.foldl
    (fun d todo => addChangelogEntry todo.id
      (.todoUpdate { dueDate := some todo.dueDate }
        { dueDate := some dueDate }) (some batchId) t d)
    db1
  (result, db2)

/-- One step of the undo loop: the inverse of the entry's original
operation.  `none` models a thrown storage error: a duplicate primary key
on the recreate-with-original-id insert, or `parseDates` turning an
ISO-looking TEXT value (a todo's `text`, a section's `name`, also inside
the `old` patch) into a `Date` that better-sqlite3 cannot bind.  The date
fields themselves round-trip correctly through `parseDates` (ISO string
back to `Date`), and deletes and updates of a missing row silently affect
zero rows. -/
def applyUndoEntry (e : ChangelogEntry) (t : Nat) (db : DB) : Option DB :=
  match e.data with
  | .todoInsert _ =>
      some { db with todos := db.todos.filter fun r => r.id ≠ e.entityId }
  | .sectionInsert _ =>
      some { db with sections := db.sections.filter fun r => r.id ≠ e.entityId }
  | .todoUpdate old _ =>
      if isoOpt old.text then none
      else some { db with todos := updateTodosById e.entityId old t db.todos }
  | .sectionUpdate old _ =>
      if isoOpt old.name then none
      else some { db with sections := updateSectionsById e.entityId old t db.sections }
  | .todoDelete row =>
      if isoDatePrefix row.text then none
      else (insertTodoRow { row with id := e.entityId } db.todos).map fun l =>
        { db with todos := l, nextTodoId := max db.nextTodoId (e.entityId + 1) }
  | .sectionDelete row =>
      if isoDatePrefix row.name then none
      else (insertSectionRow { row with id := e.entityId } db.sections).map fun l =>
        { db with sections := l, nextSectionId := max db.nextSectionId (e.entityId + 1) }

/-- The undo loop over the dependency-ordered entries; on a throw it stops
and returns `false` together with the state reached so far (there is no
enclosing transaction). -/
def applyUndoEntries (t : Nat) : List ChangelogEntry → DB → Bool × DB
  | [], db => (true, db)
  | e :: es, db =>
    match applyUndoEntry e t db with
    | some db1 => applyUndoEntries t es db1
    | none => (false, db)

/-- The dependency order of the undo loop: section entries then todo
entries, each sublist reversed (so recreated sections precede recreated
todos). -/
def undoOrdered (entries : List ChangelogEntry) : List ChangelogEntry :=
  (entries.filter fun e => e.data.tableName = TableName.sections).reverse ++
    (entries.filter fun e => e.data.tableName = TableName.todos).reverse

/-- `undo()`: selects the latest active entry or batch, replays the inverse
of each entry in `undoOrdered` order, then flips every selected entry to
inactive.  Result `some b` is the returned boolean; `none` is a thrown
storage error escaping the call. -/
def undo (t : Nat) (db : DB) : Option Bool × DB :=
  match getLatestActiveChangelogEntry db with
  | none => (some false, db)
  | some entries =>
    if entries.isEmpty then (some false, db)
    else
      match applyUndoEntries t (undoOrdered entries) db with
      | (false, db1) => (none, db1)
      | (true, db1) =>
        (some true,
         entries.foldl (fun d e => setChangelogEntryActiveState e.id false d) db1)

/-- One step of the redo loop: replays the entry's original operation,
with the same `parseDates` string-to-`Date` conversion (and resulting
binding throw on ISO-looking TEXT values) on the re-insert row and on the
`new` patch.  The `new`-patch update is skipped entirely when the patch is
empty, before anything is bound. -/
def applyRedoEntry (e : ChangelogEntry) (t : Nat) (db : DB) : Option DB :=
  match e.data with
  | .todoInsert row =>
      if isoDatePrefix row.text then none
      else (insertTodoRow { row with id := e.entityId } db.todos).map fun l =>
        { db with todos := l, nextTodoId := max db.nextTodoId (e.entityId + 1) }
  | .sectionInsert row =>
      if isoDatePrefix row.name then none
      else (insertSectionRow { row with id := e.entityId } db.sections).map fun l =>
        { db with sections := l, nextSectionId := max db.nextSectionId (e.entityId + 1) }
  | .todoUpdate _ new =>
      if new.isEmpty then some db
      else if isoOpt new.text then none
      else some { db with todos := updateTodosById e.entityId new t db.todos }
  | .sectionUpdate _ new =>
      if new.isEmpty then some db
      else if isoOpt new.name then none
      else some { db with sections := updateSectionsById e.entityId new t db.sections }
  | .todoDelete _ =>
      some { db with todos := db.todos.filter fun r => r.id ≠ e.entityId }
  | .sectionDelete _ =>
      some { db with sections := db.sections.filter fun r => r.id ≠ e.entityId }

/-- The redo loop, with the same no-transaction throw behaviour as undo. -/
def applyRedoEntries (t : Nat) : List ChangelogEntry → DB → Bool × DB
  | [], db => (true, db)
  | e :: es, db =>
    match applyRedoEntry e t db with
    | some db1 => applyRedoEntries t es db1
    | none => (false, db)

/-- The replay order of the redo loop: todos before sections when the
batch contains deletions, sections before todos otherwise. -/
def redoOrdered (entries : List ChangelogEntry) : List ChangelogEntry :=
  if entries.any fun e => e.data.operation = Operation.delete then
    (entries.filter fun e => e.data.tableName = TableName.todos) ++
      (entries.filter fun e => e.data.tableName = TableName.sections)
  else
    (entries.filter fun e => e.data.tableName = TableName.sections) ++
      (entries.filter fun e => e.data.tableName = TableName.todos)

/-- `redo()`: selects the inactive entry or batch with the greatest id,
replays each entry forward in `redoOrdered` order, then flips every
selected entry back to active. -/
def redo (t : Nat) (db : DB) : Option Bool × DB :=
  match getLatestUndoneChangelogEntry db with
  | none => (some false, db)
  | some entries =>
    if entries.isEmpty then (some false, db)
    else
      match applyRedoEntries t (redoOrdered entries) db with
      | (false, db1) => (none, db1)
      | (true, db1) =>
        (some true,
         entries.foldl (fun d e => setChangelogEntryActiveState e.id true d) db1)

/-- `clearChangelog()`. -/
def clearChangelog (db : DB) : DB :=
  { db with changelog := [] }

/-- `startServer()`: its only effect on the store is clearing the whole
changelog once the HTTP listener is up (the listener itself is I/O outside
the store). -/
def startServer (db : DB) : DB :=
  clearChangelog db

/-- One Container/Item mutation of the facade, for quantifying over
mutation sequences. -/
inductive Mutation where
  | createSection (d : NewTodoSection)
  | updateSection (id : Nat) (p : SectionPatch)
  | deleteSection (id : Nat) (moveToSectionId : Option Nat)
  | createTodo (d : NewTodoItem)
  | updateTodo (id : Nat) (p : TodoPatch)
  | deleteTodo (id : Nat)
  | moveTodos (ids : List Nat) (target : Nat)
  | markTodosCompleted (ids : List Nat) (completed : Bool)
  | setTodosPriority (ids : List Nat) (priority : Int)
  | setTodosDueDate (ids : List Nat) (dueDate : Option Nat)
deriving DecidableEq, Repr

/-- Run one facade mutation at time `t`, discarding the returned value. -/
def applyMutation (m : Mutation) (t : Nat) (db : DB) : DB :=
  match m with
  | .createSection d => (createSection d t db).2
  | .updateSection id p => (updateSection id p t db).2
  | .deleteSection id mv => (deleteSection id mv t db).2
  | .createTodo d => (createTodo d t db).2
  | .updateTodo id p => (updateTodo id p t db).2
  | .deleteTodo id => (deleteTodo id t db).2
  | .moveTodos ids target => (moveTodos ids target t db).2
  | .markTodosCompleted ids c => (markTodosCompleted ids c t db).2
  | .setTodosPriority ids p => (setTodosPriority ids p t db).2
  | .setTodosDueDate ids d => (setTodosDueDate ids d t db).2

/-- Run a sequence of timed facade mutations. -/
def applyMutations (ms : List (Mutation × Nat)) (db : DB) : DB :=
  ms.foldl (fun d mt => applyMutation mt.1 mt.2 d) db

/-- Whether the mutation takes the reassign branch of `deleteSection`
(a truthy `moveToSectionId`), the one branch whose child-row changes are
not recorded in the changelog. -/
def Mutation.isReassignDelete : Mutation → Bool
  | .deleteSection _ mv => jsTruthy mv
  | _ => false

/-- Whether undoing this payload avoids the `parseDates` throw: the TEXT
values undo reads back (the `old` patch halves and the stored delete rows)
must not look like ISO timestamps. -/
def EntryData.undoClean : EntryData → Bool
  | .todoUpdate old _ => !(isoOpt old.text)
  | .sectionUpdate old _ => !(isoOpt old.name)
  | .todoDelete row => !(isoDatePrefix row.text)
  | .sectionDelete row => !(isoDatePrefix row.name)
  | _ => true

/-- Whether the mutation introduces only TEXT values that survive a later
`parseDates` round-trip (no ISO-looking todo text or section name). -/
def Mutation.cleanStrings : Mutation → Bool
  | .createSection d => !(isoDatePrefix d.name)
  | .updateSection _ p => !(isoOpt p.name)
  | .createTodo d => !(isoDatePrefix d.text)
  | .updateTodo _ p => !(isoOpt p.text)
  | _ => true

/-- No TEXT value anywhere in the store would be mangled by `parseDates`
on replay: all todo texts, section names, and undo-read payload strings
are free of the ISO prefix. -/
def CleanDB (db : DB) : Prop :=
  (∀ r ∈ db.todos, isoDatePrefix r.text = false) ∧
  (∀ s ∈ db.sections, isoDatePrefix s.name = false) ∧
  (∀ e ∈ db.changelog, e.data.undoClean = true)

/-- Run `undo()` once per listed time; `none` if any call throws. -/
def undoTimes : List Nat → DB → Option DB
  | [], db => some db
  | t :: ts, db =>
    match undo t db with
    | (some _, db1) => undoTimes ts db1
    | (none, _) => none

/-- Run `redo()` once per listed time; `none` if any call throws. -/
def redoTimes : List Nat → DB → Option DB
  | [], db => some db
  | t :: ts, db =>
    match redo t db with
    | (some _, db1) => redoTimes ts db1
    | (none, _) => none

/-- A `todos` row with its last-modified timestamp blanked: undo/redo
rewrite `updatedAt` on every row-rewrite, so round-trip table equality is
stated up to this field. -/
def TodoItem.clearUpdatedAt (r : TodoItem) : TodoItem :=
  { r with updatedAt := 0 }

/-- A `sections` row with its last-modified timestamp blanked. -/
def TodoSection.clearUpdatedAt (r : TodoSection) : TodoSection :=
  { r with updatedAt := 0 }

/-- The `todos` table up to last-modified timestamps. -/
def todosView (l : List TodoItem) : List TodoItem :=
  l.map TodoItem.clearUpdatedAt

/-- The `sections` table up to last-modified timestamps. -/
def sectionsView (l : List TodoSection) : List TodoSection :=
  l.map TodoSection.clearUpdatedAt

/-- Strictly increasing keys: the order SQLite keeps rows in, which also
makes primary keys unique. -/
abbrev SortedByKey {α : Type} (key : α → Nat) (l : List α) : Prop :=
  l.Pairwise fun a b => key a < key b

/-- Well-formedness delivered by SQLite: tables in rowid order with unique
primary keys below the autoincrement sequence (AUTOINCREMENT never reuses
an id), and every batch id in the log below the generator's next value
(batch-id uniqueness is the source's hard requirement). -/
structure StoreWF (db : DB) : Prop where
  secSorted : SortedByKey TodoSection.id db.sections
  todoSorted : SortedByKey TodoItem.id db.todos
  clSorted : SortedByKey ChangelogEntry.id db.changelog
  secLt : ∀ r ∈ db.sections, r.id < db.nextSectionId
  todoLt : ∀ r ∈ db.todos, r.id < db.nextTodoId
  clLt : ∀ e ∈ db.changelog, e.id < db.nextChangelogId
  clBatchLt : ∀ e ∈ db.changelog, (e.batchId.all fun x => x < db.nextBatchId) = true

/-- No entry of the changelog has been undone. -/
abbrev allActive (db : DB) : Prop :=
  ∀ e ∈ db.changelog, e.isActive = true

/-- Observational equivalence for the undo phase: equal entity tables up
to last-modified timestamps and equal active changelogs (already-undone
trailing entries are never read again by `undo`). -/
def Rel (db1 db2 : DB) : Prop :=
  sectionsView db1.sections = sectionsView db2.sections ∧
  todosView db1.todos = todosView db2.todos ∧
  activeEntries db1.changelog = activeEntries db2.changelog

/-- `Rel` lifted to the `Option DB` results of fallible calls: both throw,
or both succeed with related states. -/
def ORel (o1 o2 : Option DB) : Prop :=
  match o1, o2 with
  | none, none => True
  | some a, some b => Rel a b
  | _, _ => False

/-- The changelog rows a batched `foldl` of `addChangelogEntry` appends:
one per listed todo, with consecutive ids from `base`, all active, all
tagged with batch `b`, with payload built by `mk`. -/
def batchEntries (base b t : Nat) (mk : TodoItem → EntryData) :
    List TodoItem → List ChangelogEntry
  | [] => []
  | r :: rs =>
    { id := base, isActive := true, batchId := some b, entityId := r.id,
      data := mk r, timestamp := t } :: batchEntries (base + 1) b t mk rs

/-- The effect of one undo step on the `todos` table when the entry is a
todo update (the only kind a bulk batch contains). -/
def undoTodoUpdateStep (t : Nat) (l : List TodoItem) (e : ChangelogEntry) :
    List TodoItem :=
  match e.data with
  | .todoUpdate old _ => updateTodosById e.entityId old t l
  | _ => l

/-- The same undo step restricted to a single row. -/
def undoTodoUpdateRow (t : Nat) (r : TodoItem) (e : ChangelogEntry) : TodoItem :=
  match e.data with
  | .todoUpdate old _ => if r.id = e.entityId then applyTodoPatch old t r else r
  | _ => r

/-- `p.getD`-style check that every supplied field of the patch equals the
row's current value (a no-op update payload). -/
def TodoPatch.matchesRow (p : TodoPatch) (r : TodoItem) : Bool :=
  p.text.getD r.text = r.text && p.completed.getD r.completed = r.completed &&
  p.priority.getD r.priority = r.priority &&
  p.sectionId.getD r.sectionId = r.sectionId &&
  p.order.getD r.order = r.order && p.dueDate.getD r.dueDate = r.dueDate

/-- Same for section patches. -/
def SectionPatch.matchesRow (p : SectionPatch) (r : TodoSection) : Bool :=
  p.name.getD r.name = r.name && p.order.getD r.order = r.order

/-- A completely empty store, as after the initial migration. -/
def emptyDB : DB := ⟨[], [], [], 1, 1, 1, 1⟩

/-- Scenario: create one todo, then raise its priority (two mutations,
two changelog entries). -/
def twoMutationsDB : DB :=
  applyMutations
    [(Mutation.createTodo ⟨"write report", false, 0, 1, 0, none⟩, 1),
     (Mutation.updateTodo 1 { priority := some 1 }, 2)] emptyDB

/-- Scenario: one section owning three todos, built through the facade. -/
def threeTodoSectionDB : DB :=
  applyMutations
    [(Mutation.createSection ⟨"Work", 0⟩, 1),
     (Mutation.createTodo ⟨"a", false, 0, 1, 0, none⟩, 2),
     (Mutation.createTodo ⟨"b", true, 1, 1, 1, some 99⟩, 3),
     (Mutation.createTodo ⟨"c", false, -1, 1, 2, none⟩, 4)] emptyDB

/-- Scenario: two sections and one todo in the first, built through the
facade (for the reassign-policy delete). -/
def twoSectionsDB : DB :=
  applyMutations
    [(Mutation.createSection ⟨"A", 0⟩, 1),
     (Mutation.createSection ⟨"B", 1⟩, 2),
     (Mutation.createTodo ⟨"x", false, 0, 1, 0, none⟩, 3)] emptyDB

/-- A pre-existing store state with an empty changelog: two sections and a
todo owned by the first. -/
def prebuiltDB : DB :=
  ⟨[⟨1, "A", 0, 0, 0⟩, ⟨2, "B", 1, 0, 0⟩],
   [⟨1, "x", false, 0, 1, 0, none, 0, 0⟩], [], 3, 2, 1, 1⟩

/-- A store whose external state diverged from its changelog: the log
holds an active two-entry delete batch (todo 7 of section 1, then section
1), but a row with id 7 is already present again, so undoing the batch
recreates section 1 and then throws on the todo insert. -/
def divergedDB : DB :=
  ⟨[], [⟨7, "zombie", false, 0, 2, 0, none, 0, 0⟩],
   [⟨1, true, some 1, 7, EntryData.todoDelete ⟨7, "orig", false, 0, 1, 0, none, 0, 0⟩, 0⟩,
    ⟨2, true, some 1, 1, EntryData.sectionDelete ⟨1, "S", 0, 0, 0⟩, 0⟩],
   2, 8, 3, 2⟩

/-- Scenario: one created todo, then one undo (so one inactive entry). -/
def oneUndoneDB : DB :=
  (undo 2 (applyMutations
    [(Mutation.createTodo ⟨"a", false, 0, 1, 0, none⟩, 1)] emptyDB)).2

/-- A section with five todos of mixed completion states, built through
the facade (for the bulk mark-completed scenario). -/
def fiveTodosDB : DB :=
  applyMutations
    [(Mutation.createSection ⟨"Work", 0⟩, 1),
     (Mutation.createTodo ⟨"a", false, 0, 1, 0, none⟩, 2),
     (Mutation.createTodo ⟨"b", true, 0, 1, 1, none⟩, 3),
     (Mutation.createTodo ⟨"c", false, 0, 1, 2, none⟩, 4),
     (Mutation.createTodo ⟨"d", true, 0, 1, 3, none⟩, 5),
     (Mutation.createTodo ⟨"e", false, 0, 1, 4, none⟩, 6)] emptyDB

/-- A store whose external state diverged before a redo: the single
inactive entry is an insert of todo 7, but a row with id 7 is already
present, so redoing throws on the re-insert. -/
def divergedRedoDB : DB :=
  ⟨[], [⟨7, "zombie", false, 0, 2, 0, none, 0, 0⟩],
   [⟨1, false, none, 7, EntryData.todoInsert ⟨7, "orig", false, 0, 1, 0, none, 0, 0⟩, 0⟩],
   1, 8, 2, 1⟩

/-- Scenario: one section owning three todos, the first of which has an
ISO-timestamp-shaped text, built through the facade. -/
def isoTextDB : DB :=
  applyMutations
    [(Mutation.createSection ⟨"Work", 0⟩, 1),
     (Mutation.createTodo ⟨"2024-01-01T00:00:00", false, 0, 1, 0, none⟩, 2),
     (Mutation.createTodo ⟨"b", true, 1, 1, 1, some 99⟩, 3),
     (Mutation.createTodo ⟨"c", false, -1, 1, 2, none⟩, 4)] emptyDB

end Guppy

namespace Guppy

theorem sortedByKey_cons_lt {α : Type} {key : α → Nat} {x : α} {xs : List α}
    (h : SortedByKey key (x :: xs)) : ∀ y ∈ xs, key x < key y :=
  (List.pairwise_cons.1 h).1

theorem sortedByKey_of_cons {α : Type} {key : α → Nat} {x : α} {xs : List α}
    (h : SortedByKey key (x :: xs)) : SortedByKey key xs :=
  (List.pairwise_cons.1 h).2

theorem sortedByKey_filter {α : Type} (key : α → Nat) (p : α → Bool) {l : List α}
    (h : SortedByKey key l) : SortedByKey key (l.filter p) :=
  List.Pairwise.sublist (List.filter_sublist l) h

theorem sortedByKey_map {α : Type} {key : α → Nat} {f : α → α} {l : List α}
    (hf : ∀ x, key (f x) = key x) (h : SortedByKey key l) :
    SortedByKey key (l.map f) := by
  rw [SortedByKey, List.pairwise_map]
  exact h.imp fun hab => by simpa [hf] using hab

theorem key_unique {α : Type} {key : α → Nat} {l : List α} (hs : SortedByKey key l)
    {a b : α} (ha : a ∈ l) (hb : b ∈ l) (hk : key a = key b) : a = b := by
  induction l with
  | nil => cases ha
  | cons x xs ih =>
    rcases List.mem_cons.1 ha with rfl | ha' <;> rcases List.mem_cons.1 hb with rfl | hb'
    · rfl
    · exact absurd hk (Nat.ne_of_lt (sortedByKey_cons_lt hs b hb'))
    · exact absurd hk.symm (Nat.ne_of_lt (sortedByKey_cons_lt hs a ha'))
    · exact ih (sortedByKey_of_cons hs) ha' hb'

theorem insertById_append {α : Type} (key : α → Nat) (r : α) (l : List α)
    (h : ∀ x ∈ l, key x < key r) : insertById key r l = l ++ [r] := by
  induction l with
  | nil => rfl
  | cons x xs ih =>
    rw [insertById, if_neg (Nat.not_lt.2 (Nat.le_of_lt (h x (List.mem_cons_self x xs)))),
      List.cons_append, ih fun y hy => h y (List.mem_cons_of_mem x hy)]

theorem insertById_cons_of_lt {α : Type} (key : α → Nat) (r x : α) (xs : List α)
    (h : key r < key x) : insertById key r (x :: xs) = r :: x :: xs := by
  rw [insertById, if_pos h]

theorem insertById_cons_head {α : Type} (key : α → Nat) (r : α) {l : List α}
    (h : ∀ y ∈ l, key r < key y) : insertById key r l = r :: l := by
  cases l with
  | nil => rfl
  | cons x xs => exact insertById_cons_of_lt key r x xs (h x (List.mem_cons_self x xs))

theorem restore_at {α : Type} (key : α → Nat) {l : List α} {r : α} {k : Nat}
    (hs : SortedByKey key l) (hm : r ∈ l) (hk : key r = k) :
    insertById key r (l.filter fun x => key x ≠ k) = l := by
  induction l with
  | nil => cases hm
  | cons x xs ih =>
    rcases List.mem_cons.1 hm with rfl | hm'
    · rw [List.filter_cons_of_neg (by simp [hk]),
        List.filter_eq_self.2 fun y hy => by
          simp only [decide_eq_true_eq]
          exact fun he => absurd (hk ▸ he) (Nat.ne_of_gt (sortedByKey_cons_lt hs y hy))]
      exact insertById_cons_head key r fun y hy => hk ▸ sortedByKey_cons_lt hs y hy
    · have hxk : key x ≠ k := by
        intro he
        exact absurd (he.trans hk.symm)
          (Nat.ne_of_lt (sortedByKey_cons_lt hs r hm'))
      rw [List.filter_cons_of_pos (by simpa using hxk), insertById,
        if_neg (by rw [hk]; exact fun hlt => hxk (Nat.le_antisymm
          (Nat.le_of_lt hlt) (Nat.le_of_lt (hk ▸ sortedByKey_cons_lt hs r hm'))).symm),
        ih (sortedByKey_of_cons hs) hm']

theorem foldr_insertById_cons {α : Type} (key : α → Nat) (C : List α) (x : α)
    (M : List α) (h : ∀ c ∈ C, key x < key c) :
    C.foldr (insertById key) (x :: M) = x :: C.foldr (insertById key) M := by
  induction C with
  | nil => rfl
  | cons c C' ih =>
    rw [List.foldr_cons, List.foldr_cons,
      ih fun y hy => h y (List.mem_cons_of_mem c hy), insertById,
      if_neg (Nat.not_lt.2 (Nat.le_of_lt (h c (List.mem_cons_self c C'))))]

theorem foldr_insertById_partition {α : Type} (key : α → Nat) {l : List α}
    (p q : α → Bool) (hpq : ∀ x, q x = !(p x)) (hs : SortedByKey key l) :
    (l.filter p).foldr (insertById key) (l.filter q) = l := by
  induction l with
  | nil => rfl
  | cons x xs ih =>
    cases hp : p x with
    | true =>
      have hq : ¬ q x = true := by rw [hpq, hp]; simp
      rw [List.filter_cons_of_pos hp, List.filter_cons_of_neg hq,
        List.foldr_cons, ih (sortedByKey_of_cons hs)]
      exact insertById_cons_head key x fun y hy => sortedByKey_cons_lt hs y hy
    | false =>
      have hq : q x = true := by rw [hpq, hp]; rfl
      have hp' : ¬ p x = true := by rw [hp]; simp
      rw [List.filter_cons_of_neg hp', List.filter_cons_of_pos hq,
        foldr_insertById_cons key _ x _
          (fun c hc => sortedByKey_cons_lt hs c (List.mem_of_mem_filter hc)),
        ih (sortedByKey_of_cons hs)]

theorem find?_eq_of_sorted_mem {α : Type} (key : α → Nat) {l : List α} {r : α}
    {k : Nat} (hs : SortedByKey key l) (hm : r ∈ l) (hk : key r = k) :
    l.find? (fun x => key x = k) = some r := by
  induction l with
  | nil => cases hm
  | cons x xs ih =>
    rcases List.mem_cons.1 hm with rfl | hm'
    · rw [List.find?_cons_of_pos _ (by simpa using hk)]
    · rw [List.find?_cons_of_neg _ (by
        simp only [decide_eq_true_eq]
        intro he
        exact absurd (he.trans hk.symm)
          (Nat.ne_of_lt (sortedByKey_cons_lt hs r hm')))]
      exact ih (sortedByKey_of_cons hs) hm'

theorem activeEntries_append (l1 l2 : List ChangelogEntry) :
    activeEntries (l1 ++ l2) = activeEntries l1 ++ activeEntries l2 :=
  List.filter_append l1 l2

theorem activeEntries_eq_self {l : List ChangelogEntry}
    (h : ∀ e ∈ l, e.isActive = true) : activeEntries l = l :=
  List.filter_eq_self.2 fun e he => h e he

theorem activeEntries_flip_false (i : Nat) (l : List ChangelogEntry) :
    activeEntries (l.map fun e => if e.id = i then { e with isActive := false } else e) =
      (activeEntries l).filter fun e => e.id ≠ i := by
  induction l with
  | nil => rfl
  | cons e l ih =>
    by_cases hi : e.id = i
    · cases ha : e.isActive <;>
        simp [activeEntries, List.filter_cons, hi, ha] at ih ⊢ <;> exact ih
    · cases ha : e.isActive <;>
        simp [activeEntries, List.filter_cons, hi, ha] at ih ⊢ <;> exact ih

theorem flipAll_sections (G : List ChangelogEntry) (b : Bool) (db : DB) :
    (G.foldl (fun d e => setChangelogEntryActiveState e.id b d) db).sections =
      db.sections := by
  induction G generalizing db with
  | nil => rfl
  | cons g G' ih => exact ih (setChangelogEntryActiveState g.id b db)

theorem flipAll_todos (G : List ChangelogEntry) (b : Bool) (db : DB) :
    (G.foldl (fun d e => setChangelogEntryActiveState e.id b d) db).todos =
      db.todos := by
  induction G generalizing db with
  | nil => rfl
  | cons g G' ih => exact ih (setChangelogEntryActiveState g.id b db)

theorem flipAll_false_active (G : List ChangelogEntry) (db : DB) :
    activeEntries ((G.foldl (fun d e => setChangelogEntryActiveState e.id false d) db).changelog) =
      (activeEntries db.changelog).filter fun e => !(G.any fun g => e.id = g.id) := by
  induction G generalizing db with
  | nil => simp
  | cons g G' ih =>
    rw [List.foldl_cons, ih, setChangelogEntryActiveState, activeEntries_flip_false,
      List.filter_filter]
    refine List.filter_congr fun e _ => ?_
    by_cases h1 : e.id = g.id <;> simp [h1]

theorem flipAll_false_restores (CL G : List ChangelogEntry) (db : DB)
    (hcl : db.changelog = CL ++ G)
    (hact : ∀ e ∈ CL, e.isActive = true)
    (hdisj : ∀ e ∈ CL, ∀ g ∈ G, e.id ≠ g.id) :
    activeEntries ((G.foldl (fun d e => setChangelogEntryActiveState e.id false d) db).changelog) =
      CL := by
  rw [flipAll_false_active, hcl, activeEntries_append, activeEntries_eq_self hact,
    List.filter_append]
  have h1 : CL.filter (fun e => !(G.any fun g => e.id = g.id)) = CL :=
    List.filter_eq_self.2 fun e he => by
      simp only [Bool.not_eq_true', List.any_eq_false, decide_eq_true_eq]
      intro g hg
      simpa using hdisj e he g hg
  have h2 : (activeEntries G).filter (fun e => !(G.any fun g => e.id = g.id)) = [] :=
    List.filter_eq_nil_iff.2 fun e he => by
      have hm : e ∈ G := List.mem_of_mem_filter he
      simp only [Bool.not_eq_true', List.any_eq_false, decide_eq_true_eq, not_forall]
      exact ⟨e, hm, by simp⟩
  rw [h1, h2, List.append_nil]

theorem getLatestActive_of_batch (db : DB) (CL G : List ChangelogEntry) (b : Nat)
    (hcl : activeEntries db.changelog = CL ++ G) (hG : G ≠ [])
    (hGb : ∀ g ∈ G, g.batchId = some b)
    (hCLb : ∀ e ∈ CL, e.batchId ≠ some b) :
    getLatestActiveChangelogEntry db = some G := by
  have hlast : (CL ++ G).getLast? = some (G.getLast hG) := by
    rw [List.getLast?_append, List.getLast?_eq_getLast G hG]; rfl
  have h1 : CL.filter (fun x => x.batchId = some b) = [] :=
    List.filter_eq_nil_iff.2 fun e he => by simpa using hCLb e he
  have h2 : G.filter (fun x => x.batchId = some b) = G :=
    List.filter_eq_self.2 fun e he => by simpa using hGb e he
  simp only [getLatestActiveChangelogEntry, hlast,
    hGb (G.getLast hG) (List.getLast_mem hG), hcl, List.filter_append, h1, h2,
    List.nil_append]

theorem getLatestActive_of_single (db : DB) (CL : List ChangelogEntry)
    (e : ChangelogEntry) (hcl : activeEntries db.changelog = CL ++ [e])
    (he : e.batchId = none) :
    getLatestActiveChangelogEntry db = some [e] := by
  have hlast : (CL ++ [e]).getLast? = some e := by
    rw [List.getLast?_append]; rfl
  simp only [getLatestActiveChangelogEntry, hcl, hlast, he]

theorem diffOld_eq_none_iff {α : Type} [DecidableEq α] (s : Option α) (c : α) :
    diffOld s c = none ↔ s.getD c = c := by
  cases s with
  | none => simp [diffOld]
  | some v => by_cases h : v = c <;> simp [diffOld, h]

theorem diffOld_getD {α : Type} [DecidableEq α] (s : Option α) (c : α) :
    (diffOld s c).getD (s.getD c) = c := by
  cases s with
  | none => rfl
  | some v => by_cases h : v = c <;> simp [diffOld, h]

theorem isoOpt_diffOld (s : Option String) (c : String)
    (h : isoDatePrefix c = false) : isoOpt (diffOld s c) = false := by
  cases s with
  | none => rfl
  | some v => by_cases hv : v = c <;> simp [diffOld, hv, isoOpt, h]

theorem diffOldByRef_getD (s : Option (Option Nat)) (c : Option Nat) :
    (diffOldByRef s c).getD (s.getD c) = c := by
  cases s with
  | none => rfl
  | some v =>
    by_cases h : v = none ∧ c = none
    · simp [diffOldByRef, h, h.1, h.2]
    · simp [diffOldByRef, h]

theorem diffOldByRef_none_getD (s : Option (Option Nat)) (c : Option Nat)
    (h : diffOldByRef s c = none) : s.getD c = c := by
  cases s with
  | none => rfl
  | some v =>
    by_cases hv : v = none ∧ c = none
    · simp [hv.1, hv.2]
    · simp [diffOldByRef, hv] at h

theorem diffOldByRef_eq_none_of_null (s : Option (Option Nat)) (c : Option Nat)
    (hs : s = none ∨ s = some none) (hc : s.getD c = c) :
    diffOldByRef s c = none := by
  rcases hs with hs | hs
  · rw [hs]
    rfl
  · rw [hs] at hc ⊢
    simp only [Option.getD_some] at hc
    simp [diffOldByRef, ← hc]

theorem todoOldValues_isEmpty_of_matches {p : TodoPatch} {r : TodoItem}
    (h : p.matchesRow r = true)
    (hdd : p.dueDate = none ∨ p.dueDate = some none) :
    (todoOldValues p r).isEmpty = true := by
  simp only [TodoPatch.matchesRow, Bool.and_eq_true, decide_eq_true_eq] at h
  obtain ⟨⟨⟨⟨⟨h1, h2⟩, h3⟩, h4⟩, h5⟩, h6⟩ := h
  simp only [TodoPatch.isEmpty, todoOldValues, Bool.and_eq_true, Option.isNone_iff_eq_none,
    diffOld_eq_none_iff]
  exact ⟨⟨⟨⟨⟨h1, h2⟩, h3⟩, h4⟩, h5⟩, diffOldByRef_eq_none_of_null _ _ hdd h6⟩

theorem sectionOldValues_isEmpty_of_matches {p : SectionPatch} {r : TodoSection}
    (h : p.matchesRow r = true) : (sectionOldValues p r).isEmpty = true := by
  simp only [SectionPatch.matchesRow, Bool.and_eq_true, decide_eq_true_eq] at h
  simp only [SectionPatch.isEmpty, sectionOldValues, Bool.and_eq_true,
    Option.isNone_iff_eq_none, diffOld_eq_none_iff]
  exact ⟨h.1, h.2⟩

theorem getLatestActive_congr {db1 db2 : DB} (h : db1.changelog = db2.changelog) :
    getLatestActiveChangelogEntry db1 = getLatestActiveChangelogEntry db2 := by
  simp only [getLatestActiveChangelogEntry, h]

theorem find?_map_update {α : Type} (key : α → Nat) (k : Nat) (g : α → α)
    (hg : ∀ x, key (g x) = key x) (l : List α) :
    (l.map fun x => if key x = k then g x else x).find? (fun x => key x = k) =
      (l.find? fun x => key x = k).map g := by
  induction l with
  | nil => rfl
  | cons x xs ih =>
    by_cases hx : key x = k
    · rw [List.map_cons, if_pos hx, List.find?_cons_of_pos _ (by simpa [hg] using hx),
        List.find?_cons_of_pos _ (by simpa using hx), Option.map_some']
    · rw [List.map_cons, if_neg hx, List.find?_cons_of_neg _ (by simpa using hx),
        List.find?_cons_of_neg _ (by simpa using hx), ih]

theorem updateTodo_eq {db : DB} {id : Nat} {r : TodoItem} (p : TodoPatch) (t : Nat)
    (hr : getTodoById id db = some r) :
    updateTodo id p t db =
      (some (applyTodoPatch p t r),
       if (todoOldValues p r).isEmpty then
         { db with todos := updateTodosById id p t db.todos }
       else
         addChangelogEntry id (.todoUpdate (todoOldValues p r) (todoNewValues p r)) none t
           { db with todos := updateTodosById id p t db.todos }) := by
  have h2 : getTodoById id { db with todos := updateTodosById id p t db.todos } =
      some (applyTodoPatch p t r) := by
    show (db.todos.map fun x => if x.id = id then applyTodoPatch p t x else x).find?
        (fun x => x.id = id) = _
    rw [find?_map_update TodoItem.id id (applyTodoPatch p t) (fun x => rfl) db.todos]
    rw [getTodoById] at hr
    rw [hr, Option.map_some']
  simp only [updateTodo, hr, h2]
  by_cases he : (todoOldValues p r).isEmpty = true
  · rw [if_pos he, if_pos he]
  · rw [if_neg he, if_neg he]

theorem updateSection_eq {db : DB} {id : Nat} {r : TodoSection} (p : SectionPatch)
    (t : Nat) (hr : getSectionById id db = some r) :
    updateSection id p t db =
      (some (applySectionPatch p t r),
       if (sectionOldValues p r).isEmpty then
         { db with sections := updateSectionsById id p t db.sections }
       else
         addChangelogEntry id
           (.sectionUpdate (sectionOldValues p r) (sectionNewValues p r)) none t
           { db with sections := updateSectionsById id p t db.sections }) := by
  have h2 : getSectionById id { db with sections := updateSectionsById id p t db.sections } =
      some (applySectionPatch p t r) := by
    show (db.sections.map fun x => if x.id = id then applySectionPatch p t x else x).find?
        (fun x => x.id = id) = _
    rw [find?_map_update TodoSection.id id (applySectionPatch p t) (fun x => rfl) db.sections]
    rw [getSectionById] at hr
    rw [hr, Option.map_some']
  simp only [updateSection, hr, h2]
  by_cases he : (sectionOldValues p r).isEmpty = true
  · rw [if_pos he, if_pos he]
  · rw [if_neg he, if_neg he]

theorem mem_insertById {α : Type} (key : α → Nat) (r x : α) (l : List α) :
    x ∈ insertById key r l ↔ x = r ∨ x ∈ l := by
  induction l with
  | nil => simp [insertById]
  | cons y ys ih =>
    rw [insertById]
    by_cases h : key r < key y
    · rw [if_pos h]; simp
    · rw [if_neg h]
      simp only [List.mem_cons, ih]
      tauto

theorem applyUndoEntries_append (t : Nat) (l1 l2 : List ChangelogEntry) (db : DB) :
    applyUndoEntries t (l1 ++ l2) db =
      match applyUndoEntries t l1 db with
      | (true, db1) => applyUndoEntries t l2 db1
      | (false, db1) => (false, db1) := by
  induction l1 generalizing db with
  | nil => rfl
  | cons e es ih =>
    rw [List.cons_append, applyUndoEntries, applyUndoEntries]
    cases applyUndoEntry e t db with
    | none => rfl
    | some db1 => exact ih db1

theorem batchEntries_batchId (base b t : Nat) (mk : TodoItem → EntryData)
    (P : List TodoItem) : ∀ e ∈ batchEntries base b t mk P, e.batchId = some b := by
  induction P generalizing base with
  | nil => intro e he; cases he
  | cons r P' ih =>
    intro e he
    rcases List.mem_cons.1 he with rfl | he'
    · rfl
    · exact ih (base + 1) e he'

theorem batchEntries_isActive (base b t : Nat) (mk : TodoItem → EntryData)
    (P : List TodoItem) : ∀ e ∈ batchEntries base b t mk P, e.isActive = true := by
  induction P generalizing base with
  | nil => intro e he; cases he
  | cons r P' ih =>
    intro e he
    rcases List.mem_cons.1 he with rfl | he'
    · rfl
    · exact ih (base + 1) e he'

theorem batchEntries_id_ge (base b t : Nat) (mk : TodoItem → EntryData)
    (P : List TodoItem) : ∀ e ∈ batchEntries base b t mk P, base ≤ e.id := by
  induction P generalizing base with
  | nil => intro e he; cases he
  | cons r P' ih =>
    intro e he
    rcases List.mem_cons.1 he with rfl | he'
    · exact Nat.le_refl base
    · exact Nat.le_of_succ_le (ih (base + 1) e he')

theorem batchEntries_data (base b t : Nat) (mk : TodoItem → EntryData)
    (P : List TodoItem) :
    ∀ e ∈ batchEntries base b t mk P, ∃ r ∈ P, e.data = mk r ∧ e.entityId = r.id := by
  induction P generalizing base with
  | nil => intro e he; cases he
  | cons r P' ih =>
    intro e he
    rcases List.mem_cons.1 he with rfl | he'
    · exact ⟨r, List.mem_cons_self r P', rfl, rfl⟩
    · obtain ⟨c, hc, hd⟩ := ih (base + 1) e he'
      exact ⟨c, List.mem_cons_of_mem r hc, hd⟩

theorem batchEntries_filter_sections (base b t : Nat) (P : List TodoItem) :
    (batchEntries base b t EntryData.todoDelete P).filter
      (fun e => e.data.tableName = TableName.sections) = [] := by
  induction P generalizing base with
  | nil => rfl
  | cons r P' ih =>
    rw [batchEntries, List.filter_cons_of_neg (by simp [EntryData.tableName])]
    exact ih (base + 1)

theorem batchEntries_filter_todos (base b t : Nat) (P : List TodoItem) :
    (batchEntries base b t EntryData.todoDelete P).filter
      (fun e => e.data.tableName = TableName.todos) =
      batchEntries base b t EntryData.todoDelete P := by
  refine List.filter_eq_self.2 fun e he => ?_
  obtain ⟨c, _, hd, _⟩ := batchEntries_data base b t EntryData.todoDelete P e he
  simp [hd, EntryData.tableName]

theorem insertTodoRow_of_absent (r : TodoItem) (l : List TodoItem)
    (h : ∀ x ∈ l, x.id ≠ r.id) :
    insertTodoRow r l = some (insertById TodoItem.id r l) := by
  rw [insertTodoRow, if_neg]
  simp only [List.any_eq_true, decide_eq_true_eq, not_exists, not_and]
  intro x hx
  exact h x hx

theorem insertSectionRow_of_absent (r : TodoSection) (l : List TodoSection)
    (h : ∀ x ∈ l, x.id ≠ r.id) :
    insertSectionRow r l = some (insertById TodoSection.id r l) := by
  rw [insertSectionRow, if_neg]
  simp only [List.any_eq_true, decide_eq_true_eq, not_exists, not_and]
  intro x hx
  exact h x hx

theorem foldl_addChangelogEntry_batch (P : List TodoItem) (mk : TodoItem → EntryData)
    (b t : Nat) (db : DB) :
    P.foldl (fun d todo => addChangelogEntry todo.id (mk todo) (some b) t d) db =
      { db with
        changelog := db.changelog ++ batchEntries db.nextChangelogId b t mk P
        nextChangelogId := db.nextChangelogId + P.length } := by
  induction P generalizing db with
  | nil => simp [batchEntries]
  | cons r P' ih =>
    rw [List.foldl_cons]
    have h1 : addChangelogEntry r.id (mk r) (some b) t db =
        { db with
          changelog := db.changelog ++
            [⟨db.nextChangelogId, true, some b, r.id, mk r, t⟩]
          nextChangelogId := db.nextChangelogId + 1 } := rfl
    rw [h1, ih]
    simp only [batchEntries, List.append_assoc, List.singleton_append, List.length_cons]
    have harith : db.nextChangelogId + 1 + P'.length =
        db.nextChangelogId + (P'.length + 1) := by omega
    rw [harith]

theorem mem_foldr_insertById {α : Type} (key : α → Nat) (C base : List α) (x : α) :
    x ∈ C.foldr (insertById key) base ↔ x ∈ C ∨ x ∈ base := by
  induction C with
  | nil => simp
  | cons c C' ih =>
    rw [List.foldr_cons, mem_insertById, ih, List.mem_cons]
    tauto

theorem todoRow_set_own_id (c : TodoItem) : ({ c with id := c.id } : TodoItem) = c :=
  rfl

theorem sectionRow_set_own_id (s : TodoSection) :
    ({ s with id := s.id } : TodoSection) = s := rfl

theorem applyUndoEntries_deletes_reverse (t : Nat) (P : List TodoItem)
    (base b ts : Nat) (db : DB)
    (hdisj : ∀ c ∈ P, ∀ x ∈ db.todos, x.id ≠ c.id)
    (hnodup : P.Pairwise fun a c => a.id ≠ c.id)
    (hiso : ∀ c ∈ P, isoDatePrefix c.text = false) :
    ∃ db', applyUndoEntries t ((batchEntries base b ts EntryData.todoDelete P).reverse) db =
        (true, db') ∧
      db'.todos = P.foldr (insertById TodoItem.id) db.todos ∧
      db'.sections = db.sections ∧ db'.changelog = db.changelog := by
  induction P generalizing base db with
  | nil => exact ⟨db, rfl, rfl, rfl, rfl⟩
  | cons c P' ih =>
    obtain ⟨db', h1, h2, h3, h4⟩ := ih (base + 1) db
      (fun d hd x hx => hdisj d (List.mem_cons_of_mem c hd) x hx)
      (List.pairwise_cons.1 hnodup).2
      (fun d hd => hiso d (List.mem_cons_of_mem c hd))
    have habs : ∀ x ∈ db'.todos, x.id ≠ c.id := by
      rw [h2]
      intro x hx
      rcases (mem_foldr_insertById TodoItem.id P' db.todos x).1 hx with hxP | hxB
      · exact Ne.symm ((List.pairwise_cons.1 hnodup).1 x hxP)
      · exact hdisj c (List.mem_cons_self c P') x hxB
    rw [batchEntries, List.reverse_cons, applyUndoEntries_append, h1]
    refine ⟨{ db' with
                todos := insertById TodoItem.id c db'.todos,
                nextTodoId := max db'.nextTodoId (c.id + 1) }, ?_, ?_, h3, h4⟩
    · show applyUndoEntries t
        [⟨base, true, some b, c.id, EntryData.todoDelete c, ts⟩] db' = _
      rw [applyUndoEntries]
      have hstep : applyUndoEntry
          ⟨base, true, some b, c.id, EntryData.todoDelete c, ts⟩ t db' =
          some { db' with
                   todos := insertById TodoItem.id c db'.todos,
                   nextTodoId := max db'.nextTodoId (c.id + 1) } := by
        simp only [applyUndoEntry, hiso c (List.mem_cons_self c P'),
          Bool.false_eq_true, if_false, todoRow_set_own_id,
          insertTodoRow_of_absent c db'.todos habs, Option.map_some']
      rw [hstep]
      rfl
    · rw [h2, List.foldr_cons]

theorem deleteSection_children_eq (db : DB) (sid t : Nat) (mv : Option Nat)
    (r : TodoSection) (hr : getSectionById sid db = some r) (hmv : jsTruthy mv = false)
    (hact : allActive db) :
    deleteSection sid mv t db =
      (true,
       { db with
         sections := db.sections.filter fun s => s.id ≠ sid
         todos := db.todos.filter fun x => x.sectionId ≠ sid
         changelog := db.changelog ++
           (batchEntries db.nextChangelogId db.nextBatchId t EntryData.todoDelete
               (db.todos.filter fun x => x.sectionId = sid) ++
             [⟨db.nextChangelogId + (db.todos.filter fun x => x.sectionId = sid).length,
               true, some db.nextBatchId, sid, EntryData.sectionDelete r, t⟩])
         nextChangelogId := db.nextChangelogId +
           (db.todos.filter fun x => x.sectionId = sid).length + 1
         nextBatchId := db.nextBatchId + 1 }) := by
  have hrid : r.id = sid := by
    have := List.find?_some hr
    simpa using this
  have hmem : r ∈ db.sections := List.mem_of_find?_eq_some hr
  have hprune : activeEntries db.changelog = db.changelog := activeEntries_eq_self hact
  have hpos : 0 < (db.sections.filter fun s => s.id = sid).length := by
    have : r ∈ db.sections.filter fun s => s.id = sid :=
      List.mem_filter.2 ⟨hmem, by simp [hrid]⟩
    exact List.length_pos.2 (List.ne_nil_of_mem this)
  simp only [deleteSection, hr, getTodosBySectionId, hmv, Bool.false_eq_true, if_false,
    hprune, foldl_addChangelogEntry_batch, if_pos hpos]
  simp [addChangelogEntry, List.append_assoc]

theorem sortedByKey_pairwise_ne {α : Type} {key : α → Nat} {l : List α}
    (h : SortedByKey key l) : l.Pairwise fun a c => key a ≠ key c :=
  h.imp fun hab => Nat.ne_of_lt hab

theorem deleteSection_children_undo (db : DB) (sid t tu : Nat) (mv : Option Nat)
    (r : TodoSection) (hr : getSectionById sid db = some r) (hmv : jsTruthy mv = false)
    (hwf : StoreWF db) (hact : allActive db)
    (hisoT : ∀ x ∈ db.todos, isoDatePrefix x.text = false)
    (hisoS : isoDatePrefix r.name = false) :
    (deleteSection sid mv t db).1 = true ∧
    (undo tu (deleteSection sid mv t db).2).1 = some true ∧
    (undo tu (deleteSection sid mv t db).2).2.sections = db.sections ∧
    (undo tu (deleteSection sid mv t db).2).2.todos = db.todos ∧
    activeEntries (undo tu (deleteSection sid mv t db).2).2.changelog = db.changelog := by
  have hrid : r.id = sid := by simpa using List.find?_some hr
  have hmem : r ∈ db.sections := List.mem_of_find?_eq_some hr
  have hdel := deleteSection_children_eq db sid t mv r hr hmv hact
  rw [hdel]
  refine ⟨rfl, ?_⟩
  set P : List TodoItem := db.todos.filter fun x => x.sectionId = sid with hP
  set base := db.nextChangelogId with hbase
  set b := db.nextBatchId with hb
  set secE : ChangelogEntry :=
    ⟨base + P.length, true, some b, sid, EntryData.sectionDelete r, t⟩ with hsecE
  set ES : List ChangelogEntry :=
    batchEntries base b t EntryData.todoDelete P ++ [secE] with hES
  set db1 : DB :=
    { db with
      sections := db.sections.filter fun s => s.id ≠ sid
      todos := db.todos.filter fun x => x.sectionId ≠ sid
      changelog := db.changelog ++ ES
      nextChangelogId := base + P.length + 1
      nextBatchId := b + 1 } with hdb1
  have hESactive : ∀ e ∈ ES, e.isActive = true := by
    intro e he
    rcases List.mem_append.1 he with h1 | h1
    · exact batchEntries_isActive base b t EntryData.todoDelete P e h1
    · rcases List.mem_singleton.1 h1 with rfl; rfl
  have hESbatch : ∀ e ∈ ES, e.batchId = some b := by
    intro e he
    rcases List.mem_append.1 he with h1 | h1
    · exact batchEntries_batchId base b t EntryData.todoDelete P e h1
    · rcases List.mem_singleton.1 h1 with rfl; rfl
  have hESid : ∀ e ∈ ES, base ≤ e.id := by
    intro e he
    rcases List.mem_append.1 he with h1 | h1
    · exact batchEntries_id_ge base b t EntryData.todoDelete P e h1
    · rcases List.mem_singleton.1 h1 with rfl; exact Nat.le_add_right base P.length
  have hactive1 : activeEntries db1.changelog = db.changelog ++ ES := by
    rw [hdb1, activeEntries_append, activeEntries_eq_self hact,
      activeEntries_eq_self hESactive]
  have hsel : getLatestActiveChangelogEntry db1 = some ES := by
    refine getLatestActive_of_batch db1 db.changelog ES b hactive1
      (by simp [hES]) hESbatch ?_
    intro e he hbe
    have := hwf.clBatchLt e he
    rw [hbe] at this
    simp only [Option.all_some, decide_eq_true_eq] at this
    exact absurd this (Nat.lt_irrefl b)
  have hne : ES.isEmpty = false := by
    rw [List.isEmpty_eq_false_iff_exists_mem]
    exact ⟨secE, List.mem_append.2 (Or.inr (List.mem_singleton.2 rfl))⟩
  have hord : undoOrdered ES = secE :: (batchEntries base b t EntryData.todoDelete P).reverse := by
    rw [undoOrdered, hES, List.filter_append, List.filter_append,
      batchEntries_filter_sections, batchEntries_filter_todos,
      List.filter_cons_of_pos (by rfl), List.filter_cons_of_neg (by simp [EntryData.tableName]),
      List.filter_nil]
    simp
  have hsec : ({ r with id := sid } : TodoSection) = r := by rw [← hrid]
  have habs1 : ∀ x ∈ db1.sections, x.id ≠ r.id := by
    rw [hdb1]
    intro x hx
    have := (List.mem_filter.1 hx).2
    simpa [hrid] using this
  have hrestore : insertById TodoSection.id r db1.sections = db.sections := by
    rw [hdb1]
    exact restore_at TodoSection.id hwf.secSorted hmem hrid
  have h1 : applyUndoEntry secE tu db1 =
      some { db1 with
               sections := db.sections,
               nextSectionId := max db1.nextSectionId (sid + 1) } := by
    simp only [hsecE, applyUndoEntry, hisoS, Bool.false_eq_true, if_false, hsec,
      insertSectionRow_of_absent r db1.sections habs1, Option.map_some', hrestore]
  have hdisj : ∀ c ∈ P, ∀ x ∈
      ({ db1 with
          sections := db.sections,
          nextSectionId := max db1.nextSectionId (sid + 1) } : DB).todos, x.id ≠ c.id := by
    intro c hc x hx
    have hcmem : c ∈ db.todos := List.mem_of_mem_filter hc
    have hcsec : c.sectionId = sid := by simpa using (List.mem_filter.1 hc).2
    have hxmem : x ∈ db.todos := List.mem_of_mem_filter hx
    have hxsec : x.sectionId ≠ sid := by simpa using (List.mem_filter.1 hx).2
    intro he
    exact hxsec (key_unique hwf.todoSorted hxmem hcmem he ▸ hcsec)
  have hnodup : P.Pairwise fun a c => a.id ≠ c.id :=
    sortedByKey_pairwise_ne (sortedByKey_filter TodoItem.id _ hwf.todoSorted)
  obtain ⟨db3, hrest, ht3, hs3, hc3⟩ :=
    applyUndoEntries_deletes_reverse tu P base b t
      { db1 with
        sections := db.sections,
        nextSectionId := max db1.nextSectionId (sid + 1) } hdisj hnodup
      (fun c hc => hisoT c (List.mem_of_mem_filter hc))
  have happly : applyUndoEntries tu (undoOrdered ES) db1 = (true, db3) := by
    rw [hord, applyUndoEntries, h1]
    exact hrest
  have htodos3 : db3.todos = db.todos := by
    rw [ht3]
    show P.foldr (insertById TodoItem.id) db1.todos = db.todos
    rw [hdb1, hP]
    exact foldr_insertById_partition TodoItem.id _ _
      (fun x => by simp) hwf.todoSorted
  have hchange3 : db3.changelog = db.changelog ++ ES := by
    rw [hc3]
  simp only [undo, hsel, hne, Bool.false_eq_true, if_false, happly, true_and]
  refine ⟨?_, ?_, ?_⟩
  · rw [flipAll_sections, hs3]
  · rw [flipAll_todos, htodos3]
  · refine flipAll_false_restores db.changelog ES db3 hchange3
      (fun e he => hact e he) ?_
    intro e he g hg
    have h1 : e.id < base := hwf.clLt e he
    have h2 : base ≤ g.id := hESid g hg
    omega

theorem deleteSection_reassign_eq (db : DB) (sid m t : Nat) (r : TodoSection)
    (hr : getSectionById sid db = some r) (hm : m ≠ 0) (hact : allActive db) :
    deleteSection sid (some m) t db =
      (true,
       { db with
         sections := db.sections.filter fun s => s.id ≠ sid
         todos := db.todos.map fun x =>
           if x.sectionId = sid then { x with sectionId := m, updatedAt := t } else x
         changelog := db.changelog ++
           [⟨db.nextChangelogId, true, some db.nextBatchId, sid,
             EntryData.sectionDelete r, t⟩]
         nextChangelogId := db.nextChangelogId + 1
         nextBatchId := db.nextBatchId + 1 }) := by
  have hrid : r.id = sid := by simpa using List.find?_some hr
  have hmem : r ∈ db.sections := List.mem_of_find?_eq_some hr
  have hmv : jsTruthy (some m) = true := by simp [jsTruthy, hm]
  have hprune : activeEntries db.changelog = db.changelog := activeEntries_eq_self hact
  have hpos : 0 < (db.sections.filter fun s => s.id = sid).length := by
    have : r ∈ db.sections.filter fun s => s.id = sid :=
      List.mem_filter.2 ⟨hmem, by simp [hrid]⟩
    exact List.length_pos.2 (List.ne_nil_of_mem this)
  simp only [deleteSection, hr, hmv, if_true, hprune, if_pos hpos]
  rfl

theorem deleteSection_reassign_undo (db : DB) (sid m t tu : Nat) (r : TodoSection)
    (hr : getSectionById sid db = some r) (hm : m ≠ 0)
    (hwf : StoreWF db) (hact : allActive db)
    (hisoS : isoDatePrefix r.name = false) :
    (undo tu (deleteSection sid (some m) t db).2).1 = some true ∧
    (undo tu (deleteSection sid (some m) t db).2).2.sections = db.sections ∧
    (undo tu (deleteSection sid (some m) t db).2).2.todos =
      (db.todos.map fun x =>
        if x.sectionId = sid then { x with sectionId := m, updatedAt := t } else x) ∧
    activeEntries (undo tu (deleteSection sid (some m) t db).2).2.changelog =
      db.changelog := by
  have hrid : r.id = sid := by simpa using List.find?_some hr
  have hmem : r ∈ db.sections := List.mem_of_find?_eq_some hr
  rw [deleteSection_reassign_eq db sid m t r hr hm hact]
  set b := db.nextBatchId with hb
  set secE : ChangelogEntry :=
    ⟨db.nextChangelogId, true, some b, sid, EntryData.sectionDelete r, t⟩ with hsecE
  set db1 : DB :=
    { db with
      sections := db.sections.filter fun s => s.id ≠ sid
      todos := db.todos.map fun x =>
        if x.sectionId = sid then { x with sectionId := m, updatedAt := t } else x
      changelog := db.changelog ++ [secE]
      nextChangelogId := db.nextChangelogId + 1
      nextBatchId := b + 1 } with hdb1
  have hactive1 : activeEntries db1.changelog = db.changelog ++ [secE] := by
    rw [hdb1, activeEntries_append, activeEntries_eq_self hact]
    rfl
  have hsel : getLatestActiveChangelogEntry db1 = some [secE] := by
    refine getLatestActive_of_batch db1 db.changelog [secE] b hactive1 (by simp)
      (fun g hg => by rcases List.mem_singleton.1 hg with rfl; rfl) ?_
    intro e he hbe
    have := hwf.clBatchLt e he
    rw [hbe] at this
    simp only [Option.all_some, decide_eq_true_eq] at this
    exact absurd this (Nat.lt_irrefl b)
  have hord : undoOrdered [secE] = [secE] := by
    rw [undoOrdered]
    rw [List.filter_cons_of_pos (by rfl), List.filter_cons_of_neg (by simp [EntryData.tableName]),
      List.filter_nil, List.filter_nil]
    rfl
  have hsec : ({ r with id := sid } : TodoSection) = r := by rw [← hrid]
  have habs1 : ∀ x ∈ db1.sections, x.id ≠ r.id := by
    rw [hdb1]
    intro x hx
    have := (List.mem_filter.1 hx).2
    simpa [hrid] using this
  have hrestore : insertById TodoSection.id r db1.sections = db.sections := by
    rw [hdb1]
    exact restore_at TodoSection.id hwf.secSorted hmem hrid
  have h1 : applyUndoEntry secE tu db1 =
      some { db1 with
               sections := db.sections,
               nextSectionId := max db1.nextSectionId (sid + 1) } := by
    simp only [hsecE, applyUndoEntry, hisoS, Bool.false_eq_true, if_false, hsec,
      insertSectionRow_of_absent r db1.sections habs1, Option.map_some', hrestore]
  have happly : applyUndoEntries tu (undoOrdered [secE]) db1 =
      (true, { db1 with
                 sections := db.sections,
                 nextSectionId := max db1.nextSectionId (sid + 1) }) := by
    rw [hord, applyUndoEntries, h1]
    rfl
  simp only [undo, hsel, List.isEmpty_cons, Bool.false_eq_true, if_false, happly, true_and]
  refine ⟨?_, ?_, ?_⟩
  · rw [flipAll_sections]
  · rw [flipAll_todos]
  · refine flipAll_false_restores db.changelog [secE]
      { db1 with
        sections := db.sections,
        nextSectionId := max db1.nextSectionId (sid + 1) } (by rw [hdb1]) hact ?_
    intro e he g hg
    rcases List.mem_singleton.1 hg with rfl
    have h1 : e.id < db.nextChangelogId := hwf.clLt e he
    exact Nat.ne_of_lt h1

theorem batchEntries_length (base b t : Nat) (mk : TodoItem → EntryData)
    (P : List TodoItem) : (batchEntries base b t mk P).length = P.length := by
  induction P generalizing base with
  | nil => rfl
  | cons r P' ih => simp [batchEntries, ih (base + 1)]

theorem batchEntries_append (base b t : Nat) (mk : TodoItem → EntryData)
    (P1 P2 : List TodoItem) :
    batchEntries base b t mk (P1 ++ P2) =
      batchEntries base b t mk P1 ++ batchEntries (base + P1.length) b t mk P2 := by
  induction P1 generalizing base with
  | nil => simp [batchEntries]
  | cons r P' ih =>
    have harith : base + 1 + P'.length = base + (P'.length + 1) := by omega
    rw [List.cons_append, batchEntries, ih (base + 1), harith, batchEntries,
      List.cons_append, List.length_cons]

theorem batchEntries_filter_sections_of_todos (base b t : Nat)
    (mk : TodoItem → EntryData) (hmk : ∀ r, (mk r).tableName = TableName.todos)
    (P : List TodoItem) :
    (batchEntries base b t mk P).filter
      (fun e => e.data.tableName = TableName.sections) = [] := by
  induction P generalizing base with
  | nil => rfl
  | cons r P' ih =>
    rw [batchEntries, List.filter_cons_of_neg (by simp [hmk r])]
    exact ih (base + 1)

theorem batchEntries_filter_todos_of_todos (base b t : Nat)
    (mk : TodoItem → EntryData) (hmk : ∀ r, (mk r).tableName = TableName.todos)
    (P : List TodoItem) :
    (batchEntries base b t mk P).filter
      (fun e => e.data.tableName = TableName.todos) = batchEntries base b t mk P := by
  refine List.filter_eq_self.2 fun e he => ?_
  obtain ⟨c, _, hd, _⟩ := batchEntries_data base b t mk P e he
  simp [hd, hmk c]

theorem foldl_undoTodoUpdateStep_map (t : Nat) (L : List ChangelogEntry)
    (l : List TodoItem) :
    L.foldl (undoTodoUpdateStep t) l = l.map fun r => L.foldl (undoTodoUpdateRow t) r := by
  induction L generalizing l with
  | nil => simp
  | cons e L' ih =>
    rw [List.foldl_cons]
    cases hd : e.data <;>
      simp [undoTodoUpdateStep, undoTodoUpdateRow, hd, updateTodosById, ih,
        List.map_map, Function.comp_def]

theorem applyUndoEntries_updates (t : Nat) (L : List ChangelogEntry) (db : DB)
    (hL : ∀ e ∈ L, ∃ o n, e.data = EntryData.todoUpdate o n ∧ isoOpt o.text = false) :
    applyUndoEntries t L db =
      (true, { db with todos := L.foldl (undoTodoUpdateStep t) db.todos }) := by
  induction L generalizing db with
  | nil => rfl
  | cons e L' ih =>
    obtain ⟨o, n, hd, hiso⟩ := hL e (List.mem_cons_self e L')
    have hstep : applyUndoEntry e t db =
        some { db with todos := updateTodosById e.entityId o t db.todos } := by
      simp only [applyUndoEntry, hd, hiso, Bool.false_eq_true, if_false]
    rw [applyUndoEntries, hstep]
    show applyUndoEntries t L' _ = _
    rw [ih _ fun x hx => hL x (List.mem_cons_of_mem e hx)]
    rw [List.foldl_cons]
    have : undoTodoUpdateStep t db.todos e = updateTodosById e.entityId o t db.todos := by
      simp only [undoTodoUpdateStep, hd]
    rw [this]

theorem foldl_undoTodoUpdateRow_skip (t : Nat) (L : List ChangelogEntry) (r : TodoItem)
    (h : ∀ e ∈ L, e.entityId ≠ r.id) :
    L.foldl (undoTodoUpdateRow t) r = r := by
  induction L with
  | nil => rfl
  | cons e L' ih =>
    rw [List.foldl_cons]
    have hstep : undoTodoUpdateRow t r e = r := by
      cases hd : e.data <;> simp only [undoTodoUpdateRow, hd]
      case todoUpdate o n =>
        rw [if_neg fun he => h e (List.mem_cons_self e L') he.symm]
    rw [hstep]
    exact ih fun x hx => h x (List.mem_cons_of_mem e hx)

theorem foldl_undoTodoUpdateRow_once (t : Nat) (L1 L2 : List ChangelogEntry)
    (e0 : ChangelogEntry) (r : TodoItem) (o n : TodoPatch)
    (h1 : ∀ e ∈ L1, e.entityId ≠ r.id) (h2 : ∀ e ∈ L2, e.entityId ≠ r.id)
    (he : e0.entityId = r.id) (hd : e0.data = EntryData.todoUpdate o n) :
    (L1 ++ e0 :: L2).foldl (undoTodoUpdateRow t) r = applyTodoPatch o t r := by
  rw [List.foldl_append, foldl_undoTodoUpdateRow_skip t L1 r h1, List.foldl_cons]
  have hstep : undoTodoUpdateRow t r e0 = applyTodoPatch o t r := by
    simp [undoTodoUpdateRow, hd, he]
  rw [hstep]
  exact foldl_undoTodoUpdateRow_skip t L2 _ fun e hx => h2 e hx

theorem bulk_batch_undo (db : DB) (cond : Nat → Bool) (f : TodoItem → TodoItem)
    (oldp newp : TodoItem → TodoPatch) (t tu : Nat) (db1 : DB)
    (hwf : StoreWF db) (hact : allActive db)
    (hfid : ∀ r, (f r).id = r.id)
    (hinv : ∀ r, applyTodoPatch (oldp r) tu (f r) = { r with updatedAt := tu })
    (holdt : ∀ r, isoOpt (oldp r).text = false)
    (hne : (db.todos.filter fun r => cond r.id) ≠ [])
    (hdb1 : db1 =
      { db with
        todos := db.todos.map fun r => if cond r.id then f r else r
        changelog := db.changelog ++
          batchEntries db.nextChangelogId db.nextBatchId t
            (fun c => EntryData.todoUpdate (oldp c) (newp c))
            (db.todos.filter fun r => cond r.id)
        nextChangelogId := db.nextChangelogId +
          (db.todos.filter fun r => cond r.id).length
        nextBatchId := db.nextBatchId + 1 }) :
    (undo tu db1).1 = some true ∧
    (undo tu db1).2.sections = db.sections ∧
    (undo tu db1).2.todos = (db.todos.map fun r =>
      if cond r.id then { r with updatedAt := tu } else r) ∧
    activeEntries (undo tu db1).2.changelog = db.changelog := by
  subst hdb1
  set P : List TodoItem := db.todos.filter fun r => cond r.id with hP
  set base := db.nextChangelogId with hbase
  set b := db.nextBatchId with hb
  set mk : TodoItem → EntryData :=
    fun c => EntryData.todoUpdate (oldp c) (newp c) with hmk
  set ES : List ChangelogEntry := batchEntries base b t mk P with hES
  set db1 : DB :=
    { db with
      todos := db.todos.map fun r => if cond r.id then f r else r
      changelog := db.changelog ++ ES
      nextChangelogId := base + P.length
      nextBatchId := b + 1 } with hdb1
  have hESne : ES ≠ [] := by
    rw [hES]
    intro hnil
    have := batchEntries_length base b t mk P
    rw [hnil] at this
    exact hne (List.length_eq_zero.1 this.symm)
  have hESactive : ∀ e ∈ ES, e.isActive = true :=
    fun e he => batchEntries_isActive base b t mk P e he
  have hactive1 : activeEntries db1.changelog = db.changelog ++ ES := by
    rw [hdb1]
    show activeEntries (db.changelog ++ ES) = _
    rw [activeEntries_append, activeEntries_eq_self hact, activeEntries_eq_self hESactive]
  have hsel : getLatestActiveChangelogEntry db1 = some ES := by
    refine getLatestActive_of_batch db1 db.changelog ES b hactive1 hESne
      (fun g hg => batchEntries_batchId base b t mk P g hg) ?_
    intro e he hbe
    have := hwf.clBatchLt e he
    rw [hbe] at this
    simp only [Option.all_some, decide_eq_true_eq] at this
    exact absurd this (Nat.lt_irrefl b)
  have hneES : ES.isEmpty = false := by
    rw [List.isEmpty_eq_false_iff_exists_mem]
    exact ⟨ES.getLast hESne, List.getLast_mem hESne⟩
  have hord : undoOrdered ES = ES.reverse := by
    rw [undoOrdered, hES,
      batchEntries_filter_sections_of_todos base b t mk (fun r => rfl) P,
      batchEntries_filter_todos_of_todos base b t mk (fun r => rfl) P]
    rfl
  have hupd : ∀ e ∈ ES.reverse,
      ∃ o n, e.data = EntryData.todoUpdate o n ∧ isoOpt o.text = false := by
    intro e he
    obtain ⟨c, _, hd, _⟩ :=
      batchEntries_data base b t mk P e (List.mem_reverse.1 he)
    exact ⟨oldp c, newp c, hd, holdt c⟩
  have happly := applyUndoEntries_updates tu ES.reverse db1 hupd
  have hPnodup : P.Pairwise fun a c => a.id ≠ c.id :=
    sortedByKey_pairwise_ne (sortedByKey_filter TodoItem.id _ hwf.todoSorted)
  have htable : (ES.reverse).foldl (undoTodoUpdateStep tu) db1.todos =
      db.todos.map fun r => if cond r.id then { r with updatedAt := tu } else r := by
    rw [foldl_undoTodoUpdateStep_map]
    have hdb1t : db1.todos = db.todos.map fun r => if cond r.id then f r else r := rfl
    rw [hdb1t, List.map_map]
    refine List.map_congr_left fun r hr => ?_
    simp only [Function.comp_apply]
    by_cases hc : cond r.id
    · have hrP : r ∈ P := List.mem_filter.2 ⟨hr, by simpa using hc⟩
      obtain ⟨P1, P2, hsplit⟩ := List.append_of_mem hrP
      have hpw : ∀ a ∈ P1, a.id ≠ r.id ∧ ∀ cc ∈ P2, r.id ≠ cc.id := by
        intro a ha
        rw [hsplit, List.pairwise_append] at hPnodup
        exact ⟨hPnodup.2.2 a ha r (List.mem_cons_self r P2),
          fun cc hcc => (List.pairwise_cons.1 hPnodup.2.1).1 cc hcc⟩
      have hpw1 : ∀ a ∈ P1, a.id ≠ r.id := fun a ha => (hpw a ha).1
      have hpw2 : ∀ cc ∈ P2, r.id ≠ cc.id := by
        rw [hsplit, List.pairwise_append] at hPnodup
        exact (List.pairwise_cons.1 hPnodup.2.1).1
      have hdecomp : ES.reverse =
          (batchEntries (base + P1.length + 1) b t mk P2).reverse ++
            (⟨base + P1.length, true, some b, r.id, mk r, t⟩ : ChangelogEntry) ::
              (batchEntries base b t mk P1).reverse := by
        rw [hES, hsplit, batchEntries_append, batchEntries, List.reverse_append,
          List.reverse_cons, List.append_assoc, List.singleton_append]
      rw [hdecomp]
      rw [if_pos hc]
      rw [foldl_undoTodoUpdateRow_once tu _ _ _ (f r) (oldp r) (newp r) ?_ ?_
        (by rw [hfid r]) rfl]
      · rw [if_pos hc]
        exact hinv r
      · intro e he
        obtain ⟨c2, hc2, _, hent⟩ := batchEntries_data _ b t mk P2 e
          (List.mem_reverse.1 he)
        rw [hent, hfid r]
        exact fun heq => hpw2 c2 hc2 heq.symm
      · intro e he
        obtain ⟨c2, hc2, _, hent⟩ := batchEntries_data _ b t mk P1 e
          (List.mem_reverse.1 he)
        rw [hent, hfid r]
        exact hpw1 c2 hc2
    · rw [if_neg hc, if_neg hc]
      refine foldl_undoTodoUpdateRow_skip tu _ r ?_
      intro e he
      obtain ⟨c2, hc2, _, hent⟩ := batchEntries_data base b t mk P e
        (List.mem_reverse.1 he)
      rw [hent]
      intro heq
      have : cond c2.id = true := by simpa using (List.mem_filter.1 hc2).2
      rw [heq] at this
      exact hc this
  simp only [undo, hsel, hneES, Bool.false_eq_true, if_false, hord, happly, true_and]
  refine ⟨?_, ?_, ?_⟩
  · rw [flipAll_sections]
  · rw [flipAll_todos]
    show (ES.reverse).foldl (undoTodoUpdateStep tu) db1.todos = _
    exact htable
  · refine flipAll_false_restores db.changelog ES _ ?_ hact ?_
    · show db1.changelog = db.changelog ++ ES
      rfl
    · intro e he g hg
      have h1 : e.id < base := hwf.clLt e he
      have h2 : base ≤ g.id := batchEntries_id_ge base b t mk P g hg
      omega

theorem find?_map_of_key_preserved {α : Type} (key : α → Nat) (k : Nat) (F : α → α)
    (hF : ∀ x, key (F x) = key x) (l : List α) :
    (l.map F).find? (fun x => key x = k) = (l.find? fun x => key x = k).map F := by
  induction l with
  | nil => rfl
  | cons x xs ih =>
    by_cases hx : key x = k
    · rw [List.map_cons, List.find?_cons_of_pos _ (by simpa [hF] using hx),
        List.find?_cons_of_pos _ (by simpa using hx), Option.map_some']
    · rw [List.map_cons, List.find?_cons_of_neg _ (by simpa [hF] using hx),
        List.find?_cons_of_neg _ (by simpa using hx), ih]

theorem markTodosCompleted_snd (ids : List Nat) (c : Bool) (t : Nat) (db : DB) :
    (markTodosCompleted ids c t db).2 =
      { db with
        todos := db.todos.map fun r =>
          if ids.contains r.id then { r with completed := c, updatedAt := t } else r
        changelog := db.changelog ++
          batchEntries db.nextChangelogId db.nextBatchId t
            (fun todo => EntryData.todoUpdate { completed := some todo.completed }
              { completed := some c })
            (db.todos.filter fun r => ids.contains r.id)
        nextChangelogId := db.nextChangelogId +
          (db.todos.filter fun r => ids.contains r.id).length
        nextBatchId := db.nextBatchId + 1 } := by
  simp only [markTodosCompleted, foldl_addChangelogEntry_batch]

theorem moveTodos_snd (ids : List Nat) (target : Nat) (t : Nat) (db : DB) :
    (moveTodos ids target t db).2 =
      { db with
        todos := db.todos.map fun r =>
          if ids.contains r.id then { r with sectionId := target, updatedAt := t } else r
        changelog := db.changelog ++
          batchEntries db.nextChangelogId db.nextBatchId t
            (fun todo => EntryData.todoUpdate { sectionId := some todo.sectionId }
              { sectionId := some target })
            (db.todos.filter fun r => ids.contains r.id)
        nextChangelogId := db.nextChangelogId +
          (db.todos.filter fun r => ids.contains r.id).length
        nextBatchId := db.nextBatchId + 1 } := by
  simp only [moveTodos, foldl_addChangelogEntry_batch]

theorem setTodosPriority_snd (ids : List Nat) (p : Int) (t : Nat) (db : DB) :
    (setTodosPriority ids p t db).2 =
      { db with
        todos := db.todos.map fun r =>
          if ids.contains r.id then { r with priority := p, updatedAt := t } else r
        changelog := db.changelog ++
          batchEntries db.nextChangelogId db.nextBatchId t
            (fun todo => EntryData.todoUpdate { priority := some todo.priority }
              { priority := some p })
            (db.todos.filter fun r => ids.contains r.id)
        nextChangelogId := db.nextChangelogId +
          (db.todos.filter fun r => ids.contains r.id).length
        nextBatchId := db.nextBatchId + 1 } := by
  simp only [setTodosPriority, foldl_addChangelogEntry_batch]

theorem setTodosDueDate_snd (ids : List Nat) (d : Option Nat) (t : Nat) (db : DB) :
    (setTodosDueDate ids d t db).2 =
      { db with
        todos := db.todos.map fun r =>
          if ids.contains r.id then { r with dueDate := d, updatedAt := t } else r
        changelog := db.changelog ++
          batchEntries db.nextChangelogId db.nextBatchId t
            (fun todo => EntryData.todoUpdate { dueDate := some todo.dueDate }
              { dueDate := some d })
            (db.todos.filter fun r => ids.contains r.id)
        nextChangelogId := db.nextChangelogId +
          (db.todos.filter fun r => ids.contains r.id).length
        nextBatchId := db.nextBatchId + 1 } := by
  simp only [setTodosDueDate, foldl_addChangelogEntry_batch]

theorem todosView_eq_iff (l1 l2 : List TodoItem) :
    todosView l1 = todosView l2 ↔
      List.Forall₂ (fun x y => x.clearUpdatedAt = y.clearUpdatedAt) l1 l2 := by
  induction l1 generalizing l2 with
  | nil =>
    cases l2 with
    | nil => simp [todosView]
    | cons y ys => simp [todosView]
  | cons x xs ih =>
    cases l2 with
    | nil => simp [todosView]
    | cons y ys =>
      simp only [todosView, List.map_cons, List.cons.injEq, List.forall₂_cons]
      exact and_congr Iff.rfl (ih ys)

theorem sectionsView_eq_iff (l1 l2 : List TodoSection) :
    sectionsView l1 = sectionsView l2 ↔
      List.Forall₂ (fun x y => x.clearUpdatedAt = y.clearUpdatedAt) l1 l2 := by
  induction l1 generalizing l2 with
  | nil =>
    cases l2 with
    | nil => simp [sectionsView]
    | cons y ys => simp [sectionsView]
  | cons x xs ih =>
    cases l2 with
    | nil => simp [sectionsView]
    | cons y ys =>
      simp only [sectionsView, List.map_cons, List.cons.injEq, List.forall₂_cons]
      exact and_congr Iff.rfl (ih ys)

theorem clearUpdatedAt_id_eq {x y : TodoItem}
    (h : x.clearUpdatedAt = y.clearUpdatedAt) : x.id = y.id := by
  have := congrArg TodoItem.id h
  simpa [TodoItem.clearUpdatedAt] using this

theorem clearUpdatedAt_sid_eq {x y : TodoSection}
    (h : x.clearUpdatedAt = y.clearUpdatedAt) : x.id = y.id := by
  have := congrArg TodoSection.id h
  simpa [TodoSection.clearUpdatedAt] using this

theorem todosView_filter_ne (l1 l2 : List TodoItem) (i : Nat)
    (h : todosView l1 = todosView l2) :
    todosView (l1.filter fun r => r.id ≠ i) = todosView (l2.filter fun r => r.id ≠ i) := by
  rw [todosView_eq_iff] at h ⊢
  induction h with
  | nil => exact List.Forall₂.nil
  | cons hxy hrest ih =>
    rename_i x y xs ys
    by_cases hx : x.id ≠ i
    · rw [List.filter_cons_of_pos (by simpa using hx),
        List.filter_cons_of_pos (by simp [← clearUpdatedAt_id_eq hxy]; exact hx)]
      exact List.Forall₂.cons hxy ih
    · rw [List.filter_cons_of_neg (by simpa using hx),
        List.filter_cons_of_neg (by simp [← clearUpdatedAt_id_eq hxy]; simpa using hx)]
      exact ih

theorem sectionsView_filter_ne (l1 l2 : List TodoSection) (i : Nat)
    (h : sectionsView l1 = sectionsView l2) :
    sectionsView (l1.filter fun r => r.id ≠ i) =
      sectionsView (l2.filter fun r => r.id ≠ i) := by
  rw [sectionsView_eq_iff] at h ⊢
  induction h with
  | nil => exact List.Forall₂.nil
  | cons hxy hrest ih =>
    rename_i x y xs ys
    by_cases hx : x.id ≠ i
    · rw [List.filter_cons_of_pos (by simpa using hx),
        List.filter_cons_of_pos (by simp [← clearUpdatedAt_sid_eq hxy]; exact hx)]
      exact List.Forall₂.cons hxy ih
    · rw [List.filter_cons_of_neg (by simpa using hx),
        List.filter_cons_of_neg (by simp [← clearUpdatedAt_sid_eq hxy]; simpa using hx)]
      exact ih

theorem applyTodoPatch_clear_congr (p : TodoPatch) (t1 t2 : Nat) {x y : TodoItem}
    (h : x.clearUpdatedAt = y.clearUpdatedAt) :
    (applyTodoPatch p t1 x).clearUpdatedAt = (applyTodoPatch p t2 y).clearUpdatedAt := by
  cases x
  cases y
  simp only [TodoItem.clearUpdatedAt, TodoItem.mk.injEq] at h
  obtain ⟨e1, e2, e3, e4, e5, e6, e7, e8, _⟩ := h
  subst e1; subst e2; subst e3; subst e4; subst e5; subst e6; subst e7; subst e8
  simp [applyTodoPatch, TodoItem.clearUpdatedAt]

theorem applySectionPatch_clear_congr (p : SectionPatch) (t1 t2 : Nat)
    {x y : TodoSection} (h : x.clearUpdatedAt = y.clearUpdatedAt) :
    (applySectionPatch p t1 x).clearUpdatedAt =
      (applySectionPatch p t2 y).clearUpdatedAt := by
  cases x
  cases y
  simp only [TodoSection.clearUpdatedAt, TodoSection.mk.injEq] at h
  obtain ⟨e1, e2, e3, e4, _⟩ := h
  subst e1; subst e2; subst e3; subst e4
  simp [applySectionPatch, TodoSection.clearUpdatedAt]

theorem todosView_update_congr (i : Nat) (p : TodoPatch) (t1 t2 : Nat)
    (l1 l2 : List TodoItem) (h : todosView l1 = todosView l2) :
    todosView (updateTodosById i p t1 l1) = todosView (updateTodosById i p t2 l2) := by
  rw [todosView_eq_iff] at h ⊢
  induction h with
  | nil => exact List.Forall₂.nil
  | cons hxy hrest ih =>
    rename_i x y xs ys
    rw [updateTodosById, List.map_cons, updateTodosById, List.map_cons]
    refine List.Forall₂.cons ?_ ih
    by_cases hx : x.id = i
    · rw [if_pos hx, if_pos ((clearUpdatedAt_id_eq hxy).symm.trans hx)]
      exact applyTodoPatch_clear_congr p t1 t2 hxy
    · rw [if_neg hx, if_neg fun hy => hx ((clearUpdatedAt_id_eq hxy).trans hy)]
      exact hxy

theorem sectionsView_update_congr (i : Nat) (p : SectionPatch) (t1 t2 : Nat)
    (l1 l2 : List TodoSection) (h : sectionsView l1 = sectionsView l2) :
    sectionsView (updateSectionsById i p t1 l1) =
      sectionsView (updateSectionsById i p t2 l2) := by
  rw [sectionsView_eq_iff] at h ⊢
  induction h with
  | nil => exact List.Forall₂.nil
  | cons hxy hrest ih =>
    rename_i x y xs ys
    rw [updateSectionsById, List.map_cons, updateSectionsById, List.map_cons]
    refine List.Forall₂.cons ?_ ih
    by_cases hx : x.id = i
    · rw [if_pos hx, if_pos ((clearUpdatedAt_sid_eq hxy).symm.trans hx)]
      exact applySectionPatch_clear_congr p t1 t2 hxy
    · rw [if_neg hx, if_neg fun hy => hx ((clearUpdatedAt_sid_eq hxy).trans hy)]
      exact hxy

theorem any_id_congr_todo (l1 l2 : List TodoItem) (i : Nat)
    (h : todosView l1 = todosView l2) :
    (l1.any fun x => x.id = i) = (l2.any fun x => x.id = i) := by
  rw [todosView_eq_iff] at h
  induction h with
  | nil => rfl
  | cons hxy hrest ih =>
    rename_i x y xs ys
    simp only [List.any_cons, ih, clearUpdatedAt_id_eq hxy]

theorem any_id_congr_section (l1 l2 : List TodoSection) (i : Nat)
    (h : sectionsView l1 = sectionsView l2) :
    (l1.any fun x => x.id = i) = (l2.any fun x => x.id = i) := by
  rw [sectionsView_eq_iff] at h
  induction h with
  | nil => rfl
  | cons hxy hrest ih =>
    rename_i x y xs ys
    simp only [List.any_cons, ih, clearUpdatedAt_sid_eq hxy]

theorem todosView_insertById_congr (r : TodoItem) (l1 l2 : List TodoItem)
    (h : todosView l1 = todosView l2) :
    todosView (insertById TodoItem.id r l1) = todosView (insertById TodoItem.id r l2) := by
  rw [todosView_eq_iff] at h ⊢
  induction h with
  | nil => exact List.Forall₂.cons rfl List.Forall₂.nil
  | cons hxy hrest ih =>
    rename_i x y xs ys
    rw [insertById, insertById]
    by_cases hlt : r.id < x.id
    · rw [if_pos hlt, if_pos (clearUpdatedAt_id_eq hxy ▸ hlt)]
      exact List.Forall₂.cons rfl (List.Forall₂.cons hxy hrest)
    · rw [if_neg hlt, if_neg (clearUpdatedAt_id_eq hxy ▸ hlt)]
      exact List.Forall₂.cons hxy ih

theorem sectionsView_insertById_congr (r : TodoSection) (l1 l2 : List TodoSection)
    (h : sectionsView l1 = sectionsView l2) :
    sectionsView (insertById TodoSection.id r l1) =
      sectionsView (insertById TodoSection.id r l2) := by
  rw [sectionsView_eq_iff] at h ⊢
  induction h with
  | nil => exact List.Forall₂.cons rfl List.Forall₂.nil
  | cons hxy hrest ih =>
    rename_i x y xs ys
    rw [insertById, insertById]
    by_cases hlt : r.id < x.id
    · rw [if_pos hlt, if_pos (clearUpdatedAt_sid_eq hxy ▸ hlt)]
      exact List.Forall₂.cons rfl (List.Forall₂.cons hxy hrest)
    · rw [if_neg hlt, if_neg (clearUpdatedAt_sid_eq hxy ▸ hlt)]
      exact List.Forall₂.cons hxy ih

theorem inactiveEntries_of_addChangelogEntry_nonbatched (eid : Nat) (d : EntryData)
    (t : Nat) (db : DB) :
    inactiveEntries (addChangelogEntry eid d none t db).changelog = [] := by
  simp [addChangelogEntry, inactiveEntries, activeEntries, List.filter_append,
    List.filter_filter]

/-- C10: `startServer` empties the changelog after the listener is up, so
immediately after every process start there are no active and no inactive
entries, and both the first `undo()` and the first `redo()` return `false`
without changing the store. -/
theorem startServer_resets_history (db : DB) (t u : Nat) :
    (startServer db).changelog = [] ∧
    undo t (startServer db) = (some false, startServer db) ∧
    redo u (startServer db) = (some false, startServer db) := by
  refine ⟨rfl, ?_, ?_⟩ <;>
    simp [undo, redo, startServer, clearChangelog, getLatestActiveChangelogEntry,
      getLatestUndoneChangelogEntry, activeEntries, inactiveEntries]

/-- C7: recording a new non-batched mutation first deletes every inactive
changelog entry (`addChangelogEntry` without a batch id prunes the undone
tail), so after such a mutation — here a `createTodo` — no undone entries
remain and a subsequent `redo()` returns `false` without changing the
store. -/
theorem new_mutation_clears_redo_stack (db : DB) (eid : Nat) (d : EntryData)
    (dNew : NewTodoItem) (t t2 u : Nat) :
    inactiveEntries (addChangelogEntry eid d none t db).changelog = [] ∧
    inactiveEntries ((createTodo dNew t2 db).2).changelog = [] ∧
    redo u ((createTodo dNew t2 db).2) = (some false, (createTodo dNew t2 db).2) := by
  have h2 : inactiveEntries ((createTodo dNew t2 db).2).changelog = [] := by
    simpa [createTodo] using
      inactiveEntries_of_addChangelogEntry_nonbatched _ _ t2
        { db with todos := insertById TodoItem.id _ db.todos, nextTodoId := db.nextTodoId + 1 }
  refine ⟨inactiveEntries_of_addChangelogEntry_nonbatched eid d t db, h2, ?_⟩
  simp [redo, getLatestUndoneChangelogEntry, h2]

/-- C2 (failing input): after two mutations (create todo 1, update its
priority from 0 to 1), two undos and then two redos, the todo's priority
is 0 — not the 1 the state after the original mutations has — because
`redo` replays the higher-id (first-undone) group before the lower-id one,
re-applying the update to a missing row and then recreating the todo from
its pre-update insert payload. -/
theorem redo_pair_not_inverse :
    ((undoTimes [3, 4] twoMutationsDB).bind (redoTimes [5, 6])).map
        (fun d => (getTodoById 1 d).map TodoItem.priority) = some (some 0) ∧
    (getTodoById 1 twoMutationsDB).map TodoItem.priority = some 1 := by decide

/-- C3 (failing input): after undoing entry 2 and then entry 1, the most
recently deactivated group is the one with the LOWEST id (entry 1), but
`getLatestUndoneChangelogEntry` returns the inactive entry with the
highest id (entry 2) — the first-undone group — and `redo()` replays
exactly that group, flipping entry 2 back to active. -/
theorem latest_undone_group_not_most_recent :
    (undoTimes [3, 4] twoMutationsDB).map
        (fun d => (getLatestUndoneChangelogEntry d).map (List.map ChangelogEntry.id)) =
      some (some [2]) ∧
    (undoTimes [3, 4] twoMutationsDB).map
        (fun d => (inactiveEntries d.changelog).map ChangelogEntry.id) = some [1, 2] ∧
    (undoTimes [3, 4] twoMutationsDB).map
        (fun d => (redo 5 d).2.changelog.map fun e => (e.id, e.isActive)) =
      some [(1, false), (2, true)] := by decide

/-- C1 (counterexample): from a store with an empty changelog, the single
mutation `deleteSection 1 (moveToSectionId := 2)` followed by one `undo()`
does not restore the `todos` table: the child todo's reassignment to
section 2 is never logged, so after the undo it still references section 2
while it originally referenced section 1. -/
theorem undo_roundtrip_counterexample :
    prebuiltDB.changelog = [] ∧
    (undoTimes [9] (applyMutations [(Mutation.deleteSection 1 (some 2), 5)] prebuiltDB)).map
        (fun d => d.todos.map TodoItem.sectionId) = some [2] ∧
    prebuiltDB.todos.map TodoItem.sectionId = [1] := by decide

/-- C4 (counterexample): undoing a two-entry delete batch against a
diverged store throws after the first entry: the error escapes (`none`),
no active flag is flipped, but the section recreated by the first entry
remains — the tables are NOT left exactly as they were before the call. -/
theorem undo_failure_leaves_partial_application :
    (undo 5 divergedDB).1 = none ∧
    (undo 5 divergedDB).2.sections ≠ divergedDB.sections ∧
    (undo 5 divergedDB).2.changelog = divergedDB.changelog := by decide

theorem applyUndoEntry_changelog (e : ChangelogEntry) (t : Nat) (db db1 : DB)
    (h : applyUndoEntry e t db = some db1) : db1.changelog = db.changelog := by
  cases hd : e.data <;>
    simp only [applyUndoEntry, hd, Option.some.injEq, Option.map_eq_some'] at h
  case todoInsert => subst h; rfl
  case sectionInsert => subst h; rfl
  case todoUpdate o n =>
    by_cases hiso : isoOpt o.text = true
    · rw [if_pos hiso] at h
      cases h
    · rw [if_neg hiso, Option.some.injEq] at h
      subst h; rfl
  case sectionUpdate o n =>
    by_cases hiso : isoOpt o.name = true
    · rw [if_pos hiso] at h
      cases h
    · rw [if_neg hiso, Option.some.injEq] at h
      subst h; rfl
  case todoDelete row =>
    by_cases hiso : isoDatePrefix row.text = true
    · rw [if_pos hiso] at h
      cases h
    · rw [if_neg hiso, Option.map_eq_some'] at h
      obtain ⟨l, hl, hdb⟩ := h
      subst hdb; rfl
  case sectionDelete row =>
    by_cases hiso : isoDatePrefix row.name = true
    · rw [if_pos hiso] at h
      cases h
    · rw [if_neg hiso, Option.map_eq_some'] at h
      obtain ⟨l, hl, hdb⟩ := h
      subst hdb; rfl

theorem applyUndoEntries_changelog (t : Nat) (es : List ChangelogEntry) (db : DB) :
    ((applyUndoEntries t es db).2).changelog = db.changelog := by
  induction es generalizing db with
  | nil => rfl
  | cons e es ih =>
    rw [applyUndoEntries]
    cases h : applyUndoEntry e t db with
    | none => rfl
    | some db1 =>
      show (applyUndoEntries t es db1).2.changelog = db.changelog
      rw [ih db1, applyUndoEntry_changelog e t db db1 h]

theorem applyRedoEntry_changelog (e : ChangelogEntry) (t : Nat) (db db1 : DB)
    (h : applyRedoEntry e t db = some db1) : db1.changelog = db.changelog := by
  cases hd : e.data <;>
    simp only [applyRedoEntry, hd, Option.some.injEq, Option.map_eq_some'] at h
  case todoInsert row =>
    by_cases hiso : isoDatePrefix row.text = true
    · rw [if_pos hiso] at h
      cases h
    · rw [if_neg hiso, Option.map_eq_some'] at h
      obtain ⟨l, hl, hdb⟩ := h
      subst hdb; rfl
  case sectionInsert row =>
    by_cases hiso : isoDatePrefix row.name = true
    · rw [if_pos hiso] at h
      cases h
    · rw [if_neg hiso, Option.map_eq_some'] at h
      obtain ⟨l, hl, hdb⟩ := h
      subst hdb; rfl
  case todoUpdate o n =>
    by_cases hn : n.isEmpty = true
    · rw [if_pos hn, Option.some.injEq] at h; subst h; rfl
    · rw [if_neg hn] at h
      by_cases hiso : isoOpt n.text = true
      · rw [if_pos hiso] at h
        cases h
      · rw [if_neg hiso, Option.some.injEq] at h; subst h; rfl
  case sectionUpdate o n =>
    by_cases hn : n.isEmpty = true
    · rw [if_pos hn, Option.some.injEq] at h; subst h; rfl
    · rw [if_neg hn] at h
      by_cases hiso : isoOpt n.name = true
      · rw [if_pos hiso] at h
        cases h
      · rw [if_neg hiso, Option.some.injEq] at h; subst h; rfl
  case todoDelete => subst h; rfl
  case sectionDelete => subst h; rfl

theorem applyRedoEntries_changelog (t : Nat) (es : List ChangelogEntry) (db : DB) :
    ((applyRedoEntries t es db).2).changelog = db.changelog := by
  induction es generalizing db with
  | nil => rfl
  | cons e es ih =>
    rw [applyRedoEntries]
    cases h : applyRedoEntry e t db with
    | none => rfl
    | some db1 =>
      show (applyRedoEntries t es db1).2.changelog = db.changelog
      rw [ih db1, applyRedoEntry_changelog e t db db1 h]

/-- C4 amended: when replaying an entry throws during `undo()` or
`redo()`, the remaining entries are skipped, the error escapes to the
caller, and no entry's active flag has been flipped (the changelog is
exactly as before the call); however, table changes already applied for
earlier entries of the group are not rolled back (see the counterexample),
and an entry whose target row is merely missing does not fail at all. -/
theorem failed_replay_flips_no_flags (t u : Nat) (db : DB) :
    ((undo t db).1 = none → (undo t db).2.changelog = db.changelog) ∧
    ((redo u db).1 = none → (redo u db).2.changelog = db.changelog) := by
  constructor
  · intro h
    cases hg : getLatestActiveChangelogEntry db with
    | none => simp only [undo, hg] at h; cases h
    | some entries =>
      simp only [undo, hg] at h ⊢
      by_cases he : entries.isEmpty = true
      · rw [if_pos he] at h; cases h
      · rw [if_neg he] at h ⊢
        cases ha : applyUndoEntries t (undoOrdered entries) db with
        | mk ok db1 =>
          simp only [ha] at h ⊢
          cases ok
          · have := applyUndoEntries_changelog t (undoOrdered entries) db
            rw [ha] at this
            exact this
          · cases h
  · intro h
    cases hg : getLatestUndoneChangelogEntry db with
    | none => simp only [redo, hg] at h; cases h
    | some entries =>
      simp only [redo, hg] at h ⊢
      by_cases he : entries.isEmpty = true
      · rw [if_pos he] at h; cases h
      · rw [if_neg he] at h ⊢
        cases ha : applyRedoEntries u (redoOrdered entries) db with
        | mk ok db1 =>
          simp only [ha] at h ⊢
          cases ok
          · have := applyRedoEntries_changelog u (redoOrdered entries) db
            rw [ha] at this
            exact this
          · cases h

theorem failed_replay_flips_no_flags_witness :
    (undo 5 divergedDB).2.changelog = divergedDB.changelog ∧
    (redo 5 divergedRedoDB).2.changelog = divergedRedoDB.changelog :=
  ⟨(failed_replay_flips_no_flags 5 5 divergedDB).1 (by decide),
   (failed_replay_flips_no_flags 5 5 divergedRedoDB).2 (by decide)⟩

/-- C8 (counterexample): updating todo 2 with a dueDate payload that is
value-equal to the stored dueDate (`Date` denoting instant 99) still
writes one changelog entry: the source diffs with
`previousState[key] !== newValue`, and the supplied `Date` is a fresh
object, never reference-equal to the stored one. -/
theorem noop_update_dueDate_writes_entry :
    TodoPatch.matchesRow { dueDate := some (some 99) }
      ⟨2, "b", true, 1, 1, 1, some 99, 3, 3⟩ = true ∧
    getTodoById 2 threeTodoSectionDB = some ⟨2, "b", true, 1, 1, 1, some 99, 3, 3⟩ ∧
    (updateTodo 2 { dueDate := some (some 99) } 9 threeTodoSectionDB).2.changelog.length =
      threeTodoSectionDB.changelog.length + 1 := by decide

/-- C8 amended: calling `updateTodo` (and likewise `updateSection`) on an
existing row with a payload in which every supplied field equals the
row's current value writes zero changelog entries — provided the payload
does not supply a non-null `dueDate`: the primitive fields are compared
by value, but `dueDate` is a `Date` object compared with `!==`, so any
supplied non-null `dueDate` — even one denoting the stored instant —
counts as a change and writes an entry (see the counterexample).  With
that proviso the changelog is left exactly unchanged and a subsequent
`undo()` still targets the previous real change: the group selected by
`getLatestActiveChangelogEntry` is the same as before the no-op update. -/
theorem noop_update_writes_no_entries (db : DB) (idT idS t t2 : Nat)
    (pT : TodoPatch) (pS : SectionPatch) (rT : TodoItem) (rS : TodoSection)
    (hT : getTodoById idT db = some rT) (hmT : pT.matchesRow rT = true)
    (hdd : pT.dueDate = none ∨ pT.dueDate = some none)
    (hS : getSectionById idS db = some rS) (hmS : pS.matchesRow rS = true) :
    (updateTodo idT pT t db).2.changelog = db.changelog ∧
    getLatestActiveChangelogEntry (updateTodo idT pT t db).2 =
      getLatestActiveChangelogEntry db ∧
    (updateSection idS pS t2 db).2.changelog = db.changelog ∧
    getLatestActiveChangelogEntry (updateSection idS pS t2 db).2 =
      getLatestActiveChangelogEntry db := by
  have e1 : (updateTodo idT pT t db).2.changelog = db.changelog := by
    rw [updateTodo_eq pT t hT, if_pos (todoOldValues_isEmpty_of_matches hmT hdd)]
  have e2 : (updateSection idS pS t2 db).2.changelog = db.changelog := by
    rw [updateSection_eq pS t2 hS, if_pos (sectionOldValues_isEmpty_of_matches hmS)]
  exact ⟨e1, getLatestActive_congr e1, e2, getLatestActive_congr e2⟩

theorem noop_update_writes_no_entries_witness :
    (updateTodo 1 { text := some "a" } 9 threeTodoSectionDB).2.changelog =
      threeTodoSectionDB.changelog ∧
    (updateSection 1 { name := some "Work" } 10 threeTodoSectionDB).2.changelog =
      threeTodoSectionDB.changelog :=
  ⟨(noop_update_writes_no_entries threeTodoSectionDB 1 1 9 10 { text := some "a" }
      { name := some "Work" } ⟨1, "a", false, 0, 1, 0, none, 2, 2⟩ ⟨1, "Work", 0, 1, 1⟩
      (by decide) (by decide) (Or.inl rfl) (by decide) (by decide)).1,
   (noop_update_writes_no_entries threeTodoSectionDB 1 1 9 10 { text := some "a" }
      { name := some "Work" } ⟨1, "a", false, 0, 1, 0, none, 2, 2⟩ ⟨1, "Work", 0, 1, 1⟩
      (by decide) (by decide) (Or.inl rfl) (by decide) (by decide)).2.2.1⟩

/-- C5 (counterexample): on a store whose first child todo carries the
ISO-timestamp-shaped text "2024-01-01T00:00:00", the cascading delete
still writes its 4-entry batch, but the subsequent `undo()` throws:
replaying that child's delete entry runs the stored row through
`parseDates`, which converts the text to a `Date` that better-sqlite3
cannot bind — so the call escapes with an error (`none`), the todo is NOT
restored, and the lookup by its original id fails. -/
theorem cascade_delete_undo_throws_on_iso_text :
    (getTodosBySectionId 1 isoTextDB).length = 3 ∧
    getTodoById 1 isoTextDB =
      some ⟨1, "2024-01-01T00:00:00", false, 0, 1, 0, none, 2, 2⟩ ∧
    (deleteSection 1 none 5 isoTextDB).1 = true ∧
    ((deleteSection 1 none 5 isoTextDB).2.changelog.filter
        (fun e => e.batchId = some isoTextDB.nextBatchId)).length = 4 ∧
    (undo 6 (deleteSection 1 none 5 isoTextDB).2).1 = none ∧
    getTodoById 1 (undo 6 (deleteSection 1 none 5 isoTextDB).2).2 = none := by
  decide

/-- C5 amended: `deleteSection(id)` with the delete-children policy on a
Container owning 3 Items appends exactly 4 changelog entries sharing the
one freshly generated batch id: one delete entry per child Item first, in
ascending log-id order, then the delete entry for the Container last.
Provided no stored todo text and not the Container's name is shaped like
an ISO timestamp (otherwise the replay's `parseDates` turns it into a
`Date` whose insert binding throws — see the counterexample), a
subsequent `undo()` returns true and restores the sections and todos
tables exactly (original ids, original field values, original
timestamps), so a lookup by one of the original item ids succeeds
afterwards. -/
theorem cascade_delete_batch_and_undo (db : DB) (sid t tu : Nat) (r : TodoSection)
    (a b c : TodoItem) (hr : getSectionById sid db = some r)
    (hch : db.todos.filter (fun x => x.sectionId = sid) = [a, b, c])
    (hwf : StoreWF db) (hact : allActive db)
    (hisoT : ∀ x ∈ db.todos, isoDatePrefix x.text = false)
    (hisoS : isoDatePrefix r.name = false) :
    (deleteSection sid none t db).1 = true ∧
    (deleteSection sid none t db).2.changelog = db.changelog ++
      [⟨db.nextChangelogId, true, some db.nextBatchId, a.id, EntryData.todoDelete a, t⟩,
       ⟨db.nextChangelogId + 1, true, some db.nextBatchId, b.id, EntryData.todoDelete b, t⟩,
       ⟨db.nextChangelogId + 2, true, some db.nextBatchId, c.id, EntryData.todoDelete c, t⟩,
       ⟨db.nextChangelogId + 3, true, some db.nextBatchId, sid, EntryData.sectionDelete r, t⟩] ∧
    (undo tu (deleteSection sid none t db).2).1 = some true ∧
    (undo tu (deleteSection sid none t db).2).2.sections = db.sections ∧
    (undo tu (deleteSection sid none t db).2).2.todos = db.todos ∧
    getTodoById a.id (undo tu (deleteSection sid none t db).2).2 = some a := by
  have h1 := deleteSection_children_undo db sid t tu none r hr rfl hwf hact hisoT hisoS
  have h2 := deleteSection_children_eq db sid t none r hr rfl hact
  have hamem : a ∈ db.todos :=
    List.mem_of_mem_filter (by rw [hch]; exact List.mem_cons_self a [b, c])
  refine ⟨h1.1, ?_, h1.2.1, h1.2.2.1, h1.2.2.2.1, ?_⟩
  · rw [h2]
    show db.changelog ++ _ = _
    rw [hch]
    simp only [batchEntries, List.length_cons, List.length_nil]
    have e2 : db.nextChangelogId + 1 + 1 = db.nextChangelogId + 2 := by omega
    have e3 : db.nextChangelogId + (0 + 1 + 1 + 1) = db.nextChangelogId + 3 := by omega
    rw [e2, e3]
    rfl
  · rw [getTodoById, h1.2.2.2.1]
    exact find?_eq_of_sorted_mem TodoItem.id hwf.todoSorted hamem rfl

theorem cascade_delete_batch_and_undo_witness :
    (deleteSection 1 none 5 threeTodoSectionDB).1 = true ∧
    (undo 6 (deleteSection 1 none 5 threeTodoSectionDB).2).2.todos =
      threeTodoSectionDB.todos ∧
    getTodoById 1 (undo 6 (deleteSection 1 none 5 threeTodoSectionDB).2).2 =
      some ⟨1, "a", false, 0, 1, 0, none, 2, 2⟩ := by
  have h := cascade_delete_batch_and_undo threeTodoSectionDB 1 5 6
    ⟨1, "Work", 0, 1, 1⟩ ⟨1, "a", false, 0, 1, 0, none, 2, 2⟩
    ⟨2, "b", true, 1, 1, 1, some 99, 3, 3⟩ ⟨3, "c", false, -1, 1, 2, none, 4, 4⟩
    (by decide) (by decide)
    ⟨by decide, by decide, by decide, by decide, by decide, by decide, by decide⟩
    (by decide) (by decide) (by decide)
  exact ⟨h.1, h.2.2.2.2.1, h.2.2.2.2.2⟩

/-- C6 (counterexample): deleting section 1 (which owns exactly one child
todo) with `moveToSectionId = 2` writes only one changelog entry under the
generated batch id — the section delete — not the claimed child-count-plus
one (two) entries, and undoing the batch leaves the child still assigned
to section 2. -/
theorem reassign_delete_counterexample :
    ((deleteSection 1 (some 2) 5 twoSectionsDB).2.changelog.filter
        (fun e => e.batchId = some twoSectionsDB.nextBatchId)).length = 1 ∧
    (getTodosBySectionId 1 twoSectionsDB).length = 1 ∧
    ((undo 6 (deleteSection 1 (some 2) 5 twoSectionsDB).2).2.todos.map
        fun r => r.sectionId) = [2] := by decide

theorem touch_updatedAt_id (ids : List Nat) (tu : Nat) (x : TodoItem) :
    (if ids.contains x.id then { x with updatedAt := tu } else x).id = x.id := by
  split <;> rfl

theorem filter_contains_length (db : DB) (ids : List Nat) (hwf : StoreWF db)
    (hnd : ids.Nodup) (hall : ∀ i ∈ ids, ∃ r, getTodoById i db = some r) :
    (db.todos.filter fun r => ids.contains r.id).length = ids.length := by
  have hnd1 : ((db.todos.filter fun r => ids.contains r.id).map TodoItem.id).Nodup :=
    List.pairwise_map.2
      (sortedByKey_pairwise_ne (sortedByKey_filter TodoItem.id _ hwf.todoSorted))
  have hmap : ((db.todos.filter fun r => ids.contains r.id).map TodoItem.id).Perm ids := by
    rw [List.perm_ext_iff_of_nodup hnd1 hnd]
    intro a
    constructor
    · intro ha
      obtain ⟨r, hr, hrid⟩ := List.mem_map.1 ha
      have := (List.mem_filter.1 hr).2
      rw [hrid] at this
      simpa using this
    · intro ha
      obtain ⟨r, hrfind⟩ := hall a ha
      have hrid : r.id = a := by simpa using List.find?_some hrfind
      have hrmem : r ∈ db.todos := List.mem_of_find?_eq_some hrfind
      refine List.mem_map.2 ⟨r, List.mem_filter.2 ⟨hrmem, ?_⟩, hrid⟩
      rw [hrid]
      simpa using ha
  have hlen := hmap.length_eq
  simpa using hlen

/-- C9: `markTodosCompleted` on 5 existing, distinct todo ids logs exactly
5 update entries sharing the one freshly generated batch id, each payload
holding only the `completed` field as an old/new pair — the old value
being that todo's own previous `completed`; a subsequent `undo()` returns
true and restores each of the 5 todos to its own individual prior
completed value (every targeted row comes back equal to its old row except
for the rewritten `updatedAt`), not a uniform flip. -/
theorem bulk_mark_completed_logs_and_undo (db : DB) (i1 i2 i3 i4 i5 : Nat)
    (r1 r2 r3 r4 r5 : TodoItem) (c : Bool) (t tu : Nat)
    (hwf : StoreWF db) (hact : allActive db)
    (h1 : getTodoById i1 db = some r1) (h2 : getTodoById i2 db = some r2)
    (h3 : getTodoById i3 db = some r3) (h4 : getTodoById i4 db = some r4)
    (h5 : getTodoById i5 db = some r5)
    (hnd : [i1, i2, i3, i4, i5].Nodup) :
    (markTodosCompleted [i1, i2, i3, i4, i5] c t db).2.changelog = db.changelog ++
      batchEntries db.nextChangelogId db.nextBatchId t
        (fun todo => EntryData.todoUpdate { completed := some todo.completed }
          { completed := some c })
        (db.todos.filter fun r => [i1, i2, i3, i4, i5].contains r.id) ∧
    (db.todos.filter fun r => [i1, i2, i3, i4, i5].contains r.id).length = 5 ∧
    (undo tu (markTodosCompleted [i1, i2, i3, i4, i5] c t db).2).1 = some true ∧
    (undo tu (markTodosCompleted [i1, i2, i3, i4, i5] c t db).2).2.todos =
      (db.todos.map fun r =>
        if [i1, i2, i3, i4, i5].contains r.id then { r with updatedAt := tu } else r) ∧
    (∀ r ∈ db.todos, [i1, i2, i3, i4, i5].contains r.id = true →
      getTodoById r.id (undo tu (markTodosCompleted [i1, i2, i3, i4, i5] c t db).2).2 =
        some { r with updatedAt := tu }) ∧
    activeEntries
      (undo tu (markTodosCompleted [i1, i2, i3, i4, i5] c t db).2).2.changelog =
      db.changelog := by
  have hr1id : r1.id = i1 := by simpa using List.find?_some h1
  have hr1mem : r1 ∈ db.todos := List.mem_of_find?_eq_some h1
  have hne : (db.todos.filter fun r => [i1, i2, i3, i4, i5].contains r.id) ≠ [] := by
    intro hnil
    have hin : r1 ∈ db.todos.filter fun r => [i1, i2, i3, i4, i5].contains r.id :=
      List.mem_filter.2 ⟨hr1mem, by rw [hr1id]; simp⟩
    rw [hnil] at hin
    cases hin
  have hbulk := bulk_batch_undo db (fun k => [i1, i2, i3, i4, i5].contains k)
    (fun r => { r with completed := c, updatedAt := t })
    (fun r => { completed := some r.completed }) (fun _ => { completed := some c })
    t tu (markTodosCompleted [i1, i2, i3, i4, i5] c t db).2 hwf hact (fun r => rfl)
    (fun r => rfl) (fun r => rfl) hne (markTodosCompleted_snd [i1, i2, i3, i4, i5] c t db)
  have hlen : (db.todos.filter fun r => [i1, i2, i3, i4, i5].contains r.id).length = 5 := by
    have hall : ∀ i ∈ [i1, i2, i3, i4, i5], ∃ r, getTodoById i db = some r := by
      intro i hi
      simp only [List.mem_cons, List.not_mem_nil, or_false] at hi
      rcases hi with rfl | rfl | rfl | rfl | rfl
      exacts [⟨r1, h1⟩, ⟨r2, h2⟩, ⟨r3, h3⟩, ⟨r4, h4⟩, ⟨r5, h5⟩]
    simpa using filter_contains_length db [i1, i2, i3, i4, i5] hwf hnd hall
  refine ⟨by rw [markTodosCompleted_snd], hlen, hbulk.1, hbulk.2.2.1, ?_, hbulk.2.2.2⟩
  intro r hr hcont
  rw [getTodoById, hbulk.2.2.1,
    find?_map_of_key_preserved TodoItem.id r.id
      (fun x => if [i1, i2, i3, i4, i5].contains x.id then { x with updatedAt := tu }
        else x)
      (fun x => touch_updatedAt_id [i1, i2, i3, i4, i5] tu x)
      db.todos,
    find?_eq_of_sorted_mem TodoItem.id hwf.todoSorted hr rfl, Option.map_some']
  rw [if_pos hcont]

theorem bulk_mark_completed_logs_and_undo_witness :
    (undo 9 (markTodosCompleted [1, 2, 3, 4, 5] true 8 fiveTodosDB).2).1 = some true ∧
    (∀ r ∈ fiveTodosDB.todos, [1, 2, 3, 4, 5].contains r.id = true →
      getTodoById r.id (undo 9 (markTodosCompleted [1, 2, 3, 4, 5] true 8 fiveTodosDB).2).2 =
        some { r with updatedAt := 9 }) :=
  have h := bulk_mark_completed_logs_and_undo fiveTodosDB 1 2 3 4 5
    ⟨1, "a", false, 0, 1, 0, none, 2, 2⟩ ⟨2, "b", true, 0, 1, 1, none, 3, 3⟩
    ⟨3, "c", false, 0, 1, 2, none, 4, 4⟩ ⟨4, "d", true, 0, 1, 3, none, 5, 5⟩
    ⟨5, "e", false, 0, 1, 4, none, 6, 6⟩ true 8 9
    ⟨by decide, by decide, by decide, by decide, by decide, by decide, by decide⟩
    (by decide) (by decide) (by decide) (by decide) (by decide) (by decide) (by decide)
  ⟨h.2.2.1, h.2.2.2.2.1⟩

/-- C6 amended: `deleteSection(id, moveToSectionId)` with the reassign
policy writes exactly ONE changelog entry under the generated batch id —
the Container's delete entry — while every child Item is updated to the
target section without any changelog entry; consequently undoing the
batch recreates the Container (provided its name is not shaped like an
ISO timestamp, in which case `parseDates` would turn it into a `Date`
whose insert binding throws) but leaves every child Item assigned to the
reassign target. -/
theorem reassign_delete_logs_only_section (db : DB) (sid m t tu : Nat)
    (r : TodoSection) (hr : getSectionById sid db = some r) (hm : m ≠ 0)
    (hwf : StoreWF db) (hact : allActive db)
    (hisoS : isoDatePrefix r.name = false) :
    (deleteSection sid (some m) t db).1 = true ∧
    (deleteSection sid (some m) t db).2.changelog = db.changelog ++
      [⟨db.nextChangelogId, true, some db.nextBatchId, sid,
        EntryData.sectionDelete r, t⟩] ∧
    (deleteSection sid (some m) t db).2.todos = (db.todos.map fun x =>
      if x.sectionId = sid then { x with sectionId := m, updatedAt := t } else x) ∧
    (undo tu (deleteSection sid (some m) t db).2).1 = some true ∧
    (undo tu (deleteSection sid (some m) t db).2).2.sections = db.sections ∧
    (undo tu (deleteSection sid (some m) t db).2).2.todos = (db.todos.map fun x =>
      if x.sectionId = sid then { x with sectionId := m, updatedAt := t } else x) := by
  have he := deleteSection_reassign_eq db sid m t r hr hm hact
  have hu := deleteSection_reassign_undo db sid m t tu r hr hm hwf hact hisoS
  exact ⟨by rw [he], by rw [he], by rw [he], hu.1, hu.2.1, hu.2.2.1⟩

theorem rel_refl (db : DB) : Rel db db := ⟨rfl, rfl, rfl⟩

theorem rel_trans {a b c : DB} (h1 : Rel a b) (h2 : Rel b c) : Rel a c :=
  ⟨h1.1.trans h2.1, h1.2.1.trans h2.2.1, h1.2.2.trans h2.2.2⟩

theorem applyUndoEntry_rel (e : ChangelogEntry) (t1 t2 : Nat) {db1 db2 : DB}
    (h : Rel db1 db2) : ORel (applyUndoEntry e t1 db1) (applyUndoEntry e t2 db2) := by
  obtain ⟨hs, ht, hc⟩ := h
  cases hd : e.data with
  | todoInsert row =>
    simp only [applyUndoEntry, hd, ORel]
    exact ⟨hs, todosView_filter_ne _ _ _ ht, hc⟩
  | sectionInsert row =>
    simp only [applyUndoEntry, hd, ORel]
    exact ⟨sectionsView_filter_ne _ _ _ hs, ht, hc⟩
  | todoUpdate old new =>
    simp only [applyUndoEntry, hd]
    cases hiso : isoOpt old.text
    · simp only [Bool.false_eq_true, if_false, ORel]
      exact ⟨hs, todosView_update_congr _ _ _ _ _ _ ht, hc⟩
    · rw [if_pos rfl, if_pos rfl]
      trivial
  | sectionUpdate old new =>
    simp only [applyUndoEntry, hd]
    cases hiso : isoOpt old.name
    · simp only [Bool.false_eq_true, if_false, ORel]
      exact ⟨sectionsView_update_congr _ _ _ _ _ _ hs, ht, hc⟩
    · rw [if_pos rfl, if_pos rfl]
      trivial
  | todoDelete row =>
    simp only [applyUndoEntry, hd]
    cases hiso : isoDatePrefix row.text
    · simp only [Bool.false_eq_true, if_false, insertTodoRow]
      have hany : (db1.todos.any fun x => x.id = ({ row with id := e.entityId } : TodoItem).id)
          = (db2.todos.any fun x => x.id = ({ row with id := e.entityId } : TodoItem).id) :=
        any_id_congr_todo _ _ _ ht
      rw [hany]
      cases hA : (db2.todos.any fun x => x.id = ({ row with id := e.entityId } : TodoItem).id)
      · simp only [Bool.false_eq_true, if_false, Option.map_some]
        exact ⟨hs, todosView_insertById_congr _ _ _ ht, hc⟩
      · simp only [if_true, Option.map_none]
        trivial
    · rw [if_pos rfl, if_pos rfl]
      trivial
  | sectionDelete row =>
    simp only [applyUndoEntry, hd]
    cases hiso : isoDatePrefix row.name
    · simp only [Bool.false_eq_true, if_false, insertSectionRow]
      have hany : (db1.sections.any fun x =>
            x.id = ({ row with id := e.entityId } : TodoSection).id)
          = (db2.sections.any fun x =>
            x.id = ({ row with id := e.entityId } : TodoSection).id) :=
        any_id_congr_section _ _ _ hs
      rw [hany]
      cases hA : (db2.sections.any fun x =>
          x.id = ({ row with id := e.entityId } : TodoSection).id)
      · simp only [Bool.false_eq_true, if_false, Option.map_some]
        exact ⟨sectionsView_insertById_congr _ _ _ hs, ht, hc⟩
      · simp only [if_true, Option.map_none]
        trivial
    · rw [if_pos rfl, if_pos rfl]
      trivial

theorem applyUndoEntries_rel (es : List ChangelogEntry) (t1 t2 : Nat) {db1 db2 : DB}
    (h : Rel db1 db2) :
    (applyUndoEntries t1 es db1).1 = (applyUndoEntries t2 es db2).1 ∧
    Rel (applyUndoEntries t1 es db1).2 (applyUndoEntries t2 es db2).2 := by
  induction es generalizing db1 db2 with
  | nil => exact ⟨rfl, h⟩
  | cons e es ih =>
    have hstep := applyUndoEntry_rel e t1 t2 h
    cases h1 : applyUndoEntry e t1 db1 with
    | none =>
      cases h2 : applyUndoEntry e t2 db2 with
      | none =>
        rw [applyUndoEntries, h1, applyUndoEntries, h2]
        exact ⟨rfl, h⟩
      | some d2 =>
        rw [h1, h2] at hstep
        exact absurd hstep (by simp [ORel])
    | some d1 =>
      cases h2 : applyUndoEntry e t2 db2 with
      | none =>
        rw [h1, h2] at hstep
        exact absurd hstep (by simp [ORel])
      | some d2 =>
        rw [h1, h2] at hstep
        rw [applyUndoEntries, h1, applyUndoEntries, h2]
        exact ih hstep

theorem setFlip_rel (i : Nat) {d1 d2 : DB} (h : Rel d1 d2) :
    Rel (setChangelogEntryActiveState i false d1)
      (setChangelogEntryActiveState i false d2) := by
  refine ⟨h.1, h.2.1, ?_⟩
  simp only [setChangelogEntryActiveState]
  rw [activeEntries_flip_false, activeEntries_flip_false, h.2.2]

theorem flipFold_rel (G : List ChangelogEntry) {d1 d2 : DB} (h : Rel d1 d2) :
    Rel (G.foldl (fun d e => setChangelogEntryActiveState e.id false d) d1)
      (G.foldl (fun d e => setChangelogEntryActiveState e.id false d) d2) := by
  induction G generalizing d1 d2 with
  | nil => exact h
  | cons g G ih => exact ih (setFlip_rel g.id h)

theorem getLatestActive_congr_active {db1 db2 : DB}
    (h : activeEntries db1.changelog = activeEntries db2.changelog) :
    getLatestActiveChangelogEntry db1 = getLatestActiveChangelogEntry db2 := by
  simp only [getLatestActiveChangelogEntry, h]

theorem undo_rel (t1 t2 : Nat) {db1 db2 : DB} (h : Rel db1 db2) :
    (undo t1 db1).1 = (undo t2 db2).1 ∧ Rel (undo t1 db1).2 (undo t2 db2).2 := by
  have hsel := getLatestActive_congr_active h.2.2
  cases hg : getLatestActiveChangelogEntry db2 with
  | none =>
    rw [hg] at hsel
    simp only [undo, hsel, hg]
    exact ⟨trivial, h⟩
  | some entries =>
    rw [hg] at hsel
    simp only [undo, hsel, hg]
    cases hne : entries.isEmpty
    · simp only [Bool.false_eq_true, if_false]
      have hae := applyUndoEntries_rel (undoOrdered entries) t1 t2 h
      cases hA1 : applyUndoEntries t1 (undoOrdered entries) db1 with
      | mk b1 mid1 =>
        cases hA2 : applyUndoEntries t2 (undoOrdered entries) db2 with
        | mk b2 mid2 =>
          rw [hA1, hA2] at hae
          obtain ⟨hb, hmid⟩ := hae
          have hb2 : b1 = b2 := hb
          have hmid2 : Rel mid1 mid2 := hmid
          subst hb2
          cases b1
          · exact ⟨rfl, hmid2⟩
          · exact ⟨rfl, flipFold_rel entries hmid2⟩
    · rw [if_pos rfl, if_pos rfl]
      exact ⟨rfl, h⟩

theorem undoTimes_rel (uts : List Nat) {db1 db2 : DB} (h : Rel db1 db2) :
    ORel (undoTimes uts db1) (undoTimes uts db2) := by
  induction uts generalizing db1 db2 with
  | nil => exact h
  | cons u uts ih =>
    have hu := undo_rel u u h
    cases hv1 : (undo u db1).1 with
    | none =>
      have hv2 : (undo u db2).1 = none := hu.1.symm.trans hv1
      have hE1 : undo u db1 = (none, (undo u db1).2) := by rw [← hv1]
      have hE2 : undo u db2 = (none, (undo u db2).2) := by rw [← hv2]
      rw [undoTimes, hE1, undoTimes, hE2]
      trivial
    | some b =>
      have hv2 : (undo u db2).1 = some b := hu.1.symm.trans hv1
      have hE1 : undo u db1 = (some b, (undo u db1).2) := by rw [← hv1]
      have hE2 : undo u db2 = (some b, (undo u db2).2) := by rw [← hv2]
      rw [undoTimes, hE1, undoTimes, hE2]
      exact ih hu.2

theorem orel_some_right {o : Option DB} {b : DB} (h : ORel o (some b)) :
    ∃ a, o = some a ∧ Rel a b := by
  cases o with
  | none => exact absurd h (by simp [ORel])
  | some a => exact ⟨a, rfl, h⟩

theorem undoTimes_of_empty_changelog (uts : List Nat) (db : DB)
    (h : db.changelog = []) : undoTimes uts db = some db := by
  induction uts with
  | nil => rfl
  | cons u uts ih =>
    have hsel : getLatestActiveChangelogEntry db = none := by
      simp [getLatestActiveChangelogEntry, activeEntries, h]
    have hE : undo u db = (some false, db) := by rw [undo, hsel]
    rw [undoTimes, hE]
    exact ih

theorem reassign_delete_logs_only_section_witness :
    (deleteSection 1 (some 2) 5 twoSectionsDB).2.changelog = twoSectionsDB.changelog ++
      [⟨4, true, some 1, 1, EntryData.sectionDelete ⟨1, "A", 0, 1, 1⟩, 5⟩] ∧
    (undo 6 (deleteSection 1 (some 2) 5 twoSectionsDB).2).2.sections =
      twoSectionsDB.sections :=
  have h := reassign_delete_logs_only_section twoSectionsDB 1 2 5 6 ⟨1, "A", 0, 1, 1⟩
    (by decide) (by decide)
    ⟨by decide, by decide, by decide, by decide, by decide, by decide, by decide⟩
    (by decide) (by decide)
  ⟨h.2.1, h.2.2.2.2.1⟩

theorem undoOrdered_singleton (e : ChangelogEntry) : undoOrdered [e] = [e] := by
  cases htn : e.data.tableName <;> simp [undoOrdered, List.filter_cons, htn]

theorem undo_single_nonbatched (db1 db2 : DB) (CL : List ChangelogEntry)
    (e : ChangelogEntry) (u : Nat)
    (hcl1 : db1.changelog = CL ++ [e])
    (hCLact : ∀ x ∈ CL, x.isActive = true)
    (hCLid : ∀ x ∈ CL, x.id ≠ e.id)
    (heact : e.isActive = true)
    (heb : e.batchId = none)
    (happ : applyUndoEntry e u db1 = some db2)
    (hch2 : db2.changelog = db1.changelog) :
    (undo u db1).1 = some true ∧
    (undo u db1).2.sections = db2.sections ∧
    (undo u db1).2.todos = db2.todos ∧
    activeEntries (undo u db1).2.changelog = CL := by
  have hactive : activeEntries db1.changelog = CL ++ [e] := by
    rw [hcl1, activeEntries_append, activeEntries_eq_self hCLact,
      activeEntries_eq_self fun x hx => by
        cases List.mem_singleton.1 hx
        exact heact]
  have hsel := getLatestActive_of_single db1 CL e hactive heb
  have happs : applyUndoEntries u (undoOrdered [e]) db1 = (true, db2) := by
    rw [undoOrdered_singleton, applyUndoEntries, happ]
    rfl
  simp only [undo, hsel, List.isEmpty_cons, Bool.false_eq_true, if_false, happs]
  refine ⟨trivial, rfl, rfl, ?_⟩
  exact flipAll_false_restores CL [e] db2 (by rw [hch2, hcl1]) hCLact
    fun x hx g hg => by
      cases List.mem_singleton.1 hg
      exact hCLid x hx

theorem applyTodoPatch_diff_roundtrip (p : TodoPatch) (r : TodoItem) (t u : Nat) :
    (applyTodoPatch (todoOldValues p r) u (applyTodoPatch p t r)).clearUpdatedAt =
      r.clearUpdatedAt := by
  simp [applyTodoPatch, todoOldValues, TodoItem.clearUpdatedAt, diffOld_getD,
    diffOldByRef_getD]

theorem applySectionPatch_diff_roundtrip (p : SectionPatch) (r : TodoSection)
    (t u : Nat) :
    (applySectionPatch (sectionOldValues p r) u
        (applySectionPatch p t r)).clearUpdatedAt = r.clearUpdatedAt := by
  simp [applySectionPatch, sectionOldValues, TodoSection.clearUpdatedAt, diffOld_getD]

theorem applyTodoPatch_empty_clear (p : TodoPatch) (r : TodoItem) (t : Nat)
    (he : (todoOldValues p r).isEmpty = true) :
    (applyTodoPatch p t r).clearUpdatedAt = r.clearUpdatedAt := by
  simp only [TodoPatch.isEmpty, todoOldValues, Bool.and_eq_true,
    Option.isNone_iff_eq_none, diffOld_eq_none_iff] at he
  obtain ⟨⟨⟨⟨⟨h1, h2⟩, h3⟩, h4⟩, h5⟩, h6⟩ := he
  simp [applyTodoPatch, TodoItem.clearUpdatedAt, h1, h2, h3, h4, h5,
    diffOldByRef_none_getD _ _ h6]

theorem applySectionPatch_empty_clear (p : SectionPatch) (r : TodoSection) (t : Nat)
    (he : (sectionOldValues p r).isEmpty = true) :
    (applySectionPatch p t r).clearUpdatedAt = r.clearUpdatedAt := by
  simp only [SectionPatch.isEmpty, sectionOldValues, Bool.and_eq_true,
    Option.isNone_iff_eq_none, diffOld_eq_none_iff] at he
  obtain ⟨h1, h2⟩ := he
  simp [applySectionPatch, TodoSection.clearUpdatedAt, h1, h2]

theorem updateTodosById_comp (i : Nat) (p q : TodoPatch) (t u : Nat)
    (l : List TodoItem) :
    updateTodosById i q u (updateTodosById i p t l) =
      l.map fun x =>
        if x.id = i then applyTodoPatch q u (applyTodoPatch p t x) else x := by
  rw [updateTodosById, updateTodosById, List.map_map]
  refine List.map_congr_left fun x hx => ?_
  simp only [Function.comp_apply]
  by_cases hi : x.id = i
  · rw [if_pos hi, if_pos (show (applyTodoPatch p t x).id = i from hi), if_pos hi]
  · rw [if_neg hi, if_neg hi, if_neg hi]

theorem updateSectionsById_comp (i : Nat) (p q : SectionPatch) (t u : Nat)
    (l : List TodoSection) :
    updateSectionsById i q u (updateSectionsById i p t l) =
      l.map fun x =>
        if x.id = i then applySectionPatch q u (applySectionPatch p t x) else x := by
  rw [updateSectionsById, updateSectionsById, List.map_map]
  refine List.map_congr_left fun x hx => ?_
  simp only [Function.comp_apply]
  by_cases hi : x.id = i
  · rw [if_pos hi, if_pos (show (applySectionPatch p t x).id = i from hi), if_pos hi]
  · rw [if_neg hi, if_neg hi, if_neg hi]

theorem todosView_touch (cond : Nat → Bool) (tu : Nat) (l : List TodoItem) :
    todosView (l.map fun r => if cond r.id then { r with updatedAt := tu } else r) =
      todosView l := by
  rw [todosView, todosView, List.map_map]
  refine List.map_congr_left fun r hr => ?_
  simp only [Function.comp_apply]
  by_cases hc : cond r.id
  · rw [if_pos hc]
    rfl
  · rw [if_neg hc]

theorem sortedByKey_append {α : Type} {key : α → Nat} {l1 l2 : List α}
    (h1 : SortedByKey key l1) (h2 : SortedByKey key l2)
    (h12 : ∀ a ∈ l1, ∀ b ∈ l2, key a < key b) : SortedByKey key (l1 ++ l2) :=
  List.pairwise_append.2 ⟨h1, h2, h12⟩

theorem batchEntries_id_lt (base b t : Nat) (mk : TodoItem → EntryData)
    (P : List TodoItem) :
    ∀ e ∈ batchEntries base b t mk P, e.id < base + P.length := by
  induction P generalizing base with
  | nil => intro e he; cases he
  | cons r P2 ih =>
    intro e he
    rcases List.mem_cons.1 he with rfl | he2
    · simp
    · have := ih (base + 1) e he2
      simp only [List.length_cons]
      omega

theorem addChangelogEntry_nonbatched (eid : Nat) (dd : EntryData) (t : Nat) (db : DB)
    (hact : allActive db) :
    addChangelogEntry eid dd none t db =
      { db with
        changelog := db.changelog ++
          [{ id := db.nextChangelogId, isActive := true, batchId := none,
             entityId := eid, data := dd, timestamp := t }]
        nextChangelogId := db.nextChangelogId + 1 } := by
  simp only [addChangelogEntry, Option.isNone_none, if_true]
  rw [activeEntries_eq_self hact]

theorem createTodo_undo (db : DB) (d : NewTodoItem) (t u : Nat)
    (hwf : StoreWF db) (hact : allActive db) :
    (undo u (createTodo d t db).2).1 = some true ∧
    (undo u (createTodo d t db).2).2.sections = db.sections ∧
    (undo u (createTodo d t db).2).2.todos = db.todos ∧
    activeEntries (undo u (createTodo d t db).2).2.changelog = db.changelog := by
  have hins : insertById TodoItem.id
      ⟨db.nextTodoId, d.text, d.completed, d.priority, d.sectionId, d.order,
        d.dueDate, t, t⟩ db.todos =
      db.todos ++ [⟨db.nextTodoId, d.text, d.completed, d.priority, d.sectionId,
        d.order, d.dueDate, t, t⟩] :=
    insertById_append _ _ _ fun x hx => hwf.todoLt x hx
  have hsnd : (createTodo d t db).2 =
      { db with
        todos := db.todos ++ [⟨db.nextTodoId, d.text, d.completed, d.priority,
          d.sectionId, d.order, d.dueDate, t, t⟩]
        nextTodoId := db.nextTodoId + 1
        changelog := db.changelog ++
          [⟨db.nextChangelogId, true, none, db.nextTodoId,
            EntryData.todoInsert ⟨db.nextTodoId, d.text, d.completed, d.priority,
              d.sectionId, d.order, d.dueDate, t, t⟩, t⟩]
        nextChangelogId := db.nextChangelogId + 1 } := by
    show addChangelogEntry _ _ none t _ = _
    rw [addChangelogEntry_nonbatched _ _ t
      { db with
        todos := insertById TodoItem.id ⟨db.nextTodoId, d.text, d.completed,
          d.priority, d.sectionId, d.order, d.dueDate, t, t⟩ db.todos
        nextTodoId := db.nextTodoId + 1 }
      hact, hins]
  have hfilter : (db.todos ++ [(⟨db.nextTodoId, d.text, d.completed, d.priority,
      d.sectionId, d.order, d.dueDate, t, t⟩ : TodoItem)]).filter
        (fun r => r.id ≠ db.nextTodoId) = db.todos := by
    rw [List.filter_append]
    have h1 : db.todos.filter (fun r => r.id ≠ db.nextTodoId) = db.todos :=
      List.filter_eq_self.2 fun x hx => by
        simpa using Nat.ne_of_lt (hwf.todoLt x hx)
    have h2 : [(⟨db.nextTodoId, d.text, d.completed, d.priority, d.sectionId,
        d.order, d.dueDate, t, t⟩ : TodoItem)].filter
          (fun r => r.id ≠ db.nextTodoId) = [] := by
      simp
    rw [h1, h2, List.append_nil]
  rw [hsnd]
  refine undo_single_nonbatched _
    { db with
      todos := db.todos
      nextTodoId := db.nextTodoId + 1
      changelog := db.changelog ++
        [⟨db.nextChangelogId, true, none, db.nextTodoId,
          EntryData.todoInsert ⟨db.nextTodoId, d.text, d.completed, d.priority,
            d.sectionId, d.order, d.dueDate, t, t⟩, t⟩]
      nextChangelogId := db.nextChangelogId + 1 }
    db.changelog
    ⟨db.nextChangelogId, true, none, db.nextTodoId,
      EntryData.todoInsert ⟨db.nextTodoId, d.text, d.completed, d.priority,
        d.sectionId, d.order, d.dueDate, t, t⟩, t⟩
    u rfl hact (fun x hx => Nat.ne_of_lt (hwf.clLt x hx)) rfl rfl ?_ rfl
  show some _ = some _
  rw [hfilter]

theorem createSection_undo (db : DB) (d : NewTodoSection) (t u : Nat)
    (hwf : StoreWF db) (hact : allActive db) :
    (undo u (createSection d t db).2).1 = some true ∧
    (undo u (createSection d t db).2).2.sections = db.sections ∧
    (undo u (createSection d t db).2).2.todos = db.todos ∧
    activeEntries (undo u (createSection d t db).2).2.changelog = db.changelog := by
  have hins : insertById TodoSection.id
      ⟨db.nextSectionId, d.name, d.order, t, t⟩ db.sections =
      db.sections ++ [⟨db.nextSectionId, d.name, d.order, t, t⟩] :=
    insertById_append _ _ _ fun x hx => hwf.secLt x hx
  have hsnd : (createSection d t db).2 =
      { db with
        sections := db.sections ++ [⟨db.nextSectionId, d.name, d.order, t, t⟩]
        nextSectionId := db.nextSectionId + 1
        changelog := db.changelog ++
          [⟨db.nextChangelogId, true, none, db.nextSectionId,
            EntryData.sectionInsert ⟨db.nextSectionId, d.name, d.order, t, t⟩, t⟩]
        nextChangelogId := db.nextChangelogId + 1 } := by
    show addChangelogEntry _ _ none t _ = _
    rw [addChangelogEntry_nonbatched _ _ t
      { db with
        sections := insertById TodoSection.id
          ⟨db.nextSectionId, d.name, d.order, t, t⟩ db.sections
        nextSectionId := db.nextSectionId + 1 }
      hact, hins]
  have hfilter : (db.sections ++
      [(⟨db.nextSectionId, d.name, d.order, t, t⟩ : TodoSection)]).filter
        (fun r => r.id ≠ db.nextSectionId) = db.sections := by
    rw [List.filter_append]
    have h1 : db.sections.filter (fun r => r.id ≠ db.nextSectionId) = db.sections :=
      List.filter_eq_self.2 fun x hx => by
        simpa using Nat.ne_of_lt (hwf.secLt x hx)
    have h2 : [(⟨db.nextSectionId, d.name, d.order, t, t⟩ : TodoSection)].filter
        (fun r => r.id ≠ db.nextSectionId) = [] := by
      simp
    rw [h1, h2, List.append_nil]
  rw [hsnd]
  refine undo_single_nonbatched _
    { db with
      sections := db.sections
      nextSectionId := db.nextSectionId + 1
      changelog := db.changelog ++
        [⟨db.nextChangelogId, true, none, db.nextSectionId,
          EntryData.sectionInsert ⟨db.nextSectionId, d.name, d.order, t, t⟩, t⟩]
      nextChangelogId := db.nextChangelogId + 1 }
    db.changelog
    ⟨db.nextChangelogId, true, none, db.nextSectionId,
      EntryData.sectionInsert ⟨db.nextSectionId, d.name, d.order, t, t⟩, t⟩
    u rfl hact (fun x hx => Nat.ne_of_lt (hwf.clLt x hx)) rfl rfl ?_ rfl
  show some _ = some _
  rw [hfilter]

theorem deleteTodo_undo (db : DB) (id t u : Nat) (r : TodoItem)
    (hr : getTodoById id db = some r) (hwf : StoreWF db) (hact : allActive db)
    (hiso : isoDatePrefix r.text = false) :
    (deleteTodo id t db).1 = true ∧
    (undo u (deleteTodo id t db).2).1 = some true ∧
    (undo u (deleteTodo id t db).2).2.sections = db.sections ∧
    (undo u (deleteTodo id t db).2).2.todos = db.todos ∧
    activeEntries (undo u (deleteTodo id t db).2).2.changelog = db.changelog := by
  have hrid : r.id = id := by simpa using List.find?_some hr
  have hmem : r ∈ db.todos := List.mem_of_find?_eq_some hr
  have hchanges : 0 < (db.todos.filter fun x => x.id = id).length :=
    List.length_pos.2 (List.ne_nil_of_mem
      (List.mem_filter.2 ⟨hmem, by simp [hrid]⟩))
  have heq : deleteTodo id t db =
      (true, addChangelogEntry id (EntryData.todoDelete r) none t
        { db with todos := db.todos.filter fun x => x.id ≠ id }) := by
    simp only [deleteTodo, hr]
    rw [if_pos hchanges]
  have hsnd : (deleteTodo id t db).2 =
      { db with
        todos := db.todos.filter fun x => x.id ≠ id
        changelog := db.changelog ++
          [⟨db.nextChangelogId, true, none, id, EntryData.todoDelete r, t⟩]
        nextChangelogId := db.nextChangelogId + 1 } := by
    rw [heq]
    exact addChangelogEntry_nonbatched _ _ t
      { db with todos := db.todos.filter fun x => x.id ≠ id } hact
  have hrow : ({ r with id := id } : TodoItem) = r := by
    rw [← hrid]
  have habsent : ∀ x ∈ db.todos.filter fun x => x.id ≠ id, x.id ≠ r.id := by
    intro x hx
    have h2 := (List.mem_filter.1 hx).2
    rw [hrid]
    simpa using h2
  have h1 : insertTodoRow ({ r with id := id } : TodoItem)
      (db.todos.filter fun x => x.id ≠ id) = some db.todos := by
    rw [hrow, insertTodoRow_of_absent r _ habsent,
      restore_at TodoItem.id hwf.todoSorted hmem hrid]
  refine ⟨by rw [heq], ?_⟩
  rw [hsnd]
  refine undo_single_nonbatched _
    { db with
      todos := db.todos
      nextTodoId := max db.nextTodoId (id + 1)
      changelog := db.changelog ++
        [⟨db.nextChangelogId, true, none, id, EntryData.todoDelete r, t⟩]
      nextChangelogId := db.nextChangelogId + 1 }
    db.changelog
    ⟨db.nextChangelogId, true, none, id, EntryData.todoDelete r, t⟩
    u rfl hact (fun x hx => Nat.ne_of_lt (hwf.clLt x hx)) rfl rfl ?_ rfl
  simp only [applyUndoEntry, hiso, Bool.false_eq_true, if_false]
  rw [h1]
  rfl

theorem updateTodo_noop_rel (db : DB) (id : Nat) (p : TodoPatch) (t : Nat)
    (r : TodoItem) (hr : getTodoById id db = some r) (hwf : StoreWF db)
    (hemp : (todoOldValues p r).isEmpty = true) :
    Rel (updateTodo id p t db).2 db := by
  have hrid : r.id = id := by simpa using List.find?_some hr
  have hmem : r ∈ db.todos := List.mem_of_find?_eq_some hr
  rw [updateTodo_eq p t hr, if_pos hemp]
  refine ⟨rfl, ?_, rfl⟩
  show todosView (updateTodosById id p t db.todos) = todosView db.todos
  rw [updateTodosById, todosView, todosView, List.map_map]
  refine List.map_congr_left fun x hx => ?_
  simp only [Function.comp_apply]
  by_cases hi : x.id = id
  · rw [if_pos hi]
    have hxr : x = r := key_unique hwf.todoSorted hx hmem (hi.trans hrid.symm)
    rw [hxr]
    exact applyTodoPatch_empty_clear p r t hemp
  · rw [if_neg hi]

theorem updateSection_noop_rel (db : DB) (id : Nat) (p : SectionPatch) (t : Nat)
    (r : TodoSection) (hr : getSectionById id db = some r) (hwf : StoreWF db)
    (hemp : (sectionOldValues p r).isEmpty = true) :
    Rel (updateSection id p t db).2 db := by
  have hrid : r.id = id := by simpa using List.find?_some hr
  have hmem : r ∈ db.sections := List.mem_of_find?_eq_some hr
  rw [updateSection_eq p t hr, if_pos hemp]
  refine ⟨?_, rfl, rfl⟩
  show sectionsView (updateSectionsById id p t db.sections) = sectionsView db.sections
  rw [updateSectionsById, sectionsView, sectionsView, List.map_map]
  refine List.map_congr_left fun x hx => ?_
  simp only [Function.comp_apply]
  by_cases hi : x.id = id
  · rw [if_pos hi]
    have hxr : x = r := key_unique hwf.secSorted hx hmem (hi.trans hrid.symm)
    rw [hxr]
    exact applySectionPatch_empty_clear p r t hemp
  · rw [if_neg hi]

theorem updateTodo_diff_undo (db : DB) (id : Nat) (p : TodoPatch) (t u : Nat)
    (r : TodoItem) (hr : getTodoById id db = some r) (hwf : StoreWF db)
    (hact : allActive db) (hemp : (todoOldValues p r).isEmpty = false)
    (hisoT : isoDatePrefix r.text = false) :
    (undo u (updateTodo id p t db).2).1 = some true ∧
    (undo u (updateTodo id p t db).2).2.sections = db.sections ∧
    todosView (undo u (updateTodo id p t db).2).2.todos = todosView db.todos ∧
    activeEntries (undo u (updateTodo id p t db).2).2.changelog = db.changelog := by
  have hrid : r.id = id := by simpa using List.find?_some hr
  have hmem : r ∈ db.todos := List.mem_of_find?_eq_some hr
  have hne : ¬ (todoOldValues p r).isEmpty = true := by simp [hemp]
  have hsnd : (updateTodo id p t db).2 =
      { db with
        todos := updateTodosById id p t db.todos
        changelog := db.changelog ++
          [⟨db.nextChangelogId, true, none, id,
            EntryData.todoUpdate (todoOldValues p r) (todoNewValues p r), t⟩]
        nextChangelogId := db.nextChangelogId + 1 } := by
    rw [updateTodo_eq p t hr, if_neg hne]
    exact addChangelogEntry_nonbatched _ _ t
      { db with todos := updateTodosById id p t db.todos } hact
  rw [hsnd]
  obtain ⟨ha, hb, hc, hd⟩ := undo_single_nonbatched
    { db with
      todos := updateTodosById id p t db.todos
      changelog := db.changelog ++
        [⟨db.nextChangelogId, true, none, id,
          EntryData.todoUpdate (todoOldValues p r) (todoNewValues p r), t⟩]
      nextChangelogId := db.nextChangelogId + 1 }
    { db with
      todos := updateTodosById id (todoOldValues p r) u
        (updateTodosById id p t db.todos)
      changelog := db.changelog ++
        [⟨db.nextChangelogId, true, none, id,
          EntryData.todoUpdate (todoOldValues p r) (todoNewValues p r), t⟩]
      nextChangelogId := db.nextChangelogId + 1 }
    db.changelog
    ⟨db.nextChangelogId, true, none, id,
      EntryData.todoUpdate (todoOldValues p r) (todoNewValues p r), t⟩
    u rfl hact (fun x hx => Nat.ne_of_lt (hwf.clLt x hx)) rfl rfl
    (by
      have hg2 : isoOpt (todoOldValues p r).text = false := by
        show isoOpt (diffOld p.text r.text) = false
        exact isoOpt_diffOld p.text r.text hisoT
      simp only [applyUndoEntry, hg2, Bool.false_eq_true, if_false]) rfl
  refine ⟨ha, hb, ?_, hd⟩
  rw [hc]
  show todosView (updateTodosById id (todoOldValues p r) u
    (updateTodosById id p t db.todos)) = todosView db.todos
  rw [updateTodosById_comp, todosView, todosView, List.map_map]
  refine List.map_congr_left fun x hx => ?_
  simp only [Function.comp_apply]
  by_cases hi : x.id = id
  · rw [if_pos hi]
    have hxr : x = r := key_unique hwf.todoSorted hx hmem (hi.trans hrid.symm)
    rw [hxr]
    exact applyTodoPatch_diff_roundtrip p r t u
  · rw [if_neg hi]

theorem updateSection_diff_undo (db : DB) (id : Nat) (p : SectionPatch) (t u : Nat)
    (r : TodoSection) (hr : getSectionById id db = some r) (hwf : StoreWF db)
    (hact : allActive db) (hemp : (sectionOldValues p r).isEmpty = false)
    (hisoS : isoDatePrefix r.name = false) :
    (undo u (updateSection id p t db).2).1 = some true ∧
    sectionsView (undo u (updateSection id p t db).2).2.sections =
      sectionsView db.sections ∧
    (undo u (updateSection id p t db).2).2.todos = db.todos ∧
    activeEntries (undo u (updateSection id p t db).2).2.changelog = db.changelog := by
  have hrid : r.id = id := by simpa using List.find?_some hr
  have hmem : r ∈ db.sections := List.mem_of_find?_eq_some hr
  have hne : ¬ (sectionOldValues p r).isEmpty = true := by simp [hemp]
  have hsnd : (updateSection id p t db).2 =
      { db with
        sections := updateSectionsById id p t db.sections
        changelog := db.changelog ++
          [⟨db.nextChangelogId, true, none, id,
            EntryData.sectionUpdate (sectionOldValues p r) (sectionNewValues p r), t⟩]
        nextChangelogId := db.nextChangelogId + 1 } := by
    rw [updateSection_eq p t hr, if_neg hne]
    exact addChangelogEntry_nonbatched _ _ t
      { db with sections := updateSectionsById id p t db.sections } hact
  rw [hsnd]
  obtain ⟨ha, hb, hc, hd⟩ := undo_single_nonbatched
    { db with
      sections := updateSectionsById id p t db.sections
      changelog := db.changelog ++
        [⟨db.nextChangelogId, true, none, id,
          EntryData.sectionUpdate (sectionOldValues p r) (sectionNewValues p r), t⟩]
      nextChangelogId := db.nextChangelogId + 1 }
    { db with
      sections := updateSectionsById id (sectionOldValues p r) u
        (updateSectionsById id p t db.sections)
      changelog := db.changelog ++
        [⟨db.nextChangelogId, true, none, id,
          EntryData.sectionUpdate (sectionOldValues p r) (sectionNewValues p r), t⟩]
      nextChangelogId := db.nextChangelogId + 1 }
    db.changelog
    ⟨db.nextChangelogId, true, none, id,
      EntryData.sectionUpdate (sectionOldValues p r) (sectionNewValues p r), t⟩
    u rfl hact (fun x hx => Nat.ne_of_lt (hwf.clLt x hx)) rfl rfl
    (by
      have hg2 : isoOpt (sectionOldValues p r).name = false := by
        show isoOpt (diffOld p.name r.name) = false
        exact isoOpt_diffOld p.name r.name hisoS
      simp only [applyUndoEntry, hg2, Bool.false_eq_true, if_false]) rfl
  refine ⟨ha, ?_, hc, hd⟩
  rw [hb]
  show sectionsView (updateSectionsById id (sectionOldValues p r) u
    (updateSectionsById id p t db.sections)) = sectionsView db.sections
  rw [updateSectionsById_comp, sectionsView, sectionsView, List.map_map]
  refine List.map_congr_left fun x hx => ?_
  simp only [Function.comp_apply]
  by_cases hi : x.id = id
  · rw [if_pos hi]
    have hxr : x = r := key_unique hwf.secSorted hx hmem (hi.trans hrid.symm)
    rw [hxr]
    exact applySectionPatch_diff_roundtrip p r t u
  · rw [if_neg hi]

theorem batchEntries_sorted (base b t : Nat) (mk : TodoItem → EntryData)
    (P : List TodoItem) :
    SortedByKey ChangelogEntry.id (batchEntries base b t mk P) := by
  induction P generalizing base with
  | nil => exact List.Pairwise.nil
  | cons r P2 ih =>
    rw [batchEntries]
    refine List.pairwise_cons.2 ⟨?_, ih (base + 1)⟩
    intro e he
    have := batchEntries_id_ge (base + 1) b t mk P2 e he
    show base < e.id
    omega

theorem sortedByKey_singleton {α : Type} (key : α → Nat) (x : α) :
    SortedByKey key [x] := by
  refine List.pairwise_cons.2 ⟨?_, List.Pairwise.nil⟩
  intro y hy
  cases hy

theorem storeWF_changelog_ext (db : DB) (hwf : StoreWF db) (hact : allActive db)
    (L : List ChangelogEntry) (n nb : Nat)
    (hsort : SortedByKey ChangelogEntry.id L)
    (hge : ∀ e ∈ L, db.nextChangelogId ≤ e.id)
    (hlt : ∀ e ∈ L, e.id < db.nextChangelogId + n)
    (hbt : ∀ e ∈ L, (e.batchId.all fun x => x < nb) = true)
    (hactL : ∀ e ∈ L, e.isActive = true)
    (hnb : db.nextBatchId ≤ nb) :
    SortedByKey ChangelogEntry.id (db.changelog ++ L) ∧
    (∀ e ∈ db.changelog ++ L, e.id < db.nextChangelogId + n) ∧
    (∀ e ∈ db.changelog ++ L, (e.batchId.all fun x => x < nb) = true) ∧
    (∀ e ∈ db.changelog ++ L, e.isActive = true) := by
  refine ⟨sortedByKey_append hwf.clSorted hsort
    (fun a ha b hb => Nat.lt_of_lt_of_le (hwf.clLt a ha) (hge b hb)), ?_, ?_, ?_⟩
  · intro e he
    rcases List.mem_append.1 he with h | h
    · exact Nat.lt_of_lt_of_le (hwf.clLt e h) (Nat.le_add_right _ n)
    · exact hlt e h
  · intro e he
    rcases List.mem_append.1 he with h | h
    · have hb := hwf.clBatchLt e h
      cases hbe : e.batchId with
      | none => rfl
      | some v =>
        rw [hbe] at hb
        simp only [Option.all_some, decide_eq_true_eq] at hb ⊢
        omega
    · exact hbt e h
  · intro e he
    rcases List.mem_append.1 he with h | h
    · exact hact e h
    · exact hactL e h

theorem bulk_inv (db : DB) (hwf : StoreWF db) (hact : allActive db)
    (cond : Nat → Bool) (f : TodoItem → TodoItem) (mk : TodoItem → EntryData)
    (t : Nat) (hfid : ∀ r, (f r).id = r.id) :
    StoreWF
      { db with
        todos := db.todos.map fun r => if cond r.id then f r else r
        changelog := db.changelog ++
          batchEntries db.nextChangelogId db.nextBatchId t mk
            (db.todos.filter fun r => cond r.id)
        nextChangelogId := db.nextChangelogId +
          (db.todos.filter fun r => cond r.id).length
        nextBatchId := db.nextBatchId + 1 } ∧
    allActive
      { db with
        todos := db.todos.map fun r => if cond r.id then f r else r
        changelog := db.changelog ++
          batchEntries db.nextChangelogId db.nextBatchId t mk
            (db.todos.filter fun r => cond r.id)
        nextChangelogId := db.nextChangelogId +
          (db.todos.filter fun r => cond r.id).length
        nextBatchId := db.nextBatchId + 1 } := by
  obtain ⟨h1, h2, h3, h4⟩ := storeWF_changelog_ext db hwf hact
    (batchEntries db.nextChangelogId db.nextBatchId t mk
      (db.todos.filter fun r => cond r.id))
    (db.todos.filter fun r => cond r.id).length (db.nextBatchId + 1)
    (batchEntries_sorted _ _ _ _ _)
    (batchEntries_id_ge _ _ _ _ _)
    (batchEntries_id_lt _ _ _ _ _)
    (fun e he => by
      have hbe := batchEntries_batchId db.nextChangelogId db.nextBatchId t mk
        (db.todos.filter fun r => cond r.id) e he
      rw [hbe]
      simp)
    (batchEntries_isActive _ _ _ _ _)
    (Nat.le_succ _)
  refine ⟨⟨hwf.secSorted, ?_, h1, hwf.secLt, ?_, h2, h3⟩, h4⟩
  · refine sortedByKey_map ?_ hwf.todoSorted
    intro x
    by_cases hc : cond x.id
    · rw [if_pos hc]
      exact hfid x
    · rw [if_neg hc]
  · intro r2 hr2
    obtain ⟨x, hx, rfl⟩ := List.mem_map.1 hr2
    by_cases hc : cond x.id
    · rw [if_pos hc, hfid x]
      exact hwf.todoLt x hx
    · rw [if_neg hc]
      exact hwf.todoLt x hx

theorem applyMutation_inv (m : Mutation) (t : Nat) (db : DB)
    (hwf : StoreWF db) (hact : allActive db) (hm : m.isReassignDelete = false) :
    StoreWF (applyMutation m t db) ∧ allActive (applyMutation m t db) := by
  cases m with
  | createSection d =>
    have hins := insertById_append TodoSection.id
      (⟨db.nextSectionId, d.name, d.order, t, t⟩ : TodoSection) db.sections
      (fun x hx => hwf.secLt x hx)
    have hsnd : applyMutation (Mutation.createSection d) t db =
        { db with
          sections := db.sections ++ [⟨db.nextSectionId, d.name, d.order, t, t⟩]
          nextSectionId := db.nextSectionId + 1
          changelog := db.changelog ++
            [⟨db.nextChangelogId, true, none, db.nextSectionId,
              EntryData.sectionInsert ⟨db.nextSectionId, d.name, d.order, t, t⟩, t⟩]
          nextChangelogId := db.nextChangelogId + 1 } := by
      show addChangelogEntry _ _ none t _ = _
      rw [addChangelogEntry_nonbatched _ _ t
        { db with
          sections := insertById TodoSection.id
            ⟨db.nextSectionId, d.name, d.order, t, t⟩ db.sections
          nextSectionId := db.nextSectionId + 1 } hact, hins]
    rw [hsnd]
    obtain ⟨h1, h2, h3, h4⟩ := storeWF_changelog_ext db hwf hact
      [⟨db.nextChangelogId, true, none, db.nextSectionId,
        EntryData.sectionInsert ⟨db.nextSectionId, d.name, d.order, t, t⟩, t⟩]
      1 db.nextBatchId
      (sortedByKey_singleton _ _)
      (fun e he => by cases List.mem_singleton.1 he; exact Nat.le_refl _)
      (fun e he => by cases List.mem_singleton.1 he; exact Nat.lt_succ_self _)
      (fun e he => by cases List.mem_singleton.1 he; rfl)
      (fun e he => by cases List.mem_singleton.1 he; rfl)
      (Nat.le_refl _)
    refine ⟨⟨?_, hwf.todoSorted, h1, ?_, hwf.todoLt, h2, h3⟩, h4⟩
    · exact sortedByKey_append hwf.secSorted (sortedByKey_singleton _ _)
        (fun a ha c hc => by cases List.mem_singleton.1 hc; exact hwf.secLt a ha)
    · intro r2 hr2
      rcases List.mem_append.1 hr2 with h | h
      · exact Nat.lt_succ_of_lt (hwf.secLt r2 h)
      · cases List.mem_singleton.1 h
        exact Nat.lt_succ_self _
  | createTodo d =>
    have hins := insertById_append TodoItem.id
      (⟨db.nextTodoId, d.text, d.completed, d.priority, d.sectionId, d.order,
        d.dueDate, t, t⟩ : TodoItem) db.todos
      (fun x hx => hwf.todoLt x hx)
    have hsnd : applyMutation (Mutation.createTodo d) t db =
        { db with
          todos := db.todos ++ [⟨db.nextTodoId, d.text, d.completed, d.priority,
            d.sectionId, d.order, d.dueDate, t, t⟩]
          nextTodoId := db.nextTodoId + 1
          changelog := db.changelog ++
            [⟨db.nextChangelogId, true, none, db.nextTodoId,
              EntryData.todoInsert ⟨db.nextTodoId, d.text, d.completed, d.priority,
                d.sectionId, d.order, d.dueDate, t, t⟩, t⟩]
          nextChangelogId := db.nextChangelogId + 1 } := by
      show addChangelogEntry _ _ none t _ = _
      rw [addChangelogEntry_nonbatched _ _ t
        { db with
          todos := insertById TodoItem.id ⟨db.nextTodoId, d.text, d.completed,
            d.priority, d.sectionId, d.order, d.dueDate, t, t⟩ db.todos
          nextTodoId := db.nextTodoId + 1 } hact, hins]
    rw [hsnd]
    obtain ⟨h1, h2, h3, h4⟩ := storeWF_changelog_ext db hwf hact
      [⟨db.nextChangelogId, true, none, db.nextTodoId,
        EntryData.todoInsert ⟨db.nextTodoId, d.text, d.completed, d.priority,
          d.sectionId, d.order, d.dueDate, t, t⟩, t⟩]
      1 db.nextBatchId
      (sortedByKey_singleton _ _)
      (fun e he => by cases List.mem_singleton.1 he; exact Nat.le_refl _)
      (fun e he => by cases List.mem_singleton.1 he; exact Nat.lt_succ_self _)
      (fun e he => by cases List.mem_singleton.1 he; rfl)
      (fun e he => by cases List.mem_singleton.1 he; rfl)
      (Nat.le_refl _)
    refine ⟨⟨hwf.secSorted, ?_, h1, hwf.secLt, ?_, h2, h3⟩, h4⟩
    · exact sortedByKey_append hwf.todoSorted (sortedByKey_singleton _ _)
        (fun a ha c hc => by cases List.mem_singleton.1 hc; exact hwf.todoLt a ha)
    · intro r2 hr2
      rcases List.mem_append.1 hr2 with h | h
      · exact Nat.lt_succ_of_lt (hwf.todoLt r2 h)
      · cases List.mem_singleton.1 h
        exact Nat.lt_succ_self _
  | updateSection id p =>
    cases hg : getSectionById id db with
    | none =>
      have hid : applyMutation (Mutation.updateSection id p) t db = db := by
        show (updateSection id p t db).2 = db
        simp only [updateSection, hg]
      rw [hid]
      exact ⟨hwf, hact⟩
    | some r =>
      have hmap1 : ∀ x : TodoSection,
          (if x.id = id then applySectionPatch p t x else x).id = x.id := by
        intro x
        by_cases hc : x.id = id
        · rw [if_pos hc]
          rfl
        · rw [if_neg hc]
      cases hemp : (sectionOldValues p r).isEmpty with
      | true =>
        have hsnd : applyMutation (Mutation.updateSection id p) t db =
            { db with sections := updateSectionsById id p t db.sections } := by
          show (updateSection id p t db).2 = _
          rw [updateSection_eq p t hg, if_pos hemp]
        rw [hsnd]
        refine ⟨⟨sortedByKey_map hmap1 hwf.secSorted, hwf.todoSorted, hwf.clSorted,
          ?_, hwf.todoLt, hwf.clLt, hwf.clBatchLt⟩, hact⟩
        intro r2 hr2
        obtain ⟨x, hx, rfl⟩ := List.mem_map.1 hr2
        rw [hmap1 x]
        exact hwf.secLt x hx
      | false =>
        have hne2 : ¬ (sectionOldValues p r).isEmpty = true := by simp [hemp]
        have hsnd : applyMutation (Mutation.updateSection id p) t db =
            { db with
              sections := updateSectionsById id p t db.sections
              changelog := db.changelog ++
                [⟨db.nextChangelogId, true, none, id,
                  EntryData.sectionUpdate (sectionOldValues p r)
                    (sectionNewValues p r), t⟩]
              nextChangelogId := db.nextChangelogId + 1 } := by
          show (updateSection id p t db).2 = _
          rw [updateSection_eq p t hg, if_neg hne2]
          exact addChangelogEntry_nonbatched _ _ t
            { db with sections := updateSectionsById id p t db.sections } hact
        rw [hsnd]
        obtain ⟨h1, h2, h3, h4⟩ := storeWF_changelog_ext db hwf hact
          [⟨db.nextChangelogId, true, none, id,
            EntryData.sectionUpdate (sectionOldValues p r) (sectionNewValues p r), t⟩]
          1 db.nextBatchId
          (sortedByKey_singleton _ _)
          (fun e he => by cases List.mem_singleton.1 he; exact Nat.le_refl _)
          (fun e he => by cases List.mem_singleton.1 he; exact Nat.lt_succ_self _)
          (fun e he => by cases List.mem_singleton.1 he; rfl)
          (fun e he => by cases List.mem_singleton.1 he; rfl)
          (Nat.le_refl _)
        refine ⟨⟨sortedByKey_map hmap1 hwf.secSorted, hwf.todoSorted, h1,
          ?_, hwf.todoLt, h2, h3⟩, h4⟩
        intro r2 hr2
        obtain ⟨x, hx, rfl⟩ := List.mem_map.1 hr2
        rw [hmap1 x]
        exact hwf.secLt x hx
  | updateTodo id p =>
    cases hg : getTodoById id db with
    | none =>
      have hid : applyMutation (Mutation.updateTodo id p) t db = db := by
        show (updateTodo id p t db).2 = db
        simp only [updateTodo, hg]
      rw [hid]
      exact ⟨hwf, hact⟩
    | some r =>
      have hmap1 : ∀ x : TodoItem,
          (if x.id = id then applyTodoPatch p t x else x).id = x.id := by
        intro x
        by_cases hc : x.id = id
        · rw [if_pos hc]
          rfl
        · rw [if_neg hc]
      cases hemp : (todoOldValues p r).isEmpty with
      | true =>
        have hsnd : applyMutation (Mutation.updateTodo id p) t db =
            { db with todos := updateTodosById id p t db.todos } := by
          show (updateTodo id p t db).2 = _
          rw [updateTodo_eq p t hg, if_pos hemp]
        rw [hsnd]
        refine ⟨⟨hwf.secSorted, sortedByKey_map hmap1 hwf.todoSorted, hwf.clSorted,
          hwf.secLt, ?_, hwf.clLt, hwf.clBatchLt⟩, hact⟩
        intro r2 hr2
        obtain ⟨x, hx, rfl⟩ := List.mem_map.1 hr2
        rw [hmap1 x]
        exact hwf.todoLt x hx
      | false =>
        have hne2 : ¬ (todoOldValues p r).isEmpty = true := by simp [hemp]
        have hsnd : applyMutation (Mutation.updateTodo id p) t db =
            { db with
              todos := updateTodosById id p t db.todos
              changelog := db.changelog ++
                [⟨db.nextChangelogId, true, none, id,
                  EntryData.todoUpdate (todoOldValues p r) (todoNewValues p r), t⟩]
              nextChangelogId := db.nextChangelogId + 1 } := by
          show (updateTodo id p t db).2 = _
          rw [updateTodo_eq p t hg, if_neg hne2]
          exact addChangelogEntry_nonbatched _ _ t
            { db with todos := updateTodosById id p t db.todos } hact
        rw [hsnd]
        obtain ⟨h1, h2, h3, h4⟩ := storeWF_changelog_ext db hwf hact
          [⟨db.nextChangelogId, true, none, id,
            EntryData.todoUpdate (todoOldValues p r) (todoNewValues p r), t⟩]
          1 db.nextBatchId
          (sortedByKey_singleton _ _)
          (fun e he => by cases List.mem_singleton.1 he; exact Nat.le_refl _)
          (fun e he => by cases List.mem_singleton.1 he; exact Nat.lt_succ_self _)
          (fun e he => by cases List.mem_singleton.1 he; rfl)
          (fun e he => by cases List.mem_singleton.1 he; rfl)
          (Nat.le_refl _)
        refine ⟨⟨hwf.secSorted, sortedByKey_map hmap1 hwf.todoSorted, h1,
          hwf.secLt, ?_, h2, h3⟩, h4⟩
        intro r2 hr2
        obtain ⟨x, hx, rfl⟩ := List.mem_map.1 hr2
        rw [hmap1 x]
        exact hwf.todoLt x hx
  | deleteSection id mv =>
    simp only [Mutation.isReassignDelete] at hm
    cases hg : getSectionById id db with
    | none =>
      have hid : applyMutation (Mutation.deleteSection id mv) t db = db := by
        show (deleteSection id mv t db).2 = db
        simp only [deleteSection, hg]
      rw [hid]
      exact ⟨hwf, hact⟩
    | some r =>
      have hsnd : applyMutation (Mutation.deleteSection id mv) t db =
          { db with
            sections := db.sections.filter fun s => s.id ≠ id
            todos := db.todos.filter fun x => x.sectionId ≠ id
            changelog := db.changelog ++
              (batchEntries db.nextChangelogId db.nextBatchId t EntryData.todoDelete
                  (db.todos.filter fun x => x.sectionId = id) ++
                [⟨db.nextChangelogId +
                    (db.todos.filter fun x => x.sectionId = id).length,
                  true, some db.nextBatchId, id, EntryData.sectionDelete r, t⟩])
            nextChangelogId := db.nextChangelogId +
              (db.todos.filter fun x => x.sectionId = id).length + 1
            nextBatchId := db.nextBatchId + 1 } := by
        show (deleteSection id mv t db).2 = _
        rw [deleteSection_children_eq db id t mv r hg hm hact]
      rw [hsnd]
      have hsortL : SortedByKey ChangelogEntry.id
          (batchEntries db.nextChangelogId db.nextBatchId t EntryData.todoDelete
              (db.todos.filter fun x => x.sectionId = id) ++
            [⟨db.nextChangelogId + (db.todos.filter fun x => x.sectionId = id).length,
              true, some db.nextBatchId, id, EntryData.sectionDelete r, t⟩]) :=
        sortedByKey_append (batchEntries_sorted _ _ _ _ _) (sortedByKey_singleton _ _)
          (fun a ha c hc => by
            cases List.mem_singleton.1 hc
            exact batchEntries_id_lt _ _ _ _ _ a ha)
      have hgeL : ∀ e ∈ batchEntries db.nextChangelogId db.nextBatchId t
          EntryData.todoDelete (db.todos.filter fun x => x.sectionId = id) ++
            [⟨db.nextChangelogId + (db.todos.filter fun x => x.sectionId = id).length,
              true, some db.nextBatchId, id, EntryData.sectionDelete r, t⟩],
          db.nextChangelogId ≤ e.id := by
        intro e he
        rcases List.mem_append.1 he with h | h
        · exact batchEntries_id_ge _ _ _ _ _ e h
        · cases List.mem_singleton.1 h
          exact Nat.le_add_right _ _
      have hltL : ∀ e ∈ batchEntries db.nextChangelogId db.nextBatchId t
          EntryData.todoDelete (db.todos.filter fun x => x.sectionId = id) ++
            [⟨db.nextChangelogId + (db.todos.filter fun x => x.sectionId = id).length,
              true, some db.nextBatchId, id, EntryData.sectionDelete r, t⟩],
          e.id < db.nextChangelogId +
            ((db.todos.filter fun x => x.sectionId = id).length + 1) := by
        intro e he
        rcases List.mem_append.1 he with h | h
        · have := batchEntries_id_lt _ _ _ _ _ e h
          omega
        · cases List.mem_singleton.1 h
          show db.nextChangelogId + (db.todos.filter fun x => x.sectionId = id).length <
            db.nextChangelogId + ((db.todos.filter fun x => x.sectionId = id).length + 1)
          omega
      have hbtL : ∀ e ∈ batchEntries db.nextChangelogId db.nextBatchId t
          EntryData.todoDelete (db.todos.filter fun x => x.sectionId = id) ++
            [⟨db.nextChangelogId + (db.todos.filter fun x => x.sectionId = id).length,
              true, some db.nextBatchId, id, EntryData.sectionDelete r, t⟩],
          (e.batchId.all fun x => x < db.nextBatchId + 1) = true := by
        intro e he
        rcases List.mem_append.1 he with h | h
        · have hbe := batchEntries_batchId _ _ _ _ _ e h
          rw [hbe]
          simp
        · cases List.mem_singleton.1 h
          show ((some db.nextBatchId).all fun x => x < db.nextBatchId + 1) = true
          simp
      have hactL2 : ∀ e ∈ batchEntries db.nextChangelogId db.nextBatchId t
          EntryData.todoDelete (db.todos.filter fun x => x.sectionId = id) ++
            [⟨db.nextChangelogId + (db.todos.filter fun x => x.sectionId = id).length,
              true, some db.nextBatchId, id, EntryData.sectionDelete r, t⟩],
          e.isActive = true := by
        intro e he
        rcases List.mem_append.1 he with h | h
        · exact batchEntries_isActive _ _ _ _ _ e h
        · cases List.mem_singleton.1 h
          rfl
      obtain ⟨h1, h2, h3, h4⟩ := storeWF_changelog_ext db hwf hact _
        ((db.todos.filter fun x => x.sectionId = id).length + 1) (db.nextBatchId + 1)
        hsortL hgeL hltL hbtL hactL2 (Nat.le_succ _)
      refine ⟨⟨sortedByKey_filter _ _ hwf.secSorted, sortedByKey_filter _ _ hwf.todoSorted,
        h1, ?_, ?_, ?_, h3⟩, h4⟩
      · intro r2 hr2
        exact hwf.secLt r2 (List.mem_of_mem_filter hr2)
      · intro r2 hr2
        exact hwf.todoLt r2 (List.mem_of_mem_filter hr2)
      · intro e he
        have h5 := h2 e he
        show e.id < db.nextChangelogId +
          (db.todos.filter fun x => x.sectionId = id).length + 1
        omega
  | deleteTodo id =>
    cases hg : getTodoById id db with
    | none =>
      have hid : applyMutation (Mutation.deleteTodo id) t db = db := by
        show (deleteTodo id t db).2 = db
        simp only [deleteTodo, hg]
      rw [hid]
      exact ⟨hwf, hact⟩
    | some r =>
      have hmem : r ∈ db.todos := List.mem_of_find?_eq_some hg
      have hrid : r.id = id := by simpa using List.find?_some hg
      have hchanges : 0 < (db.todos.filter fun x => x.id = id).length :=
        List.length_pos.2 (List.ne_nil_of_mem
          (List.mem_filter.2 ⟨hmem, by simp [hrid]⟩))
      have hsnd : applyMutation (Mutation.deleteTodo id) t db =
          { db with
            todos := db.todos.filter fun x => x.id ≠ id
            changelog := db.changelog ++
              [⟨db.nextChangelogId, true, none, id, EntryData.todoDelete r, t⟩]
            nextChangelogId := db.nextChangelogId + 1 } := by
        show (deleteTodo id t db).2 = _
        have heq : deleteTodo id t db =
            (true, addChangelogEntry id (EntryData.todoDelete r) none t
              { db with todos := db.todos.filter fun x => x.id ≠ id }) := by
          simp only [deleteTodo, hg]
          rw [if_pos hchanges]
        rw [heq]
        exact addChangelogEntry_nonbatched _ _ t
          { db with todos := db.todos.filter fun x => x.id ≠ id } hact
      rw [hsnd]
      obtain ⟨h1, h2, h3, h4⟩ := storeWF_changelog_ext db hwf hact
        [⟨db.nextChangelogId, true, none, id, EntryData.todoDelete r, t⟩]
        1 db.nextBatchId
        (sortedByKey_singleton _ _)
        (fun e he => by cases List.mem_singleton.1 he; exact Nat.le_refl _)
        (fun e he => by cases List.mem_singleton.1 he; exact Nat.lt_succ_self _)
        (fun e he => by cases List.mem_singleton.1 he; rfl)
        (fun e he => by cases List.mem_singleton.1 he; rfl)
        (Nat.le_refl _)
      refine ⟨⟨hwf.secSorted, sortedByKey_filter _ _ hwf.todoSorted, h1,
        hwf.secLt, ?_, h2, h3⟩, h4⟩
      intro r2 hr2
      exact hwf.todoLt r2 (List.mem_of_mem_filter hr2)
  | moveTodos ids target =>
    rw [show applyMutation (Mutation.moveTodos ids target) t db =
      (moveTodos ids target t db).2 from rfl, moveTodos_snd]
    exact bulk_inv db hwf hact (fun i => ids.contains i)
      (fun r => { r with sectionId := target, updatedAt := t })
      (fun todo => EntryData.todoUpdate { sectionId := some todo.sectionId }
        { sectionId := some target }) t (fun r => rfl)
  | markTodosCompleted ids c =>
    rw [show applyMutation (Mutation.markTodosCompleted ids c) t db =
      (markTodosCompleted ids c t db).2 from rfl, markTodosCompleted_snd]
    exact bulk_inv db hwf hact (fun i => ids.contains i)
      (fun r => { r with completed := c, updatedAt := t })
      (fun todo => EntryData.todoUpdate { completed := some todo.completed }
        { completed := some c }) t (fun r => rfl)
  | setTodosPriority ids pr =>
    rw [show applyMutation (Mutation.setTodosPriority ids pr) t db =
      (setTodosPriority ids pr t db).2 from rfl, setTodosPriority_snd]
    exact bulk_inv db hwf hact (fun i => ids.contains i)
      (fun r => { r with priority := pr, updatedAt := t })
      (fun todo => EntryData.todoUpdate { priority := some todo.priority }
        { priority := some pr }) t (fun r => rfl)
  | setTodosDueDate ids dd =>
    rw [show applyMutation (Mutation.setTodosDueDate ids dd) t db =
      (setTodosDueDate ids dd t db).2 from rfl, setTodosDueDate_snd]
    exact bulk_inv db hwf hact (fun i => ids.contains i)
      (fun r => { r with dueDate := dd, updatedAt := t })
      (fun todo => EntryData.todoUpdate { dueDate := some todo.dueDate }
        { dueDate := some dd }) t (fun r => rfl)

theorem cleanDB_addChangelogEntry (eid : Nat) (d : EntryData) (bid : Option Nat)
    (t : Nat) (db : DB) (h : CleanDB db) (hd : d.undoClean = true) :
    CleanDB (addChangelogEntry eid d bid t db) := by
  obtain ⟨h1, h2, h3⟩ := h
  cases bid with
  | none =>
    refine ⟨h1, h2, ?_⟩
    intro e he
    rcases List.mem_append.1 he with hh | hh
    · exact h3 e (List.mem_of_mem_filter hh)
    · cases List.mem_singleton.1 hh
      exact hd
  | some b =>
    refine ⟨h1, h2, ?_⟩
    intro e he
    rcases List.mem_append.1 he with hh | hh
    · exact h3 e hh
    · cases List.mem_singleton.1 hh
      exact hd

theorem applyTodoPatch_text_clean (p : TodoPatch) (t : Nat) (x : TodoItem)
    (hx : isoDatePrefix x.text = false) (hp : isoOpt p.text = false) :
    isoDatePrefix (applyTodoPatch p t x).text = false := by
  show isoDatePrefix (p.text.getD x.text) = false
  cases hpt : p.text with
  | none => exact hx
  | some s =>
    rw [hpt] at hp
    simpa [isoOpt] using hp

theorem applySectionPatch_name_clean (p : SectionPatch) (t : Nat) (x : TodoSection)
    (hx : isoDatePrefix x.name = false) (hp : isoOpt p.name = false) :
    isoDatePrefix (applySectionPatch p t x).name = false := by
  show isoDatePrefix (p.name.getD x.name) = false
  cases hpt : p.name with
  | none => exact hx
  | some s =>
    rw [hpt] at hp
    simpa [isoOpt] using hp

theorem applyMutation_clean (m : Mutation) (t : Nat) (db : DB)
    (hact : allActive db) (hclean : CleanDB db)
    (hm : m.isReassignDelete = false) (hcs : m.cleanStrings = true) :
    CleanDB (applyMutation m t db) := by
  obtain ⟨hcT, hcS, hcE⟩ := hclean
  cases m with
  | createSection d =>
    have hcs2 : isoDatePrefix d.name = false := by
      simpa [Mutation.cleanStrings] using hcs
    refine cleanDB_addChangelogEntry _ _ none t _ ⟨hcT, ?_, hcE⟩ rfl
    intro s hs
    rcases (mem_insertById TodoSection.id
        ⟨db.nextSectionId, d.name, d.order, t, t⟩ s db.sections).1 hs with rfl | hs2
    · exact hcs2
    · exact hcS s hs2
  | createTodo d =>
    have hcs2 : isoDatePrefix d.text = false := by
      simpa [Mutation.cleanStrings] using hcs
    refine cleanDB_addChangelogEntry _ _ none t _ ⟨?_, hcS, hcE⟩ rfl
    intro r hr
    rcases (mem_insertById TodoItem.id
        ⟨db.nextTodoId, d.text, d.completed, d.priority, d.sectionId, d.order,
          d.dueDate, t, t⟩ r db.todos).1 hr with rfl | hr2
    · exact hcs2
    · exact hcT r hr2
  | updateSection id p =>
    have hcs2 : isoOpt p.name = false := by
      simpa [Mutation.cleanStrings] using hcs
    cases hg : getSectionById id db with
    | none =>
      have hid : applyMutation (Mutation.updateSection id p) t db = db := by
        show (updateSection id p t db).2 = db
        simp only [updateSection, hg]
      rw [hid]
      exact ⟨hcT, hcS, hcE⟩
    | some r =>
      have hrmem : r ∈ db.sections := List.mem_of_find?_eq_some hg
      have hup : ∀ s2 ∈ updateSectionsById id p t db.sections,
          isoDatePrefix s2.name = false := by
        intro s2 hs2
        obtain ⟨x, hx, rfl⟩ := List.mem_map.1 hs2
        by_cases hc : x.id = id
        · rw [if_pos hc]
          exact applySectionPatch_name_clean p t x (hcS x hx) hcs2
        · rw [if_neg hc]
          exact hcS x hx
      cases hemp : (sectionOldValues p r).isEmpty with
      | true =>
        have hsnd : applyMutation (Mutation.updateSection id p) t db =
            { db with sections := updateSectionsById id p t db.sections } := by
          show (updateSection id p t db).2 = _
          rw [updateSection_eq p t hg, if_pos hemp]
        rw [hsnd]
        exact ⟨hcT, hup, hcE⟩
      | false =>
        have hne2 : ¬ (sectionOldValues p r).isEmpty = true := by simp [hemp]
        have hsnd : applyMutation (Mutation.updateSection id p) t db =
            addChangelogEntry id
              (EntryData.sectionUpdate (sectionOldValues p r) (sectionNewValues p r))
              none t { db with sections := updateSectionsById id p t db.sections } := by
          show (updateSection id p t db).2 = _
          rw [updateSection_eq p t hg, if_neg hne2]
        rw [hsnd]
        refine cleanDB_addChangelogEntry _ _ none t _ ⟨hcT, hup, hcE⟩ ?_
        show (!(isoOpt (diffOld p.name r.name))) = true
        rw [isoOpt_diffOld p.name r.name (hcS r hrmem)]
        rfl
  | updateTodo id p =>
    have hcs2 : isoOpt p.text = false := by
      simpa [Mutation.cleanStrings] using hcs
    cases hg : getTodoById id db with
    | none =>
      have hid : applyMutation (Mutation.updateTodo id p) t db = db := by
        show (updateTodo id p t db).2 = db
        simp only [updateTodo, hg]
      rw [hid]
      exact ⟨hcT, hcS, hcE⟩
    | some r =>
      have hrmem : r ∈ db.todos := List.mem_of_find?_eq_some hg
      have hup : ∀ r2 ∈ updateTodosById id p t db.todos,
          isoDatePrefix r2.text = false := by
        intro r2 hr2
        obtain ⟨x, hx, rfl⟩ := List.mem_map.1 hr2
        by_cases hc : x.id = id
        · rw [if_pos hc]
          exact applyTodoPatch_text_clean p t x (hcT x hx) hcs2
        · rw [if_neg hc]
          exact hcT x hx
      cases hemp : (todoOldValues p r).isEmpty with
      | true =>
        have hsnd : applyMutation (Mutation.updateTodo id p) t db =
            { db with todos := updateTodosById id p t db.todos } := by
          show (updateTodo id p t db).2 = _
          rw [updateTodo_eq p t hg, if_pos hemp]
        rw [hsnd]
        exact ⟨hup, hcS, hcE⟩
      | false =>
        have hne2 : ¬ (todoOldValues p r).isEmpty = true := by simp [hemp]
        have hsnd : applyMutation (Mutation.updateTodo id p) t db =
            addChangelogEntry id
              (EntryData.todoUpdate (todoOldValues p r) (todoNewValues p r))
              none t { db with todos := updateTodosById id p t db.todos } := by
          show (updateTodo id p t db).2 = _
          rw [updateTodo_eq p t hg, if_neg hne2]
        rw [hsnd]
        refine cleanDB_addChangelogEntry _ _ none t _ ⟨hup, hcS, hcE⟩ ?_
        show (!(isoOpt (diffOld p.text r.text))) = true
        rw [isoOpt_diffOld p.text r.text (hcT r hrmem)]
        rfl
  | deleteSection id mv =>
    simp only [Mutation.isReassignDelete] at hm
    cases hg : getSectionById id db with
    | none =>
      have hid : applyMutation (Mutation.deleteSection id mv) t db = db := by
        show (deleteSection id mv t db).2 = db
        simp only [deleteSection, hg]
      rw [hid]
      exact ⟨hcT, hcS, hcE⟩
    | some r =>
      have hrmem : r ∈ db.sections := List.mem_of_find?_eq_some hg
      have hsnd : applyMutation (Mutation.deleteSection id mv) t db =
          { db with
            sections := db.sections.filter fun s => s.id ≠ id
            todos := db.todos.filter fun x => x.sectionId ≠ id
            changelog := db.changelog ++
              (batchEntries db.nextChangelogId db.nextBatchId t EntryData.todoDelete
                  (db.todos.filter fun x => x.sectionId = id) ++
                [⟨db.nextChangelogId +
                    (db.todos.filter fun x => x.sectionId = id).length,
                  true, some db.nextBatchId, id, EntryData.sectionDelete r, t⟩])
            nextChangelogId := db.nextChangelogId +
              (db.todos.filter fun x => x.sectionId = id).length + 1
            nextBatchId := db.nextBatchId + 1 } := by
        show (deleteSection id mv t db).2 = _
        rw [deleteSection_children_eq db id t mv r hg hm hact]
      rw [hsnd]
      refine ⟨?_, ?_, ?_⟩
      · intro x hx
        exact hcT x (List.mem_of_mem_filter hx)
      · intro s hs
        exact hcS s (List.mem_of_mem_filter hs)
      · intro e he
        rcases List.mem_append.1 he with hh | hh
        · exact hcE e hh
        · rcases List.mem_append.1 hh with hh2 | hh2
          · obtain ⟨c2, hc2, hdata, _⟩ := batchEntries_data _ _ _ _ _ e hh2
            rw [hdata]
            show (!(isoDatePrefix c2.text)) = true
            rw [hcT c2 (List.mem_of_mem_filter hc2)]
            rfl
          · cases List.mem_singleton.1 hh2
            show (!(isoDatePrefix r.name)) = true
            rw [hcS r hrmem]
            rfl
  | deleteTodo id =>
    cases hg : getTodoById id db with
    | none =>
      have hid : applyMutation (Mutation.deleteTodo id) t db = db := by
        show (deleteTodo id t db).2 = db
        simp only [deleteTodo, hg]
      rw [hid]
      exact ⟨hcT, hcS, hcE⟩
    | some r =>
      have hrmem : r ∈ db.todos := List.mem_of_find?_eq_some hg
      have hrid : r.id = id := by simpa using List.find?_some hg
      have hchanges : 0 < (db.todos.filter fun x => x.id = id).length :=
        List.length_pos.2 (List.ne_nil_of_mem
          (List.mem_filter.2 ⟨hrmem, by simp [hrid]⟩))
      have hsnd : applyMutation (Mutation.deleteTodo id) t db =
          addChangelogEntry id (EntryData.todoDelete r) none t
            { db with todos := db.todos.filter fun x => x.id ≠ id } := by
        show (deleteTodo id t db).2 = _
        have heq : deleteTodo id t db =
            (true, addChangelogEntry id (EntryData.todoDelete r) none t
              { db with todos := db.todos.filter fun x => x.id ≠ id }) := by
          simp only [deleteTodo, hg]
          rw [if_pos hchanges]
        rw [heq]
      rw [hsnd]
      refine cleanDB_addChangelogEntry _ _ none t _ ⟨?_, hcS, hcE⟩ ?_
      · intro x hx
        exact hcT x (List.mem_of_mem_filter hx)
      · show (!(isoDatePrefix r.text)) = true
        rw [hcT r hrmem]
        rfl
  | moveTodos ids target =>
    rw [show applyMutation (Mutation.moveTodos ids target) t db =
      (moveTodos ids target t db).2 from rfl, moveTodos_snd]
    refine ⟨?_, hcS, ?_⟩
    · intro x hx
      obtain ⟨y, hy, rfl⟩ := List.mem_map.1 hx
      by_cases hc : ids.contains y.id
      · rw [if_pos hc]
        exact hcT y hy
      · rw [if_neg hc]
        exact hcT y hy
    · intro e he
      rcases List.mem_append.1 he with hh | hh
      · exact hcE e hh
      · obtain ⟨c2, hc2, hdata, _⟩ := batchEntries_data _ _ _ _ _ e hh
        rw [hdata]
        rfl
  | markTodosCompleted ids c =>
    rw [show applyMutation (Mutation.markTodosCompleted ids c) t db =
      (markTodosCompleted ids c t db).2 from rfl, markTodosCompleted_snd]
    refine ⟨?_, hcS, ?_⟩
    · intro x hx
      obtain ⟨y, hy, rfl⟩ := List.mem_map.1 hx
      by_cases hc : ids.contains y.id
      · rw [if_pos hc]
        exact hcT y hy
      · rw [if_neg hc]
        exact hcT y hy
    · intro e he
      rcases List.mem_append.1 he with hh | hh
      · exact hcE e hh
      · obtain ⟨c2, hc2, hdata, _⟩ := batchEntries_data _ _ _ _ _ e hh
        rw [hdata]
        rfl
  | setTodosPriority ids pr =>
    rw [show applyMutation (Mutation.setTodosPriority ids pr) t db =
      (setTodosPriority ids pr t db).2 from rfl, setTodosPriority_snd]
    refine ⟨?_, hcS, ?_⟩
    · intro x hx
      obtain ⟨y, hy, rfl⟩ := List.mem_map.1 hx
      by_cases hc : ids.contains y.id
      · rw [if_pos hc]
        exact hcT y hy
      · rw [if_neg hc]
        exact hcT y hy
    · intro e he
      rcases List.mem_append.1 he with hh | hh
      · exact hcE e hh
      · obtain ⟨c2, hc2, hdata, _⟩ := batchEntries_data _ _ _ _ _ e hh
        rw [hdata]
        rfl
  | setTodosDueDate ids dd =>
    rw [show applyMutation (Mutation.setTodosDueDate ids dd) t db =
      (setTodosDueDate ids dd t db).2 from rfl, setTodosDueDate_snd]
    refine ⟨?_, hcS, ?_⟩
    · intro x hx
      obtain ⟨y, hy, rfl⟩ := List.mem_map.1 hx
      by_cases hc : ids.contains y.id
      · rw [if_pos hc]
        exact hcT y hy
      · rw [if_neg hc]
        exact hcT y hy
    · intro e he
      rcases List.mem_append.1 he with hh | hh
      · exact hcE e hh
      · obtain ⟨c2, hc2, hdata, _⟩ := batchEntries_data _ _ _ _ _ e hh
        rw [hdata]
        rfl

theorem applyMutations_clean (ms : List (Mutation × Nat)) (db : DB)
    (hwf : StoreWF db) (hact : allActive db) (hclean : CleanDB db)
    (hms : ∀ mt ∈ ms, mt.1.isReassignDelete = false)
    (hcs : ∀ mt ∈ ms, mt.1.cleanStrings = true) :
    CleanDB (applyMutations ms db) := by
  induction ms generalizing db with
  | nil => exact hclean
  | cons mt ms ih =>
    have h1 := applyMutation_inv mt.1 mt.2 db hwf hact
      (hms mt (List.mem_cons_self mt ms))
    have h2 := applyMutation_clean mt.1 mt.2 db hact hclean
      (hms mt (List.mem_cons_self mt ms)) (hcs mt (List.mem_cons_self mt ms))
    exact ih (applyMutation mt.1 mt.2 db) h1.1 h1.2 h2
      (fun x hx => hms x (List.mem_cons_of_mem mt hx))
      (fun x hx => hcs x (List.mem_cons_of_mem mt hx))

theorem bulk_rel_of_no_match (db : DB) (cond : Nat → Bool) (f : TodoItem → TodoItem)
    (mk : TodoItem → EntryData) (t : Nat)
    (hnone : db.todos.filter (fun r => cond r.id) = []) :
    Rel
      { db with
        todos := db.todos.map fun r => if cond r.id then f r else r
        changelog := db.changelog ++
          batchEntries db.nextChangelogId db.nextBatchId t mk
            (db.todos.filter fun r => cond r.id)
        nextChangelogId := db.nextChangelogId +
          (db.todos.filter fun r => cond r.id).length
        nextBatchId := db.nextBatchId + 1 } db := by
  have hall : ∀ r ∈ db.todos, ¬ cond r.id = true := by
    intro r hr hc
    have hmem2 : r ∈ db.todos.filter fun r => cond r.id :=
      List.mem_filter.2 ⟨hr, hc⟩
    rw [hnone] at hmem2
    cases hmem2
  have hmap : ∀ l : List TodoItem, (∀ r ∈ l, ¬ cond r.id = true) →
      (l.map fun r => if cond r.id then f r else r) = l := by
    intro l hl
    induction l with
    | nil => rfl
    | cons x xs ih =>
      rw [List.map_cons, if_neg (hl x (List.mem_cons_self x xs)),
        ih fun r hr => hl r (List.mem_cons_of_mem x hr)]
  refine ⟨rfl, ?_, ?_⟩
  · show todosView (db.todos.map fun r => if cond r.id then f r else r) =
      todosView db.todos
    rw [hmap db.todos hall]
  · show activeEntries (db.changelog ++
      batchEntries db.nextChangelogId db.nextBatchId t mk
        (db.todos.filter fun r => cond r.id)) = activeEntries db.changelog
    rw [hnone]
    simp [batchEntries]

theorem step_inverts (m : Mutation) (t : Nat) (db : DB)
    (hwf : StoreWF db) (hact : allActive db) (hclean : CleanDB db)
    (hm : m.isReassignDelete = false) :
    Rel (applyMutation m t db) db ∨
    ∀ u, (undo u (applyMutation m t db)).1 = some true ∧
      Rel (undo u (applyMutation m t db)).2 db := by
  cases m with
  | createSection d =>
    right
    intro u
    show (undo u (createSection d t db).2).1 = some true ∧
      Rel (undo u (createSection d t db).2).2 db
    obtain ⟨h1, h2, h3, h4⟩ := createSection_undo db d t u hwf hact
    exact ⟨h1, by rw [h2], by rw [h3], by rw [h4, activeEntries_eq_self hact]⟩
  | createTodo d =>
    right
    intro u
    show (undo u (createTodo d t db).2).1 = some true ∧
      Rel (undo u (createTodo d t db).2).2 db
    obtain ⟨h1, h2, h3, h4⟩ := createTodo_undo db d t u hwf hact
    exact ⟨h1, by rw [h2], by rw [h3], by rw [h4, activeEntries_eq_self hact]⟩
  | updateSection id p =>
    cases hg : getSectionById id db with
    | none =>
      left
      have hid : applyMutation (Mutation.updateSection id p) t db = db := by
        show (updateSection id p t db).2 = db
        simp only [updateSection, hg]
      rw [hid]
      exact rel_refl db
    | some r =>
      cases hemp : (sectionOldValues p r).isEmpty with
      | true =>
        left
        exact updateSection_noop_rel db id p t r hg hwf hemp
      | false =>
        right
        intro u
        show (undo u (updateSection id p t db).2).1 = some true ∧
          Rel (undo u (updateSection id p t db).2).2 db
        obtain ⟨h1, h2, h3, h4⟩ :=
          updateSection_diff_undo db id p t u r hg hwf hact hemp
            (hclean.2.1 r (List.mem_of_find?_eq_some hg))
        exact ⟨h1, h2, by rw [h3], by rw [h4, activeEntries_eq_self hact]⟩
  | updateTodo id p =>
    cases hg : getTodoById id db with
    | none =>
      left
      have hid : applyMutation (Mutation.updateTodo id p) t db = db := by
        show (updateTodo id p t db).2 = db
        simp only [updateTodo, hg]
      rw [hid]
      exact rel_refl db
    | some r =>
      cases hemp : (todoOldValues p r).isEmpty with
      | true =>
        left
        exact updateTodo_noop_rel db id p t r hg hwf hemp
      | false =>
        right
        intro u
        show (undo u (updateTodo id p t db).2).1 = some true ∧
          Rel (undo u (updateTodo id p t db).2).2 db
        obtain ⟨h1, h2, h3, h4⟩ :=
          updateTodo_diff_undo db id p t u r hg hwf hact hemp
            (hclean.1 r (List.mem_of_find?_eq_some hg))
        exact ⟨h1, by rw [h2], h3, by rw [h4, activeEntries_eq_self hact]⟩
  | deleteSection id mv =>
    simp only [Mutation.isReassignDelete] at hm
    cases hg : getSectionById id db with
    | none =>
      left
      have hid : applyMutation (Mutation.deleteSection id mv) t db = db := by
        show (deleteSection id mv t db).2 = db
        simp only [deleteSection, hg]
      rw [hid]
      exact rel_refl db
    | some r =>
      right
      intro u
      show (undo u (deleteSection id mv t db).2).1 = some true ∧
        Rel (undo u (deleteSection id mv t db).2).2 db
      obtain ⟨hb, h1, h2, h3, h4⟩ :=
        deleteSection_children_undo db id t u mv r hg hm hwf hact hclean.1
          (hclean.2.1 r (List.mem_of_find?_eq_some hg))
      exact ⟨h1, by rw [h2], by rw [h3], by rw [h4, activeEntries_eq_self hact]⟩
  | deleteTodo id =>
    cases hg : getTodoById id db with
    | none =>
      left
      have hid : applyMutation (Mutation.deleteTodo id) t db = db := by
        show (deleteTodo id t db).2 = db
        simp only [deleteTodo, hg]
      rw [hid]
      exact rel_refl db
    | some r =>
      right
      intro u
      show (undo u (deleteTodo id t db).2).1 = some true ∧
        Rel (undo u (deleteTodo id t db).2).2 db
      obtain ⟨hb, h1, h2, h3, h4⟩ := deleteTodo_undo db id t u r hg hwf hact
        (hclean.1 r (List.mem_of_find?_eq_some hg))
      exact ⟨h1, by rw [h2], by rw [h3], by rw [h4, activeEntries_eq_self hact]⟩
  | moveTodos ids target =>
    by_cases hne : (db.todos.filter fun r => ids.contains r.id) = []
    · left
      show Rel (moveTodos ids target t db).2 db
      rw [moveTodos_snd]
      exact bulk_rel_of_no_match db (fun i => ids.contains i) _ _ t hne
    · right
      intro u
      show (undo u (moveTodos ids target t db).2).1 = some true ∧
        Rel (undo u (moveTodos ids target t db).2).2 db
      obtain ⟨h1, h2, h3, h4⟩ := bulk_batch_undo db (fun i => ids.contains i)
        (fun r => { r with sectionId := target, updatedAt := t })
        (fun r => { sectionId := some r.sectionId })
        (fun r => { sectionId := some target })
        t u (moveTodos ids target t db).2 hwf hact (fun r => rfl) (fun r => rfl) (fun r => rfl)
        hne (moveTodos_snd ids target t db)
      refine ⟨h1, by rw [h2], ?_, by rw [h4, activeEntries_eq_self hact]⟩
      rw [h3]
      exact todosView_touch (fun i => ids.contains i) u db.todos
  | markTodosCompleted ids c =>
    by_cases hne : (db.todos.filter fun r => ids.contains r.id) = []
    · left
      show Rel (markTodosCompleted ids c t db).2 db
      rw [markTodosCompleted_snd]
      exact bulk_rel_of_no_match db (fun i => ids.contains i) _ _ t hne
    · right
      intro u
      show (undo u (markTodosCompleted ids c t db).2).1 = some true ∧
        Rel (undo u (markTodosCompleted ids c t db).2).2 db
      obtain ⟨h1, h2, h3, h4⟩ := bulk_batch_undo db (fun i => ids.contains i)
        (fun r => { r with completed := c, updatedAt := t })
        (fun r => { completed := some r.completed })
        (fun r => { completed := some c })
        t u (markTodosCompleted ids c t db).2 hwf hact (fun r => rfl) (fun r => rfl) (fun r => rfl)
        hne (markTodosCompleted_snd ids c t db)
      refine ⟨h1, by rw [h2], ?_, by rw [h4, activeEntries_eq_self hact]⟩
      rw [h3]
      exact todosView_touch (fun i => ids.contains i) u db.todos
  | setTodosPriority ids pr =>
    by_cases hne : (db.todos.filter fun r => ids.contains r.id) = []
    · left
      show Rel (setTodosPriority ids pr t db).2 db
      rw [setTodosPriority_snd]
      exact bulk_rel_of_no_match db (fun i => ids.contains i) _ _ t hne
    · right
      intro u
      show (undo u (setTodosPriority ids pr t db).2).1 = some true ∧
        Rel (undo u (setTodosPriority ids pr t db).2).2 db
      obtain ⟨h1, h2, h3, h4⟩ := bulk_batch_undo db (fun i => ids.contains i)
        (fun r => { r with priority := pr, updatedAt := t })
        (fun r => { priority := some r.priority })
        (fun r => { priority := some pr })
        t u (setTodosPriority ids pr t db).2 hwf hact (fun r => rfl) (fun r => rfl) (fun r => rfl)
        hne (setTodosPriority_snd ids pr t db)
      refine ⟨h1, by rw [h2], ?_, by rw [h4, activeEntries_eq_self hact]⟩
      rw [h3]
      exact todosView_touch (fun i => ids.contains i) u db.todos
  | setTodosDueDate ids dd =>
    by_cases hne : (db.todos.filter fun r => ids.contains r.id) = []
    · left
      show Rel (setTodosDueDate ids dd t db).2 db
      rw [setTodosDueDate_snd]
      exact bulk_rel_of_no_match db (fun i => ids.contains i) _ _ t hne
    · right
      intro u
      show (undo u (setTodosDueDate ids dd t db).2).1 = some true ∧
        Rel (undo u (setTodosDueDate ids dd t db).2).2 db
      obtain ⟨h1, h2, h3, h4⟩ := bulk_batch_undo db (fun i => ids.contains i)
        (fun r => { r with dueDate := dd, updatedAt := t })
        (fun r => { dueDate := some r.dueDate })
        (fun r => { dueDate := some dd })
        t u (setTodosDueDate ids dd t db).2 hwf hact (fun r => rfl) (fun r => rfl) (fun r => rfl)
        hne (setTodosDueDate_snd ids dd t db)
      refine ⟨h1, by rw [h2], ?_, by rw [h4, activeEntries_eq_self hact]⟩
      rw [h3]
      exact todosView_touch (fun i => ids.contains i) u db.todos

theorem applyMutations_inv (ms : List (Mutation × Nat)) (db : DB)
    (hwf : StoreWF db) (hact : allActive db)
    (hms : ∀ mt ∈ ms, mt.1.isReassignDelete = false) :
    StoreWF (applyMutations ms db) ∧ allActive (applyMutations ms db) := by
  induction ms generalizing db with
  | nil => exact ⟨hwf, hact⟩
  | cons mt ms ih =>
    have h1 := applyMutation_inv mt.1 mt.2 db hwf hact
      (hms mt (List.mem_cons_self mt ms))
    exact ih (applyMutation mt.1 mt.2 db) h1.1 h1.2
      fun x hx => hms x (List.mem_cons_of_mem mt hx)

theorem undoTimes_applyMutations_rel (db0 : DB) (ms : List (Mutation × Nat))
    (hwf : StoreWF db0) (hcl : db0.changelog = []) (hclean0 : CleanDB db0) :
    ∀ uts : List Nat, ms.length ≤ uts.length →
      (∀ mt ∈ ms, mt.1.isReassignDelete = false) →
      (∀ mt ∈ ms, mt.1.cleanStrings = true) →
      ∃ db2, undoTimes uts (applyMutations ms db0) = some db2 ∧ Rel db2 db0 := by
  have hact0 : allActive db0 := by
    intro e he
    rw [hcl] at he
    cases he
  induction ms using List.reverseRecOn with
  | nil =>
    intro uts hlen hnor hcs
    exact ⟨db0, undoTimes_of_empty_changelog uts db0 hcl, rel_refl db0⟩
  | append_singleton ms mt ih =>
    intro uts hlen hnor hcs
    have hnor2 : ∀ x ∈ ms, x.1.isReassignDelete = false :=
      fun x hx => hnor x (List.mem_append.2 (Or.inl hx))
    have hcs2 : ∀ x ∈ ms, x.1.cleanStrings = true :=
      fun x hx => hcs x (List.mem_append.2 (Or.inl hx))
    have hinv := applyMutations_inv ms db0 hwf hact0 hnor2
    have hcleanN := applyMutations_clean ms db0 hwf hact0 hclean0 hnor2 hcs2
    have happ : applyMutations (ms ++ [mt]) db0 =
        applyMutation mt.1 mt.2 (applyMutations ms db0) := by
      simp [applyMutations, List.foldl_append]
    have hmt : mt.1.isReassignDelete = false :=
      hnor mt (List.mem_append.2 (Or.inr (List.mem_singleton.2 rfl)))
    have hstep := step_inverts mt.1 mt.2 (applyMutations ms db0) hinv.1 hinv.2
      hcleanN hmt
    rw [happ]
    rcases hstep with hrel | hundo
    · have hor := undoTimes_rel uts hrel
      have hlen2 : ms.length ≤ uts.length := by
        rw [List.length_append] at hlen
        omega
      obtain ⟨db2, hdb2, hreldb2⟩ := ih uts hlen2 hnor2 hcs2
      rw [hdb2] at hor
      obtain ⟨a, ha, hrela⟩ := orel_some_right hor
      exact ⟨a, ha, rel_trans hrela hreldb2⟩
    · cases uts with
      | nil =>
        rw [List.length_append] at hlen
        simp only [List.length_singleton, List.length_nil] at hlen
        exact absurd hlen (by omega)
      | cons u uts2 =>
        obtain ⟨hu1, hu2⟩ := hundo u
        have hE : undo u (applyMutation mt.1 mt.2 (applyMutations ms db0)) =
            (some true,
             (undo u (applyMutation mt.1 mt.2 (applyMutations ms db0))).2) := by
          rw [← hu1]
        rw [undoTimes, hE]
        have hlen2 : ms.length ≤ uts2.length := by
          rw [List.length_append] at hlen
          simp only [List.length_singleton, List.length_cons] at hlen
          omega
        obtain ⟨db2, hdb2, hreldb2⟩ := ih uts2 hlen2 hnor2 hcs2
        have hor := undoTimes_rel uts2 hu2
        rw [hdb2] at hor
        obtain ⟨a, ha, hrela⟩ := orel_some_right hor
        exact ⟨a, ha, rel_trans hrela hreldb2⟩

/-- C1 (amended): from a store whose changelog is empty, running any
sequence of facade mutations that contains no reassign-policy
`deleteSection` (truthy `moveToSectionId`) and introduces no
ISO-timestamp-shaped todo text or section name (none already stored, none
supplied), and then calling `undo()` at least as many times as there were
mutations, never throws and restores the `sections` and `todos` tables up
to the `updatedAt` timestamps that undo itself rewrites (all ids and all
other fields are restored exactly).  The reassign-policy delete must be
excluded because its child `sectionId` rewrites are never logged; the
ISO-shaped TEXT values must be excluded because the replay's `parseDates`
converts them to `Date` objects whose binding throws; and table equality
must be read up to `updatedAt` because undoing an update stamps the
undo-time into the row. -/
theorem mutations_then_undos_restore_views (db0 : DB) (ms : List (Mutation × Nat))
    (uts : List Nat) (hwf : StoreWF db0) (hcl : db0.changelog = [])
    (hclean : CleanDB db0)
    (hnor : ∀ mt ∈ ms, mt.1.isReassignDelete = false)
    (hcs : ∀ mt ∈ ms, mt.1.cleanStrings = true)
    (hlen : ms.length ≤ uts.length) :
    ∃ db2, undoTimes uts (applyMutations ms db0) = some db2 ∧
      sectionsView db2.sections = sectionsView db0.sections ∧
      todosView db2.todos = todosView db0.todos := by
  obtain ⟨db2, h1, h2⟩ :=
    undoTimes_applyMutations_rel db0 ms hwf hcl hclean uts hlen hnor hcs
  exact ⟨db2, h1, h2.1, h2.2.1⟩

theorem mutations_then_undos_restore_views_witness :
    ∃ db2,
      undoTimes [3, 4]
        (applyMutations
          [(Mutation.createTodo ⟨"write report", false, 0, 1, 0, none⟩, 1),
           (Mutation.markTodosCompleted [1] true, 2)] emptyDB) = some db2 ∧
      sectionsView db2.sections = sectionsView emptyDB.sections ∧
      todosView db2.todos = todosView emptyDB.todos :=
  mutations_then_undos_restore_views emptyDB
    [(Mutation.createTodo ⟨"write report", false, 0, 1, 0, none⟩, 1),
     (Mutation.markTodosCompleted [1] true, 2)]
    [3, 4]
    ⟨by decide, by decide, by decide, by decide, by decide, by decide, by decide⟩
    rfl ⟨by decide, by decide, by decide⟩ (by decide) (by decide) (by decide)

end Guppy
